import Mathlib

/-!
# Undo/redo history of the sketch document (`src/undoredo.cpp`)

A shallow embedding of the snapshot ring buffers and of the orchestrating
verbs `UndoRemember`, `UndoUndo`, `UndoRedo`, `UndoClearStack`, and of
`TtfFont::FontFileBaseName` from `src/ttf.cpp`.

* C `int` counters (`cnt`, `write`) are `Int`; the capacity `MAX_UNDO` is a
  parameter of every operation.
* The global sketch `SK`, `SS.GW.activeGroup`, the two stacks and the calls
  made to collaborators are fields of one explicit state record.
* `oops()` is the `none` result (`Except.error` where the state at the abort
  matters).
* Records are compared by value; a `std::string` is a list of characters.
* A second embedding of the same functions holds the `remap` of a group as
  the address of a heap block, to tell a shared block from a copy.
-/

namespace SolveSpace

/-! ## Data model -/

/-- Content of one field whose type is declared outside `undoredo.cpp`;
the value-initialised state `{}` of such a field is the empty payload. -/
abbrev Payload := List Nat

/-- One `Group`: handle, the persistent fields that `undoredo.cpp` copies
without naming them (`fields`), and every field the file names. -/
structure Group where
  h : Nat
  fields : Payload
  clean : Bool
  solved : Payload
  polyLoops : Payload
  bezierLoops : Payload
  bezierOpens : Payload
  polyError : Payload
  thisMesh : Payload
  runningMesh : Payload
  thisShell : Payload
  runningShell : Payload
  displayMesh : Payload
  displayEdges : Payload
  remap : List (Nat × Nat)
  impMesh : Payload
  impShell : Payload
  impEntity : Payload
deriving DecidableEq, Repr

/-- One `Request`, a plain value record. -/
structure Request where
  h : Nat
  fields : Payload
deriving DecidableEq, Repr

/-- One `Constraint`: persistent fields plus the scratch cache `dogd`. -/
structure Constraint where
  h : Nat
  fields : Payload
  dogd : Payload
deriving DecidableEq, Repr

/-- One `Param`, a plain value record. -/
structure Param where
  h : Nat
  fields : Payload
deriving DecidableEq, Repr

/-- One `Style`, a plain value record. -/
structure Style where
  h : Nat
  fields : Payload
deriving DecidableEq, Repr

/-- The live sketch `SK`: the five ordered collections. -/
structure Sketch where
  group : List Group
  request : List Request
  constraint : List Constraint
  param : List Param
  style : List Style
deriving DecidableEq, Repr

/-- One history slot, `UndoState`. -/
structure UndoState where
  group : List Group
  request : List Request
  constraint : List Constraint
  param : List Param
  style : List Style
  activeGroup : Nat
deriving DecidableEq, Repr

/-- The value-initialised slot, `*ut = {}`. -/
def UndoState.empty : UndoState :=
  { group := [], request := [], constraint := [], param := [], style := [],
    activeGroup := 0 }

/-- One history buffer, `UndoStack`: the slot array `d`, `cnt` and `write`. -/
structure UndoStack where
  d : List UndoState
  cnt : Int
  write : Int
deriving DecidableEq, Repr

/-- The value-initialised buffer, `*uk = {}`, for an array of `MAX_UNDO` slots. -/
def UndoStack.empty (MAX_UNDO : Nat) : UndoStack :=
  { d := List.replicate MAX_UNDO UndoState.empty, cnt := 0, write := 0 }

/-- Menu entries addressed by `UndoEnableMenus`. -/
inductive MenuId where
  | MNU_UNDO
  | MNU_REDO
deriving DecidableEq, Repr

/-- Calls that leave `undoredo.cpp`, recorded in the order they are made. -/
inductive Call where
  | EnableMenuById (id : MenuId) (enabled : Bool)
  | GW_ClearSuper
  | TW_ClearSuper
  | ReloadAllImported
  | GenerateAll (first last : Int)
deriving DecidableEq, Repr

/-- Which of the two buffers a `UndoStack *uk` argument points at. -/
inductive StackSel where
  | undo
  | redo
deriving DecidableEq, Repr

/-- The program state that `undoredo.cpp` reads and writes. -/
structure SolveSpaceUI where
  SK : Sketch
  activeGroup : Nat
  undo : UndoStack
  redo : UndoStack
  unsaved : Bool
  showTW : Bool
  calls : List Call
deriving DecidableEq, Repr

/-- Dereference `uk`. -/
def SolveSpaceUI.stack (s : SolveSpaceUI) : StackSel → UndoStack
  | .undo => s.undo
  | .redo => s.redo

/-- Store through `uk`. -/
def SolveSpaceUI.setStack (s : SolveSpaceUI) (sel : StackSel) (uk : UndoStack) : SolveSpaceUI :=
  match sel with
  | .undo => { s with undo := uk }
  | .redo => { s with redo := uk }

/-- Read `uk->d[i]`. -/
def UndoStack.slot (uk : UndoStack) (i : Int) : UndoState :=
  uk.d.getD i.toNat UndoState.empty

/-- Write `uk->d[i]`. -/
def UndoStack.setSlot (uk : UndoStack) (i : Int) (ut : UndoState) : UndoStack :=
  { uk with d := uk.d.set i.toNat ut }

/-! ## Helpers declared outside `undoredo.cpp` -/

/-- Modelled from the spec: `WRAP(v, n)` is declared outside the source files
at hand; the spec gives `write = (write + 1) mod MAX_UNDO` and
`write = (write - 1) mod MAX_UNDO`, the result lying in `[0, n)`. -/
def WRAP (v n : Int) : Int := v % n

/-- Modelled from the spec: the collection type is declared outside the
source files at hand; `Add` puts a copy of the record at the end of the
ordered sequence. -/
def Add {α : Type} (l : List α) (x : α) : List α := l ++ [x]

/-- Modelled from the spec: `Clear` of a collection leaves it empty. -/
def Clear {α : Type} (_l : List α) : List α := []

/-- Modelled from the spec: `MoveSelfInto` is "take ownership, leave source
empty"; the result is the pair (source afterwards, destination afterwards). -/
def MoveSelfInto {α : Type} (self _dest : List α) : List α × List α := ([], self)

/-- Modelled from the spec: `DeepCopyInto` makes the destination an
independent copy with the entries of the source. -/
def DeepCopyInto {α : Type} (self _dest : List α) : List α := self

/-- Modelled from the spec: `Group::Clear` frees every substructure the group
owns, its `remap` included. -/
def Group.Clear (g : Group) : Group :=
  { g with
    solved := [], polyLoops := [], bezierLoops := [], bezierOpens := [],
    polyError := [], thisMesh := [], runningMesh := [], thisShell := [],
    runningShell := [], displayMesh := [], displayEdges := [], remap := [],
    impMesh := [], impShell := [], impEntity := [] }

/-- The constant `INT_MAX`. -/
def INT_MAX : Int := 2147483647

/-! ## `undoredo.cpp` -/

/-- `UndoEnableMenus`. -/
def UndoEnableMenus (s : SolveSpaceUI) : SolveSpaceUI :=
  let s := { s with calls := s.calls ++ [Call.EnableMenuById MenuId.MNU_UNDO (decide (s.undo.cnt > 0))] }
  { s with calls := s.calls ++ [Call.EnableMenuById MenuId.MNU_REDO (decide (s.redo.cnt > 0))] }

/-- `UndoClearState`. -/
def UndoClearState (ut : UndoState) : UndoState :=
  let ut := { ut with group := ut.group.map (fun (g : Group) => { g with remap := Clear g.remap }) }
  let ut := { ut with group := Clear ut.group }
  let ut := { ut with request := Clear ut.request }
  let ut := { ut with constraint := Clear ut.constraint }
  let ut := { ut with param := Clear ut.param }
  let _ut := { ut with style := Clear ut.style }
  UndoState.empty

/-- Body of the first loop of `PushFromCurrentOnto`, for one live group. -/
def PushFromCurrentOnto.groupStep (ut : UndoState) (src : Group) : UndoState :=
  let dest := src
  let dest := { dest with clean := false }
  let dest := { dest with solved := [] }
  let dest := { dest with polyLoops := [] }
  let dest := { dest with bezierLoops := [] }
  let dest := { dest with bezierOpens := [] }
  let dest := { dest with polyError := [] }
  let dest := { dest with thisMesh := [] }
  let dest := { dest with runningMesh := [] }
  let dest := { dest with thisShell := [] }
  let dest := { dest with runningShell := [] }
  let dest := { dest with displayMesh := [] }
  let dest := { dest with displayEdges := [] }
  let dest := { dest with remap := [] }
  let dest := { dest with remap := DeepCopyInto src.remap dest.remap }
  let dest := { dest with impMesh := [] }
  let dest := { dest with impShell := [] }
  let dest := { dest with impEntity := [] }
  { ut with group := Add ut.group dest }

/-- Body of the constraint loop of `PushFromCurrentOnto`. -/
def PushFromCurrentOnto.constraintStep (ut : UndoState) (src : Constraint) : UndoState :=
  let dest := src
  let dest := { dest with dogd := [] }
  { ut with constraint := Add ut.constraint dest }

/-- Lines 49 to 89 of `PushFromCurrentOnto`: the slot is value-initialised
and filled from the live sketch. -/
def PushFromCurrentOnto.fill (s : SolveSpaceUI) : UndoState :=
  let ut := UndoState.empty
  let ut := s.SK.group.foldl PushFromCurrentOnto.groupStep ut
  let ut := s.SK.request.foldl (fun ut r => { ut with request := Add ut.request r }) ut
  let ut := s.SK.constraint.foldl PushFromCurrentOnto.constraintStep ut
  let ut := s.SK.param.foldl (fun ut p => { ut with param := Add ut.param p }) ut
  let ut := s.SK.style.foldl (fun ut st => { ut with style := Add ut.style st }) ut
  { ut with activeGroup := s.activeGroup }

/-- `PushFromCurrentOnto`. -/
def PushFromCurrentOnto (MAX_UNDO : Nat) (s : SolveSpaceUI) (sel : StackSel) : SolveSpaceUI :=
  let uk := s.stack sel
  let uk :=
    if uk.cnt = (MAX_UNDO : Int) then
      uk.setSlot uk.write (UndoClearState (uk.slot uk.write))
    else
      { uk with cnt := uk.cnt + 1 }
  let uk := uk.setSlot uk.write (PushFromCurrentOnto.fill s)
  let uk := { uk with write := WRAP (uk.write + 1) MAX_UNDO }
  s.setStack sel uk

/-- Lines 102 to 109 of `PopOntoCurrentFrom`: the live sketch is freed. -/
def PopOntoCurrentFrom.free (SK : Sketch) : Sketch :=
  let SK : Sketch := { SK with group := SK.group.map Group.Clear }
  let SK : Sketch := { SK with group := Clear SK.group }
  let SK : Sketch := { SK with request := Clear SK.request }
  let SK : Sketch := { SK with constraint := Clear SK.constraint }
  let SK : Sketch := { SK with param := Clear SK.param }
  { SK with style := Clear SK.style }

/-- Lines 112 to 116 of `PopOntoCurrentFrom`: the five collections of the
slot are moved into the live sketch; the result is the pair (slot
afterwards, sketch afterwards). -/
def PopOntoCurrentFrom.move (ut : UndoState) (SK : Sketch) : UndoState × Sketch :=
  let mg := MoveSelfInto ut.group SK.group
  let mr := MoveSelfInto ut.request SK.request
  let mc := MoveSelfInto ut.constraint SK.constraint
  let mp := MoveSelfInto ut.param SK.param
  let ms := MoveSelfInto ut.style SK.style
  ({ ut with group := mg.1, request := mr.1, constraint := mc.1, param := mp.1, style := ms.1 },
   { group := mg.2, request := mr.2, constraint := mc.2, param := mp.2, style := ms.2 })

/-- Lines 124 to 128 of `PopOntoCurrentFrom`: the collaborators are called,
in this order, and `later.showTW` is set. -/
def PopOntoCurrentFrom.reset (s : SolveSpaceUI) : SolveSpaceUI :=
  let s : SolveSpaceUI := { s with calls := s.calls ++ [Call.GW_ClearSuper] }
  let s : SolveSpaceUI := { s with calls := s.calls ++ [Call.TW_ClearSuper] }
  let s : SolveSpaceUI := { s with calls := s.calls ++ [Call.ReloadAllImported] }
  let s : SolveSpaceUI := { s with calls := s.calls ++ [Call.GenerateAll 0 INT_MAX] }
  { s with showTW := true }

/-- `PopOntoCurrentFrom`; `none` is `oops()`. -/
def PopOntoCurrentFrom (MAX_UNDO : Nat) (s : SolveSpaceUI) (sel : StackSel) : Option SolveSpaceUI :=
  let uk := s.stack sel
  if uk.cnt ≤ 0 then none
  else
    let uk : UndoStack := { uk with cnt := uk.cnt - 1 }
    let uk : UndoStack := { uk with write := WRAP (uk.write - 1) MAX_UNDO }
    let ut := uk.slot uk.write
    let SK := PopOntoCurrentFrom.free s.SK
    let moved := PopOntoCurrentFrom.move ut SK
    let activeGroup := moved.1.activeGroup
    let uk := uk.setSlot uk.write UndoState.empty
    let s := s.setStack sel uk
    let s : SolveSpaceUI := { s with SK := moved.2 }
    let s : SolveSpaceUI := { s with activeGroup := activeGroup }
    some (PopOntoCurrentFrom.reset s)

/-- The `while` loop of `UndoClearStack`, unrolled at most `fuel` times. -/
def UndoClearStack.loop (MAX_UNDO : Nat) : Nat → UndoStack → UndoStack
  | 0, uk => uk
  | fuel + 1, uk =>
    if uk.cnt > 0 then
      let uk := { uk with write := WRAP (uk.write - 1) MAX_UNDO }
      let uk := { uk with cnt := uk.cnt - 1 }
      let uk := uk.setSlot uk.write (UndoClearState (uk.slot uk.write))
      UndoClearStack.loop MAX_UNDO fuel uk
    else uk

/-- `UndoClearStack` on a buffer value: the loop runs `cnt` times, then the
whole buffer is value-initialised. -/
def UndoClearStack.onStack (MAX_UNDO : Nat) (uk : UndoStack) : UndoStack :=
  let _uk := UndoClearStack.loop MAX_UNDO uk.cnt.toNat uk
  UndoStack.empty MAX_UNDO

/-- `UndoClearStack`. -/
def UndoClearStack (MAX_UNDO : Nat) (s : SolveSpaceUI) (sel : StackSel) : SolveSpaceUI :=
  s.setStack sel (UndoClearStack.onStack MAX_UNDO (s.stack sel))

/-- `UndoRemember`. -/
def UndoRemember (MAX_UNDO : Nat) (s : SolveSpaceUI) : SolveSpaceUI :=
  let s := { s with unsaved := true }
  let s := PushFromCurrentOnto MAX_UNDO s StackSel.undo
  let s := UndoClearStack MAX_UNDO s StackSel.redo
  UndoEnableMenus s

/-- `UndoUndo`. -/
def UndoUndo (MAX_UNDO : Nat) (s : SolveSpaceUI) : Option SolveSpaceUI :=
  if s.undo.cnt ≤ 0 then some s else
  let s := PushFromCurrentOnto MAX_UNDO s StackSel.redo
  match PopOntoCurrentFrom MAX_UNDO s StackSel.undo with
  | none => none
  | some s => some (UndoEnableMenus s)

/-- `UndoRedo`. -/
def UndoRedo (MAX_UNDO : Nat) (s : SolveSpaceUI) : Option SolveSpaceUI :=
  if s.redo.cnt ≤ 0 then some s else
  let s := PushFromCurrentOnto MAX_UNDO s StackSel.undo
  match PopOntoCurrentFrom MAX_UNDO s StackSel.redo with
  | none => none
  | some s => some (UndoEnableMenus s)

/-- `PopOntoCurrentFrom` with the abort made observable: `.error s` is
`oops()` fired with the program in state `s`, `.ok s` is a normal return. -/
def PopOntoCurrentFrom.exec (MAX_UNDO : Nat) (s : SolveSpaceUI) (sel : StackSel) :
    Except SolveSpaceUI SolveSpaceUI :=
  let uk := s.stack sel
  if uk.cnt ≤ 0 then Except.error s
  else
    let uk : UndoStack := { uk with cnt := uk.cnt - 1 }
    let uk : UndoStack := { uk with write := WRAP (uk.write - 1) MAX_UNDO }
    let ut := uk.slot uk.write
    let SK := PopOntoCurrentFrom.free s.SK
    let moved := PopOntoCurrentFrom.move ut SK
    let activeGroup := moved.1.activeGroup
    let uk := uk.setSlot uk.write UndoState.empty
    let s := s.setStack sel uk
    let s : SolveSpaceUI := { s with SK := moved.2 }
    let s : SolveSpaceUI := { s with activeGroup := activeGroup }
    Except.ok (PopOntoCurrentFrom.reset s)

/-! ## `undoredo.cpp` with the remaps held by reference

The same functions once more, with the one substructure that capture
deep-copies, the `remap` of a group, held as the address of a heap block, so
that sharing of a block between the live document and a snapshot can be told
from a copy. -/

/-- Modelled from the spec: the heap blocks that hold the entries of the
remaps. A cell is the content of the block at that address, `none` once the
block is freed; a new block always takes the next unused address. -/
structure Heap where
  cells : List (Option (List (Nat × Nat)))
deriving DecidableEq, Repr

/-- A remap as a group record holds it: the address of its block, or `none`
for the value-initialised remap `{}` that has no block. -/
abbrev RemapRef := Option Nat

/-- The entries a remap handle stands for. -/
def Heap.read (H : Heap) : RemapRef → List (Nat × Nat)
  | none => []
  | some a => (H.cells.getD a none).getD []

/-- Modelled from the spec: `Clear` on a remap frees its block. -/
def Heap.free (H : Heap) : RemapRef → Heap
  | none => H
  | some a => { cells := H.cells.set a none }

/-- Modelled from the spec: `DeepCopyInto` gives the destination a new block
of its own, holding a copy of the entries of the source; the result is the
heap afterwards and the handle of the destination. -/
def DeepCopyIntoRef (H : Heap) (self _dest : RemapRef) : Heap × RemapRef :=
  ({ cells := H.cells ++ [some (H.read self)] }, some H.cells.length)

/-- One `Group` with its `remap` held by reference. -/
structure GroupRef where
  h : Nat
  fields : Payload
  clean : Bool
  solved : Payload
  polyLoops : Payload
  bezierLoops : Payload
  bezierOpens : Payload
  polyError : Payload
  thisMesh : Payload
  runningMesh : Payload
  thisShell : Payload
  runningShell : Payload
  displayMesh : Payload
  displayEdges : Payload
  remap : RemapRef
  impMesh : Payload
  impShell : Payload
  impEntity : Payload
deriving DecidableEq, Repr

/-- The live sketch with remaps held by reference. -/
structure SketchRef where
  group : List GroupRef
  request : List Request
  constraint : List Constraint
  param : List Param
  style : List Style
deriving DecidableEq, Repr

/-- One history slot with remaps held by reference. -/
structure UndoStateRef where
  group : List GroupRef
  request : List Request
  constraint : List Constraint
  param : List Param
  style : List Style
  activeGroup : Nat
deriving DecidableEq, Repr

/-- The value-initialised slot, `*ut = {}`. -/
def UndoStateRef.empty : UndoStateRef :=
  { group := [], request := [], constraint := [], param := [], style := [],
    activeGroup := 0 }

/-- One history buffer with remaps held by reference. -/
structure UndoStackRef where
  d : List UndoStateRef
  cnt : Int
  write : Int
deriving DecidableEq, Repr

/-- The value-initialised buffer, `*uk = {}`. -/
def UndoStackRef.empty (MAX_UNDO : Nat) : UndoStackRef :=
  { d := List.replicate MAX_UNDO UndoStateRef.empty, cnt := 0, write := 0 }

/-- The program state with the heap of remap blocks. -/
structure SolveSpaceUIRef where
  heap : Heap
  SK : SketchRef
  activeGroup : Nat
  undo : UndoStackRef
  redo : UndoStackRef
  unsaved : Bool
  showTW : Bool
  calls : List Call
deriving DecidableEq, Repr

/-- Dereference `uk`. -/
def SolveSpaceUIRef.stack (p : SolveSpaceUIRef) : StackSel → UndoStackRef
  | .undo => p.undo
  | .redo => p.redo

/-- Store through `uk`. -/
def SolveSpaceUIRef.setStack (p : SolveSpaceUIRef) (sel : StackSel) (uk : UndoStackRef) :
    SolveSpaceUIRef :=
  match sel with
  | .undo => { p with undo := uk }
  | .redo => { p with redo := uk }

/-- Read `uk->d[i]`. -/
def UndoStackRef.slot (uk : UndoStackRef) (i : Int) : UndoStateRef :=
  uk.d.getD i.toNat UndoStateRef.empty

/-- Write `uk->d[i]`. -/
def UndoStackRef.setSlot (uk : UndoStackRef) (i : Int) (ut : UndoStateRef) : UndoStackRef :=
  { uk with d := uk.d.set i.toNat ut }

/-- Modelled from the spec: `Group::Clear` frees every substructure the group
owns; of these the block of its `remap` lives on the heap. -/
def GroupRef.Clear (H : Heap) (g : GroupRef) : Heap := H.free g.remap

/-- `UndoEnableMenus`. -/
def UndoEnableMenusRef (p : SolveSpaceUIRef) : SolveSpaceUIRef :=
  let p : SolveSpaceUIRef :=
    { p with calls := p.calls ++ [Call.EnableMenuById MenuId.MNU_UNDO (decide (p.undo.cnt > 0))] }
  { p with calls := p.calls ++ [Call.EnableMenuById MenuId.MNU_REDO (decide (p.redo.cnt > 0))] }

/-- `UndoClearState`: the remap of every group of the slot is freed, the
collections are cleared and the slot is value-initialised. -/
def UndoClearStateRef (H : Heap) (ut : UndoStateRef) : Heap × UndoStateRef :=
  let H := ut.group.foldl (fun (H : Heap) (g : GroupRef) => H.free g.remap) H
  let ut : UndoStateRef := { ut with group := Clear ut.group }
  let ut : UndoStateRef := { ut with request := Clear ut.request }
  let ut : UndoStateRef := { ut with constraint := Clear ut.constraint }
  let ut : UndoStateRef := { ut with param := Clear ut.param }
  let _ut : UndoStateRef := { ut with style := Clear ut.style }
  (H, UndoStateRef.empty)

/-- Body of the first loop of `PushFromCurrentOnto`, for one live group:
`dest = *src` copies the record, handle included; the handle is then reset
and `DeepCopyInto` gives `dest` a block of its own. -/
def PushFromCurrentOntoRef.groupStep (acc : Heap × UndoStateRef) (src : GroupRef) :
    Heap × UndoStateRef :=
  let dest := src
  let dest : GroupRef := { dest with clean := false }
  let dest : GroupRef := { dest with solved := [] }
  let dest : GroupRef := { dest with polyLoops := [] }
  let dest : GroupRef := { dest with bezierLoops := [] }
  let dest : GroupRef := { dest with bezierOpens := [] }
  let dest : GroupRef := { dest with polyError := [] }
  let dest : GroupRef := { dest with thisMesh := [] }
  let dest : GroupRef := { dest with runningMesh := [] }
  let dest : GroupRef := { dest with thisShell := [] }
  let dest : GroupRef := { dest with runningShell := [] }
  let dest : GroupRef := { dest with displayMesh := [] }
  let dest : GroupRef := { dest with displayEdges := [] }
  let dest : GroupRef := { dest with remap := none }
  let copy := DeepCopyIntoRef acc.1 src.remap dest.remap
  let dest : GroupRef := { dest with remap := copy.2 }
  let dest : GroupRef := { dest with impMesh := [] }
  let dest : GroupRef := { dest with impShell := [] }
  let dest : GroupRef := { dest with impEntity := [] }
  (copy.1, { acc.2 with group := Add acc.2.group dest })

/-- Body of the constraint loop of `PushFromCurrentOnto`. -/
def PushFromCurrentOntoRef.constraintStep (ut : UndoStateRef) (src : Constraint) :
    UndoStateRef :=
  let dest := src
  let dest : Constraint := { dest with dogd := [] }
  { ut with constraint := Add ut.constraint dest }

/-- Lines 49 to 89 of `PushFromCurrentOnto`: the slot is value-initialised
and filled from the live sketch; the result is the heap afterwards and the
slot. -/
def PushFromCurrentOntoRef.fill (H : Heap) (SK : SketchRef) (activeGroup : Nat) :
    Heap × UndoStateRef :=
  let acc := SK.group.foldl PushFromCurrentOntoRef.groupStep (H, UndoStateRef.empty)
  let ut := acc.2
  let ut := SK.request.foldl
    (fun (ut : UndoStateRef) r => { ut with request := Add ut.request r }) ut
  let ut := SK.constraint.foldl PushFromCurrentOntoRef.constraintStep ut
  let ut := SK.param.foldl (fun (ut : UndoStateRef) q => { ut with param := Add ut.param q }) ut
  let ut := SK.style.foldl (fun (ut : UndoStateRef) st => { ut with style := Add ut.style st }) ut
  (acc.1, { ut with activeGroup := activeGroup })

/-- `PushFromCurrentOnto`. -/
def PushFromCurrentOntoRef (MAX_UNDO : Nat) (p : SolveSpaceUIRef) (sel : StackSel) :
    SolveSpaceUIRef :=
  let uk := p.stack sel
  let r : Heap × UndoStackRef :=
    if uk.cnt = (MAX_UNDO : Int) then
      let c := UndoClearStateRef p.heap (uk.slot uk.write)
      (c.1, uk.setSlot uk.write c.2)
    else
      (p.heap, { uk with cnt := uk.cnt + 1 })
  let f := PushFromCurrentOntoRef.fill r.1 p.SK p.activeGroup
  let uk := r.2.setSlot r.2.write f.2
  let uk : UndoStackRef := { uk with write := WRAP (uk.write + 1) MAX_UNDO }
  let p := p.setStack sel uk
  { p with heap := f.1 }

/-- Lines 102 to 109 of `PopOntoCurrentFrom`: every live group is cleared,
which frees its remap, and the five collections are cleared. -/
def PopOntoCurrentFromRef.free (H : Heap) (SK : SketchRef) : Heap × SketchRef :=
  let H := SK.group.foldl GroupRef.Clear H
  let SK : SketchRef := { SK with group := Clear SK.group }
  let SK : SketchRef := { SK with request := Clear SK.request }
  let SK : SketchRef := { SK with constraint := Clear SK.constraint }
  let SK : SketchRef := { SK with param := Clear SK.param }
  (H, { SK with style := Clear SK.style })

/-- Lines 112 to 116 of `PopOntoCurrentFrom`: the five collections of the
slot are moved into the live sketch, handles included. -/
def PopOntoCurrentFromRef.move (ut : UndoStateRef) (SK : SketchRef) : UndoStateRef × SketchRef :=
  let mg := MoveSelfInto ut.group SK.group
  let mr := MoveSelfInto ut.request SK.request
  let mc := MoveSelfInto ut.constraint SK.constraint
  let mp := MoveSelfInto ut.param SK.param
  let ms := MoveSelfInto ut.style SK.style
  ({ ut with group := mg.1, request := mr.1, constraint := mc.1, param := mp.1, style := ms.1 },
   { group := mg.2, request := mr.2, constraint := mc.2, param := mp.2, style := ms.2 })

/-- Lines 124 to 128 of `PopOntoCurrentFrom`. -/
def PopOntoCurrentFromRef.reset (p : SolveSpaceUIRef) : SolveSpaceUIRef :=
  let p : SolveSpaceUIRef := { p with calls := p.calls ++ [Call.GW_ClearSuper] }
  let p : SolveSpaceUIRef := { p with calls := p.calls ++ [Call.TW_ClearSuper] }
  let p : SolveSpaceUIRef := { p with calls := p.calls ++ [Call.ReloadAllImported] }
  let p : SolveSpaceUIRef := { p with calls := p.calls ++ [Call.GenerateAll 0 INT_MAX] }
  { p with showTW := true }

/-- `PopOntoCurrentFrom`; `none` is `oops()`. -/
def PopOntoCurrentFromRef (MAX_UNDO : Nat) (p : SolveSpaceUIRef) (sel : StackSel) :
    Option SolveSpaceUIRef :=
  let uk := p.stack sel
  if uk.cnt ≤ 0 then none
  else
    let uk : UndoStackRef := { uk with cnt := uk.cnt - 1 }
    let uk : UndoStackRef := { uk with write := WRAP (uk.write - 1) MAX_UNDO }
    let ut := uk.slot uk.write
    let freed := PopOntoCurrentFromRef.free p.heap p.SK
    let moved := PopOntoCurrentFromRef.move ut freed.2
    let activeGroup := moved.1.activeGroup
    let uk := uk.setSlot uk.write UndoStateRef.empty
    let p := p.setStack sel uk
    let p : SolveSpaceUIRef := { p with heap := freed.1 }
    let p : SolveSpaceUIRef := { p with SK := moved.2 }
    let p : SolveSpaceUIRef := { p with activeGroup := activeGroup }
    some (PopOntoCurrentFromRef.reset p)

/-- One pass through the body of the `while` loop of `UndoClearStack`. -/
def UndoClearStackRef.pass (MAX_UNDO : Nat) (acc : Heap × UndoStackRef) : Heap × UndoStackRef :=
  let uk : UndoStackRef := { acc.2 with write := WRAP (acc.2.write - 1) MAX_UNDO }
  let uk : UndoStackRef := { uk with cnt := uk.cnt - 1 }
  let c := UndoClearStateRef acc.1 (uk.slot uk.write)
  let uk := uk.setSlot uk.write c.2
  (c.1, uk)

/-- The `while` loop of `UndoClearStack`, unrolled at most `fuel` times. -/
def UndoClearStackRef.loop (MAX_UNDO : Nat) : Nat → Heap × UndoStackRef → Heap × UndoStackRef
  | 0, acc => acc
  | fuel + 1, acc =>
    if acc.2.cnt > 0 then
      UndoClearStackRef.loop MAX_UNDO fuel (UndoClearStackRef.pass MAX_UNDO acc)
    else acc

/-- `UndoClearStack`. -/
def UndoClearStackRef (MAX_UNDO : Nat) (p : SolveSpaceUIRef) (sel : StackSel) :
    SolveSpaceUIRef :=
  let r := UndoClearStackRef.loop MAX_UNDO (p.stack sel).cnt.toNat (p.heap, p.stack sel)
  let p := p.setStack sel (UndoStackRef.empty MAX_UNDO)
  { p with heap := r.1 }

/-- `UndoRemember`. -/
def UndoRememberRef (MAX_UNDO : Nat) (p : SolveSpaceUIRef) : SolveSpaceUIRef :=
  let p : SolveSpaceUIRef := { p with unsaved := true }
  let p := PushFromCurrentOntoRef MAX_UNDO p StackSel.undo
  let p := UndoClearStackRef MAX_UNDO p StackSel.redo
  UndoEnableMenusRef p

/-- `UndoUndo`. -/
def UndoUndoRef (MAX_UNDO : Nat) (p : SolveSpaceUIRef) : Option SolveSpaceUIRef :=
  if p.undo.cnt ≤ 0 then some p else
  let p := PushFromCurrentOntoRef MAX_UNDO p StackSel.redo
  match PopOntoCurrentFromRef MAX_UNDO p StackSel.undo with
  | none => none
  | some p => some (UndoEnableMenusRef p)

/-- `UndoRedo`. -/
def UndoRedoRef (MAX_UNDO : Nat) (p : SolveSpaceUIRef) : Option SolveSpaceUIRef :=
  if p.redo.cnt ≤ 0 then some p else
  let p := PushFromCurrentOntoRef MAX_UNDO p StackSel.undo
  match PopOntoCurrentFromRef MAX_UNDO p StackSel.redo with
  | none => none
  | some p => some (UndoEnableMenusRef p)

/-! ## `ttf.cpp` -/

/-- The library call `std::string::rfind` for a one-character pattern: the
index of the last occurrence, `none` for `npos`. -/
def rfind : List Char → Char → Option Nat
  | [], _ => none
  | x :: xs, c =>
    match rfind xs c with
    | some i => some (i + 1)
    | none => if x = c then some 0 else none

/-- The library call `std::string::erase(pos, len)`. -/
def erase (str : List Char) (pos len : Nat) : List Char :=
  str.take pos ++ str.drop (pos + len)

/-- `TtfFont::FontFileBaseName`. Strings are lists of characters, the empty
list being `""`; the macro `PATH_SEP`, declared outside the source files at
hand, is the one-character path separator of the platform and is a parameter. -/
def TtfFont.FontFileBaseName (PATH_SEP : Char) (fontFile : List Char) : List Char :=
  let baseName := fontFile
  let pos := rfind baseName PATH_SEP
  match pos with
  | some pos => erase baseName 0 (pos + 1)
  | none => []

/-! ## Vocabulary of the specification -/

/-- A group with its persistent fields and `remap` kept and every
regenerable field in its empty state. -/
def stripGroup (g : Group) : Group :=
  { h := g.h, fields := g.fields, clean := false, solved := [], polyLoops := [],
    bezierLoops := [], bezierOpens := [], polyError := [], thisMesh := [],
    runningMesh := [], thisShell := [], runningShell := [], displayMesh := [],
    displayEdges := [], remap := g.remap, impMesh := [], impShell := [],
    impEntity := [] }

/-- A constraint with its persistent fields kept and `dogd` empty. -/
def stripConstraint (c : Constraint) : Constraint :=
  { h := c.h, fields := c.fields, dogd := [] }

/-- The snapshot the specification asks capture to build from a live sketch
and active group. -/
def snapshotOf (SK : Sketch) (activeGroup : Nat) : UndoState :=
  { group := SK.group.map stripGroup, request := SK.request,
    constraint := SK.constraint.map stripConstraint, param := SK.param,
    style := SK.style, activeGroup := activeGroup }

/-- A live sketch as a restore of its snapshot leaves it: persistent content
kept, regenerable group fields and `dogd` empty. -/
def stripSketch (D : Sketch) : Sketch :=
  { group := D.group.map stripGroup, request := D.request,
    constraint := D.constraint.map stripConstraint, param := D.param, style := D.style }

/-- The five collections held by a slot. -/
def UndoState.sketch (ut : UndoState) : Sketch :=
  { group := ut.group, request := ut.request, constraint := ut.constraint,
    param := ut.param, style := ut.style }

/-- Every regenerable field of a group is in its empty state. -/
def Group.derivedEmpty (g : Group) : Prop :=
  g.clean = false ∧ g.solved = [] ∧ g.polyLoops = [] ∧ g.bezierLoops = [] ∧
  g.bezierOpens = [] ∧ g.polyError = [] ∧ g.thisMesh = [] ∧ g.runningMesh = [] ∧
  g.thisShell = [] ∧ g.runningShell = [] ∧ g.displayMesh = [] ∧
  g.displayEdges = [] ∧ g.impMesh = [] ∧ g.impShell = [] ∧ g.impEntity = []

/-- The persistent part of a group: its handle and unnamed persistent fields. -/
def Group.persistent (g : Group) : Nat × Payload := (g.h, g.fields)

/-- The persistent part of a constraint. -/
def Constraint.persistent (c : Constraint) : Nat × Payload := (c.h, c.fields)

/-- The data-model invariant of a history buffer of capacity `MAX_UNDO`: the
array has its `MAX_UNDO` slots, `0 ≤ cnt ≤ MAX_UNDO` and `0 ≤ write < MAX_UNDO`. -/
def UndoStack.WF (MAX_UNDO : Nat) (uk : UndoStack) : Prop :=
  uk.d.length = MAX_UNDO ∧ 0 ≤ uk.cnt ∧ uk.cnt ≤ (MAX_UNDO : Int) ∧
  0 ≤ uk.write ∧ uk.write < (MAX_UNDO : Int)

instance (MAX_UNDO : Nat) (uk : UndoStack) : Decidable (uk.WF MAX_UNDO) := by
  unfold UndoStack.WF
  infer_instance

instance (g : Group) : Decidable g.derivedEmpty := by
  unfold Group.derivedEmpty
  infer_instance

/-- The buffer read as a bounded stack: its `cnt` slots going backward
cyclically from index `write - 1`, most recent first. -/
def UndoStack.liveSlots (MAX_UNDO : Nat) (uk : UndoStack) : List UndoState :=
  (List.range uk.cnt.toNat).map (fun (i : Nat) => uk.slot (WRAP (uk.write - 1 - (i : Int)) MAX_UNDO))

/-- Buffer-level summary of a capture of snapshot `x`: the slot at `write`
holds `x`, `cnt` grows unless the buffer is full, `write` advances. -/
def UndoStack.pushed (MAX_UNDO : Nat) (uk : UndoStack) (x : UndoState) : UndoStack :=
  { d := uk.d.set uk.write.toNat x,
    cnt := if uk.cnt = (MAX_UNDO : Int) then uk.cnt else uk.cnt + 1,
    write := WRAP (uk.write + 1) MAX_UNDO }

/-- Buffer-level summary of a restore: `write` steps back, the slot there is
left empty, `cnt` shrinks. -/
def UndoStack.popped (MAX_UNDO : Nat) (uk : UndoStack) : UndoStack :=
  { d := uk.d.set (WRAP (uk.write - 1) MAX_UNDO).toNat UndoState.empty,
    cnt := uk.cnt - 1,
    write := WRAP (uk.write - 1) MAX_UNDO }

/-- The four collaborator calls made after a restore, in order. -/
def restoreCalls : List Call :=
  [Call.GW_ClearSuper, Call.TW_ClearSuper, Call.ReloadAllImported, Call.GenerateAll 0 INT_MAX]

/-- An edit of the live document: the sketch and the active group are
replaced, nothing else is touched. -/
def mutate (s : SolveSpaceUI) (D : Sketch) (a : Nat) : SolveSpaceUI :=
  { s with SK := D, activeGroup := a }

/-- One step of a session: a verb of the orchestrator, a stack clear, or an
edit of the live document. -/
inductive Verb where
  | Remember
  | Undo
  | Redo
  | ClearStack (sel : StackSel)
  | Mutate (D : Sketch) (a : Nat)
deriving DecidableEq, Repr

/-- Effect of one step; `none` is `oops()`. -/
def Verb.step (MAX_UNDO : Nat) (s : SolveSpaceUI) : Verb → Option SolveSpaceUI
  | .Remember => some (UndoRemember MAX_UNDO s)
  | .Undo => UndoUndo MAX_UNDO s
  | .Redo => UndoRedo MAX_UNDO s
  | .ClearStack sel => some (UndoClearStack MAX_UNDO s sel)
  | .Mutate D a => some (mutate s D a)

/-- Effect of a finite sequence of steps, left to right. -/
def run (MAX_UNDO : Nat) (s : SolveSpaceUI) : List Verb → Option SolveSpaceUI
  | [] => some s
  | v :: vs =>
    match v.step MAX_UNDO s with
    | none => none
    | some s1 => run MAX_UNDO s1 vs

/-- Each document of the list in turn becomes the live document and is
captured by `UndoRemember`. -/
def rememberEach (MAX_UNDO : Nat) (s : SolveSpaceUI) : List (Sketch × Nat) → SolveSpaceUI
  | [] => s
  | Da :: rest => rememberEach MAX_UNDO (UndoRemember MAX_UNDO (mutate s Da.1 Da.2)) rest

/-- The verb `UndoUndo` invoked `k` times in a row. -/
def undoTimes (MAX_UNDO : Nat) (s : SolveSpaceUI) : Nat → Option SolveSpaceUI
  | 0 => some s
  | k + 1 =>
    match UndoUndo MAX_UNDO s with
    | none => none
    | some s1 => undoTimes MAX_UNDO s1 k

/-- A state whose two buffers are value-initialised. -/
def initialState (MAX_UNDO : Nat) (D : Sketch) (a : Nat) : SolveSpaceUI :=
  { SK := D, activeGroup := a, undo := UndoStack.empty MAX_UNDO,
    redo := UndoStack.empty MAX_UNDO, unsaved := false, showTW := false, calls := [] }

/-- The group a record with its remap held by reference stands for: the
same fields, with the entries of the block in place of the handle. -/
def GroupRef.read (H : Heap) (g : GroupRef) : Group :=
  { h := g.h, fields := g.fields, clean := g.clean, solved := g.solved,
    polyLoops := g.polyLoops, bezierLoops := g.bezierLoops, bezierOpens := g.bezierOpens,
    polyError := g.polyError, thisMesh := g.thisMesh, runningMesh := g.runningMesh,
    thisShell := g.thisShell, runningShell := g.runningShell, displayMesh := g.displayMesh,
    displayEdges := g.displayEdges, remap := H.read g.remap, impMesh := g.impMesh,
    impShell := g.impShell, impEntity := g.impEntity }

/-- The sketch a sketch with remaps held by reference stands for. -/
def SketchRef.read (H : Heap) (SK : SketchRef) : Sketch :=
  { group := SK.group.map (GroupRef.read H), request := SK.request,
    constraint := SK.constraint, param := SK.param, style := SK.style }

/-- The snapshot a slot with remaps held by reference stands for. -/
def UndoStateRef.read (H : Heap) (ut : UndoStateRef) : UndoState :=
  { group := ut.group.map (GroupRef.read H), request := ut.request,
    constraint := ut.constraint, param := ut.param, style := ut.style,
    activeGroup := ut.activeGroup }

/-- The buffer a buffer with remaps held by reference stands for. -/
def UndoStackRef.read (H : Heap) (uk : UndoStackRef) : UndoStack :=
  { d := uk.d.map (UndoStateRef.read H), cnt := uk.cnt, write := uk.write }

/-- The state a state with remaps held by reference stands for. -/
def SolveSpaceUIRef.read (p : SolveSpaceUIRef) : SolveSpaceUI :=
  { SK := p.SK.read p.heap, activeGroup := p.activeGroup,
    undo := p.undo.read p.heap, redo := p.redo.read p.heap,
    unsaved := p.unsaved, showTW := p.showTW, calls := p.calls }

/-- The addresses of the remap blocks the groups of a list hold. -/
def blocksOf (gs : List GroupRef) : List Nat := gs.filterMap GroupRef.remap

/-- The addresses of the remap blocks held by slot `i` of a buffer. -/
def SolveSpaceUIRef.slotBlocks (p : SolveSpaceUIRef) (sel : StackSel) (i : Nat) : List Nat :=
  blocksOf ((p.stack sel).d.getD i UndoStateRef.empty).group

/-- A snapshot never aliases heap memory with the live document or with any
other snapshot: every block held by the live document or by a slot is
allocated, no slot holds a block the live document holds, and no two
different slots, of the same buffer or not, hold the same block. -/
def NoAliasing (p : SolveSpaceUIRef) : Prop :=
  (∀ a ∈ blocksOf p.SK.group, a < p.heap.cells.length) ∧
  (∀ sel i, ∀ a ∈ p.slotBlocks sel i, a < p.heap.cells.length) ∧
  (∀ sel i, ∀ a ∈ p.slotBlocks sel i, a ∉ blocksOf p.SK.group) ∧
  (∀ sel i sel2 j, (sel, i) ≠ (sel2, j) →
    ∀ a ∈ p.slotBlocks sel i, a ∉ p.slotBlocks sel2 j)

/-- An edit of the live document, from state `p` to state `q`: the edit may
rewrite or free any block the live document holds, allocate new blocks, and
leave any document whose remaps are blocks the live document held or new
ones; blocks it holds no handle to, and the two buffers, are out of its
reach. -/
def LiveEdit (p q : SolveSpaceUIRef) : Prop :=
  q.undo = p.undo ∧ q.redo = p.redo ∧
  p.heap.cells.length ≤ q.heap.cells.length ∧
  (∀ a, a < p.heap.cells.length → a ∉ blocksOf p.SK.group →
    q.heap.cells.getD a none = p.heap.cells.getD a none) ∧
  (∀ a ∈ blocksOf q.SK.group,
    a < q.heap.cells.length ∧ (a ∈ blocksOf p.SK.group ∨ p.heap.cells.length ≤ a))

/-- A group as capture writes it, with the given handle for its remap. -/
def stripGroupRef (g : GroupRef) (r : RemapRef) : GroupRef :=
  { h := g.h, fields := g.fields, clean := false, solved := [], polyLoops := [],
    bezierLoops := [], bezierOpens := [], polyError := [], thisMesh := [],
    runningMesh := [], thisShell := [], runningShell := [], displayMesh := [],
    displayEdges := [], remap := r, impMesh := [], impShell := [], impEntity := [] }

/-- The group entries of a capture whose first new block has address `n`. -/
def capturedAt : Nat → List GroupRef → List GroupRef
  | _, [] => []
  | n, g :: gs => stripGroupRef g (some n) :: capturedAt (n + 1) gs

/-- The two heaps hold the same content at every address of the list. -/
def Heap.agree (H H2 : Heap) (bs : List Nat) : Prop :=
  ∀ a ∈ bs, H2.cells.getD a none = H.cells.getD a none

/-- Buffer-level summary of a capture, remaps held by reference. -/
def UndoStackRef.pushed (MAX_UNDO : Nat) (uk : UndoStackRef) (x : UndoStateRef) : UndoStackRef :=
  { d := uk.d.set uk.write.toNat x,
    cnt := if uk.cnt = (MAX_UNDO : Int) then uk.cnt else uk.cnt + 1,
    write := WRAP (uk.write + 1) MAX_UNDO }

/-- Buffer-level summary of a restore, remaps held by reference. -/
def UndoStackRef.popped (MAX_UNDO : Nat) (uk : UndoStackRef) : UndoStackRef :=
  { d := uk.d.set (WRAP (uk.write - 1) MAX_UNDO).toNat UndoStateRef.empty,
    cnt := uk.cnt - 1,
    write := WRAP (uk.write - 1) MAX_UNDO }

/-- The heap at the moment capture starts to fill the slot: the blocks of the
evicted snapshot are freed when the buffer is full. -/
def SolveSpaceUIRef.heapAtFill (MAX_UNDO : Nat) (p : SolveSpaceUIRef) (sel : StackSel) : Heap :=
  if (p.stack sel).cnt = (MAX_UNDO : Int) then
    (UndoClearStateRef p.heap ((p.stack sel).slot (p.stack sel).write)).1
  else p.heap

/-- The five collections held by a slot, remaps held by reference. -/
def UndoStateRef.sketch (ut : UndoStateRef) : SketchRef :=
  { group := ut.group, request := ut.request, constraint := ut.constraint,
    param := ut.param, style := ut.style }

/-! ## Sample data -/

/-- A group with every regenerable field filled. -/
def sampleGroup (h : Nat) : Group :=
  { h := h, fields := [h, 4], clean := true, solved := [1], polyLoops := [2],
    bezierLoops := [3], bezierOpens := [4], polyError := [5], thisMesh := [6],
    runningMesh := [7], thisShell := [8], runningShell := [9], displayMesh := [10],
    displayEdges := [11], remap := [(h, 12)], impMesh := [13], impShell := [14],
    impEntity := [15] }

/-- Document A: one group. -/
def sketchA : Sketch :=
  { group := [sampleGroup 1], request := [{ h := 1, fields := [20] }],
    constraint := [{ h := 1, fields := [30], dogd := [31] }],
    param := [{ h := 1, fields := [40] }], style := [{ h := 1, fields := [50] }] }

/-- Document B: document A with a second group, request and constraint. -/
def sketchB : Sketch :=
  { group := [sampleGroup 1, sampleGroup 2],
    request := [{ h := 1, fields := [20] }, { h := 2, fields := [21] }],
    constraint := [{ h := 1, fields := [30], dogd := [31] }, { h := 2, fields := [32], dogd := [33] }],
    param := [{ h := 1, fields := [40] }], style := [{ h := 1, fields := [50] }] }

/-- Document C: three groups and nothing else. -/
def sketchC : Sketch :=
  { group := [sampleGroup 1, sampleGroup 2, sampleGroup 3], request := [],
    constraint := [], param := [], style := [] }

/-- A state of capacity 2 whose undo buffer is full (cursor at slot 1) and
whose redo buffer holds one snapshot. -/
def sampleState : SolveSpaceUI :=
  { SK := sketchB, activeGroup := 2,
    undo := { d := [snapshotOf sketchA 1, snapshotOf sketchC 3], cnt := 2, write := 1 },
    redo := { d := [snapshotOf sketchC 3, UndoState.empty], cnt := 1, write := 1 },
    unsaved := false, showTW := false, calls := [] }

/-- The availability signal as `UndoEnableMenus` emits it for a state: the
undo entry with `undo.cnt > 0`, then the redo entry with `redo.cnt > 0`. -/
def availabilitySignal (s : SolveSpaceUI) : List Call :=
  [Call.EnableMenuById MenuId.MNU_UNDO (decide (s.undo.cnt > 0)),
   Call.EnableMenuById MenuId.MNU_REDO (decide (s.redo.cnt > 0))]

/-- An invocation that leads from `s` to `s1` ends by emitting the
availability signal computed on `s1`: the calls it added to the log end with it. -/
def endsWithSignal (s s1 : SolveSpaceUI) : Prop :=
  ∃ mid, s1.calls = s.calls ++ mid ++ availabilitySignal s1

/-- The calls an invocation that leads from `s` to `s1` added to the log. -/
def emitted (s s1 : SolveSpaceUI) : List Call :=
  s1.calls.drop s.calls.length

/-- The state with the undo and redo buffers exchanged; the document, the
active group and everything else are left alone. -/
def swapBuffers (s : SolveSpaceUI) : SolveSpaceUI :=
  { s with undo := s.redo, redo := s.undo }

/-- A list of calls with the two components of every availability pair
exchanged. -/
def swapAvailability : List Call → List Call
  | Call.EnableMenuById MenuId.MNU_UNDO u :: Call.EnableMenuById MenuId.MNU_REDO r :: rest =>
    Call.EnableMenuById MenuId.MNU_UNDO r :: Call.EnableMenuById MenuId.MNU_REDO u
      :: swapAvailability rest
  | c :: rest => c :: swapAvailability rest
  | [] => []

/-- The swap of a result state of an invocation started in `s0`: buffers
exchanged, and the availability pair among the calls the invocation emitted
exchanged accordingly. -/
def swapResult (s0 s1 : SolveSpaceUI) : SolveSpaceUI :=
  { swapBuffers s1 with calls := s0.calls ++ swapAvailability (emitted s0 s1) }

/-- A slot holds a snapshot as capture builds it: stripping it again changes
nothing. -/
def UndoState.stripped (ut : UndoState) : Prop :=
  snapshotOf ut.sketch ut.activeGroup = ut

/-- Every slot of the buffer outside the `cnt` live ones is empty. -/
def UndoStack.deadEmpty (MAX_UNDO : Nat) (uk : UndoStack) : Prop :=
  ∀ i : Nat, i < MAX_UNDO →
    (∀ j : Nat, j < uk.cnt.toNat → (WRAP (uk.write - 1 - (j : Int)) MAX_UNDO).toNat ≠ i) →
    uk.d.getD i UndoState.empty = UndoState.empty

/-- What holds of a buffer in every state reached from empty buffers. -/
def UndoStack.Good (MAX_UNDO : Nat) (uk : UndoStack) : Prop :=
  uk.WF MAX_UNDO ∧ uk.deadEmpty MAX_UNDO ∧ ∀ ut ∈ uk.d, ut.stripped

/-- What holds of every state reached from empty buffers: both buffers are
good and together hold at most `MAX_UNDO` snapshots. -/
def Reach (MAX_UNDO : Nat) (s : SolveSpaceUI) : Prop :=
  s.undo.Good MAX_UNDO ∧ s.redo.Good MAX_UNDO ∧ s.undo.cnt + s.redo.cnt ≤ (MAX_UNDO : Int)

/-- The final path component of a file name: what follows the last
separator, or the whole name when it has no separator. -/
def finalComponent (sep : Char) : List Char → List Char
  | [] => []
  | x :: xs =>
    if sep ∈ xs then finalComponent sep xs
    else if x = sep then xs
    else x :: xs

/-- The font file name `arial.ttf`, which has no directory part. -/
def fontFileBare : List Char := ['a', 'r', 'i', 'a', 'l', '.', 't', 't', 'f']

/-- The font file name `/usr/fonts/arial.ttf`. -/
def fontFileFull : List Char :=
  ['/', 'u', 's', 'r', '/', 'f', 'o', 'n', 't', 's', '/', 'a', 'r', 'i', 'a', 'l', '.', 't', 't', 'f']

/-- A state of capacity 2 with both buffers empty and an empty call log. -/
def emptyHistoryState : SolveSpaceUI := initialState 2 sketchA 1

/-- A buffer of capacity 2 with no live slot, both slots empty and the write
cursor at slot 1: the undo buffer after three captures and two undos. -/
def staleCursorBuffer : UndoStack :=
  { d := [UndoState.empty, UndoState.empty], cnt := 0, write := 1 }

/-- A group of document A with its remap in the block at the given address. -/
def sampleGroupRef (h a : Nat) : GroupRef :=
  { h := h, fields := [h, 4], clean := true, solved := [1], polyLoops := [2],
    bezierLoops := [3], bezierOpens := [4], polyError := [5], thisMesh := [6],
    runningMesh := [7], thisShell := [8], runningShell := [9], displayMesh := [10],
    displayEdges := [11], remap := some a, impMesh := [13], impShell := [14],
    impEntity := [15] }

/-- State A with remaps held by reference: capacity 2, empty buffers, document
A live, the remap of its group in block 0. -/
def refStateA : SolveSpaceUIRef :=
  { heap := { cells := [some [(1, 12)]] },
    SK := { group := [sampleGroupRef 1 0], request := sketchA.request,
            constraint := sketchA.constraint, param := sketchA.param,
            style := sketchA.style },
    activeGroup := 1,
    undo := UndoStackRef.empty 2, redo := UndoStackRef.empty 2,
    unsaved := false, showTW := false, calls := [] }

/-- State B: the state after `UndoRemember` in state A and an edit that
rewrites the remap of group 1 in place (block 0) and adds a second group
with a new block. -/
def refStateB : SolveSpaceUIRef :=
  { UndoRememberRef 2 refStateA with
    heap := { cells := [some [(1, 99), (7, 7)], some [(1, 12)], some [(2, 12)]] },
    SK := { group := [sampleGroupRef 1 0, sampleGroupRef 2 2], request := sketchB.request,
            constraint := sketchB.constraint, param := sketchB.param,
            style := sketchB.style },
    activeGroup := 2 }

/-! ## Basic facts -/

theorem foldl_groupStep (l : List Group) (ut : UndoState) :
    l.foldl PushFromCurrentOnto.groupStep ut
      = { ut with group := ut.group ++ l.map stripGroup } := by
  induction l generalizing ut with
  | nil => simp
  | cons g l ih =>
    simp [List.foldl_cons, ih, PushFromCurrentOnto.groupStep, Add, DeepCopyInto, stripGroup]

theorem foldl_constraintStep (l : List Constraint) (ut : UndoState) :
    l.foldl PushFromCurrentOnto.constraintStep ut
      = { ut with constraint := ut.constraint ++ l.map stripConstraint } := by
  induction l generalizing ut with
  | nil => simp
  | cons c l ih =>
    simp [List.foldl_cons, ih, PushFromCurrentOnto.constraintStep, Add, stripConstraint]

theorem foldl_requestAdd (l : List Request) (ut : UndoState) :
    l.foldl (fun ut r => { ut with request := Add ut.request r }) ut
      = { ut with request := ut.request ++ l } := by
  induction l generalizing ut with
  | nil => simp
  | cons c l ih =>
    rw [List.foldl_cons, ih]
    simp [Add]

theorem foldl_paramAdd (l : List Param) (ut : UndoState) :
    l.foldl (fun ut r => { ut with param := Add ut.param r }) ut
      = { ut with param := ut.param ++ l } := by
  induction l generalizing ut with
  | nil => simp
  | cons c l ih =>
    rw [List.foldl_cons, ih]
    simp [Add]

theorem foldl_styleAdd (l : List Style) (ut : UndoState) :
    l.foldl (fun ut r => { ut with style := Add ut.style r }) ut
      = { ut with style := ut.style ++ l } := by
  induction l generalizing ut with
  | nil => simp
  | cons c l ih =>
    rw [List.foldl_cons, ih]
    simp [Add]

theorem fill_eq (s : SolveSpaceUI) :
    PushFromCurrentOnto.fill s = snapshotOf s.SK s.activeGroup := by
  simp [PushFromCurrentOnto.fill, foldl_groupStep, foldl_requestAdd, foldl_constraintStep,
    foldl_paramAdd, foldl_styleAdd, snapshotOf, UndoState.empty]

theorem push_eq (M : Nat) (s : SolveSpaceUI) (sel : StackSel) :
    PushFromCurrentOnto M s sel
      = s.setStack sel ((s.stack sel).pushed M (snapshotOf s.SK s.activeGroup)) := by
  unfold PushFromCurrentOnto
  simp only [fill_eq]
  congr 1
  by_cases h : (s.stack sel).cnt = (M : Int)
  · simp [h, UndoStack.pushed, UndoStack.setSlot, List.set_set]
  · simp [h, UndoStack.pushed, UndoStack.setSlot]

theorem pop_eq (M : Nat) (s : SolveSpaceUI) (sel : StackSel) (h : 0 < (s.stack sel).cnt) :
    PopOntoCurrentFrom M s sel
      = some { (s.setStack sel ((s.stack sel).popped M)) with
          SK := ((s.stack sel).slot (WRAP ((s.stack sel).write - 1) M)).sketch,
          activeGroup := ((s.stack sel).slot (WRAP ((s.stack sel).write - 1) M)).activeGroup,
          calls := s.calls ++ restoreCalls,
          showTW := true } := by
  unfold PopOntoCurrentFrom
  have h2 : ¬ (s.stack sel).cnt ≤ 0 := by omega
  cases sel <;>
    simp [SolveSpaceUI.stack] at h2 ⊢ <;>
    simp [h2, PopOntoCurrentFrom.reset, PopOntoCurrentFrom.move, PopOntoCurrentFrom.free,
      MoveSelfInto, Clear, UndoStack.popped, UndoStack.setSlot, UndoStack.slot,
      SolveSpaceUI.setStack, SolveSpaceUI.stack, UndoState.sketch, restoreCalls]

/-! ## Arithmetic of the write cursor -/

theorem WRAP_nonneg (v : Int) (M : Nat) (hM : 0 < M) : 0 ≤ WRAP v M :=
  Int.emod_nonneg v (by omega)

theorem WRAP_lt (v : Int) (M : Nat) (hM : 0 < M) : WRAP v M < (M : Int) :=
  Int.emod_lt_of_pos v (by omega)

theorem WRAP_of_range (w : Int) (M : Nat) (h0 : 0 ≤ w) (h1 : w < (M : Int)) : WRAP w M = w :=
  Int.emod_eq_of_lt h0 h1

theorem WRAP_add (a b : Int) (M : Nat) : WRAP (WRAP a M + b) M = WRAP (a + b) M :=
  Int.emod_add_emod a M b

theorem WRAP_sub (a b : Int) (M : Nat) : WRAP (WRAP a M - b) M = WRAP (a - b) M := by
  have h := WRAP_add a (-b) M
  simpa [sub_eq_add_neg] using h

theorem WRAP_back (w i : Int) (M : Nat) (h0 : 0 ≤ w) (h1 : w < (M : Int))
    (hi0 : 0 ≤ i) (hi1 : i ≤ (M : Int)) :
    WRAP (w - i) M = if i ≤ w then w - i else w - i + M := by
  unfold WRAP
  split
  · exact Int.emod_eq_of_lt (by omega) (by omega)
  · rw [← Int.add_emod_self]
    exact Int.emod_eq_of_lt (by omega) (by omega)

theorem WRAP_back_ne (w i : Int) (M : Nat) (h0 : 0 ≤ w) (h1 : w < (M : Int))
    (hi0 : 0 < i) (hi1 : i < (M : Int)) : WRAP (w - i) M ≠ w := by
  rw [WRAP_back w i M h0 h1 (by omega) (by omega)]
  split <;> omega

theorem WRAP_succ_pred (w : Int) (M : Nat) (h0 : 0 ≤ w) (h1 : w < (M : Int)) :
    WRAP (WRAP (w + 1) M - 1) M = w := by
  rw [WRAP_sub]
  simpa using WRAP_of_range w M h0 h1

theorem WRAP_pred_succ (w : Int) (M : Nat) (h0 : 0 ≤ w) (h1 : w < (M : Int)) :
    WRAP (WRAP (w - 1) M + 1) M = w := by
  rw [WRAP_add]
  simpa using WRAP_of_range w M h0 h1

/-! ## Selecting a buffer -/

@[simp] theorem stack_setStack (s : SolveSpaceUI) (sel : StackSel) (uk : UndoStack) :
    (s.setStack sel uk).stack sel = uk := by
  cases sel <;> rfl

@[simp] theorem undo_setStack_undo (s : SolveSpaceUI) (uk : UndoStack) :
    (s.setStack StackSel.undo uk).undo = uk := rfl

@[simp] theorem redo_setStack_redo (s : SolveSpaceUI) (uk : UndoStack) :
    (s.setStack StackSel.redo uk).redo = uk := rfl

@[simp] theorem undo_setStack_redo (s : SolveSpaceUI) (uk : UndoStack) :
    (s.setStack StackSel.redo uk).undo = s.undo := rfl

@[simp] theorem redo_setStack_undo (s : SolveSpaceUI) (uk : UndoStack) :
    (s.setStack StackSel.undo uk).redo = s.redo := rfl

@[simp] theorem SK_setStack (s : SolveSpaceUI) (sel : StackSel) (uk : UndoStack) :
    (s.setStack sel uk).SK = s.SK := by
  cases sel <;> rfl

@[simp] theorem activeGroup_setStack (s : SolveSpaceUI) (sel : StackSel) (uk : UndoStack) :
    (s.setStack sel uk).activeGroup = s.activeGroup := by
  cases sel <;> rfl

@[simp] theorem calls_setStack (s : SolveSpaceUI) (sel : StackSel) (uk : UndoStack) :
    (s.setStack sel uk).calls = s.calls := by
  cases sel <;> rfl

@[simp] theorem unsaved_setStack (s : SolveSpaceUI) (sel : StackSel) (uk : UndoStack) :
    (s.setStack sel uk).unsaved = s.unsaved := by
  cases sel <;> rfl

@[simp] theorem showTW_setStack (s : SolveSpaceUI) (sel : StackSel) (uk : UndoStack) :
    (s.setStack sel uk).showTW = s.showTW := by
  cases sel <;> rfl

theorem stack_setStack_ne (s : SolveSpaceUI) (sel sel2 : StackSel) (uk : UndoStack)
    (h : sel2 ≠ sel) : (s.setStack sel uk).stack sel2 = s.stack sel2 := by
  cases sel <;> cases sel2 <;> first | rfl | exact absurd rfl h

/-! ## Slots of a buffer -/

theorem slot_setSlot_same (uk : UndoStack) (w : Int) (x : UndoState)
    (h : w.toNat < uk.d.length) : (uk.setSlot w x).slot w = x := by
  simp [UndoStack.slot, UndoStack.setSlot, List.getElem?_set, h]

theorem getD_set_same (d : List UndoState) (n : Nat) (x : UndoState) (h : n < d.length) :
    (d.set n x).getD n UndoState.empty = x := by
  simp [List.getElem?_set, h]

theorem getD_set_ne (d : List UndoState) (n m : Nat) (x : UndoState) (h : n ≠ m) :
    (d.set n x).getD m UndoState.empty = d.getD m UndoState.empty := by
  simp [List.getElem?_set_ne h]

theorem toNat_ne (a b : Int) (ha : 0 ≤ a) (hb : 0 ≤ b) (h : a ≠ b) : a.toNat ≠ b.toNat := by
  omega

/-! ## Invariant of a buffer -/

theorem WF_pushed (M : Nat) (uk : UndoStack) (x : UndoState) (h : uk.WF M) :
    (uk.pushed M x).WF M := by
  obtain ⟨hl, hc0, hc1, hw0, hw1⟩ := h
  have hM : 0 < M := by omega
  refine ⟨by simp [UndoStack.pushed, hl], ?_, ?_, WRAP_nonneg _ M hM, WRAP_lt _ M hM⟩
  · simp only [UndoStack.pushed]; split <;> omega
  · simp only [UndoStack.pushed]; split <;> omega

theorem WF_popped (M : Nat) (uk : UndoStack) (h : uk.WF M) (hc : 0 < uk.cnt) :
    (uk.popped M).WF M := by
  obtain ⟨hl, hc0, hc1, hw0, hw1⟩ := h
  have hM : 0 < M := by omega
  refine ⟨by simp [UndoStack.popped, hl], ?_, ?_, WRAP_nonneg _ M hM, WRAP_lt _ M hM⟩
  · simp only [UndoStack.popped]; omega
  · simp only [UndoStack.popped]; omega

theorem WF_empty (M : Nat) (hM : 0 < M) : (UndoStack.empty M).WF M := by
  refine ⟨by simp [UndoStack.empty], ?_, ?_, ?_, ?_⟩ <;> simp [UndoStack.empty]
  omega

/-! ## The buffer as a bounded stack -/

theorem liveSlots_length (M : Nat) (uk : UndoStack) :
    (uk.liveSlots M).length = uk.cnt.toNat := by
  simp [UndoStack.liveSlots]

theorem liveSlots_pushed (M : Nat) (uk : UndoStack) (x : UndoState) (h : uk.WF M) :
    (uk.pushed M x).liveSlots M = (x :: uk.liveSlots M).take M := by
  obtain ⟨hl, hc0, hc1, hw0, hw1⟩ := h
  obtain ⟨m, rfl⟩ : ∃ m, M = m + 1 := ⟨M - 1, by omega⟩
  have hcnt : (uk.pushed (m + 1) x).cnt.toNat = min m uk.cnt.toNat + 1 := by
    simp only [UndoStack.pushed]
    split <;> omega
  unfold UndoStack.liveSlots
  rw [hcnt, List.range_succ_eq_map, List.map_cons, List.map_map, List.take_succ_cons,
    ← List.map_take, List.take_range]
  congr 1
  · simp only [UndoStack.pushed, UndoStack.slot]
    have e : WRAP (WRAP (uk.write + 1) ((m + 1 : Nat) : Int) - 1 - ((0 : Nat) : Int))
        ((m + 1 : Nat) : Int) = uk.write := by
      simpa using WRAP_succ_pred uk.write (m + 1) hw0 hw1
    rw [e]
    exact getD_set_same _ _ _ (by omega)
  · apply List.map_congr_left
    intro i hi
    have hi2 : i < min m uk.cnt.toNat := List.mem_range.mp hi
    simp only [Function.comp, UndoStack.pushed, UndoStack.slot]
    have e : WRAP (WRAP (uk.write + 1) ((m + 1 : Nat) : Int) - 1 - ((Nat.succ i : Nat) : Int))
        ((m + 1 : Nat) : Int) = WRAP (uk.write - ((i : Int) + 1)) ((m + 1 : Nat) : Int) := by
      rw [sub_sub, WRAP_sub]
      congr 1
      push_cast
      ring
    have e2 : uk.write - 1 - (i : Int) = uk.write - ((i : Int) + 1) := by ring
    rw [e, e2]
    apply getD_set_ne
    have hne := WRAP_back_ne uk.write ((i : Int) + 1) (m + 1) hw0 hw1 (by omega) (by omega)
    have hnn := WRAP_nonneg (uk.write - ((i : Int) + 1)) (m + 1) (by omega)
    exact (toNat_ne _ _ hnn hw0 hne).symm

theorem liveSlots_popped (M : Nat) (uk : UndoStack) (h : uk.WF M) (hc : 0 < uk.cnt) :
    uk.liveSlots M = uk.slot (WRAP (uk.write - 1) M) :: (uk.popped M).liveSlots M := by
  obtain ⟨hl, hc0, hc1, hw0, hw1⟩ := h
  have hM : 0 < M := by omega
  obtain ⟨n, hn⟩ : ∃ n : Nat, uk.cnt.toNat = n + 1 := ⟨uk.cnt.toNat - 1, by omega⟩
  have hcnt : (uk.popped M).cnt.toNat = n := by
    simp only [UndoStack.popped]
    omega
  unfold UndoStack.liveSlots
  rw [hcnt, hn, List.range_succ_eq_map, List.map_cons, List.map_map]
  congr 1
  · simp
  · apply List.map_congr_left
    intro i hi
    have hi2 : i < n := List.mem_range.mp hi
    simp only [Function.comp, UndoStack.popped, UndoStack.slot]
    have e : WRAP (WRAP (uk.write - 1) (M : Int) - 1 - (i : Int)) (M : Int)
        = WRAP (uk.write - 1 - ((i : Int) + 1)) (M : Int) := by
      rw [sub_sub, WRAP_sub]
      congr 1
      ring
    have e0 : uk.write - 1 - ((Nat.succ i : Nat) : Int) = uk.write - 1 - ((i : Int) + 1) := by
      push_cast
      ring
    rw [e, e0]
    symm
    apply getD_set_ne
    have hp0 := WRAP_nonneg (uk.write - 1) M hM
    have hp1 := WRAP_lt (uk.write - 1) M hM
    have hne := WRAP_back_ne (WRAP (uk.write - 1) M) ((i : Int) + 1) M hp0 hp1 (by omega) (by omega)
    rw [WRAP_sub] at hne
    have hnn := WRAP_nonneg (uk.write - 1 - ((i : Int) + 1)) M hM
    exact (toNat_ne _ _ hnn hp0 hne).symm

theorem liveSlots_empty (M : Nat) : (UndoStack.empty M).liveSlots M = [] := by
  simp [UndoStack.liveSlots, UndoStack.empty]

/-! ## The verbs -/

theorem slot_pushed_back (M : Nat) (uk : UndoStack) (x : UndoState) (h : uk.WF M) :
    (uk.pushed M x).slot (WRAP ((uk.pushed M x).write - 1) M) = x := by
  obtain ⟨hl, hc0, hc1, hw0, hw1⟩ := h
  simp only [UndoStack.pushed, UndoStack.slot]
  rw [WRAP_succ_pred uk.write M hw0 hw1]
  exact getD_set_same _ _ _ (by omega)

theorem pushed_cnt_pos (M : Nat) (uk : UndoStack) (x : UndoState) (hM : 0 < M)
    (hc0 : 0 ≤ uk.cnt) : 0 < (uk.pushed M x).cnt := by
  simp only [UndoStack.pushed]
  split <;> omega

theorem remember_eq (M : Nat) (s : SolveSpaceUI) :
    UndoRemember M s =
      { SK := s.SK, activeGroup := s.activeGroup,
        undo := s.undo.pushed M (snapshotOf s.SK s.activeGroup),
        redo := UndoStack.empty M,
        unsaved := true, showTW := s.showTW,
        calls := s.calls ++
          [Call.EnableMenuById MenuId.MNU_UNDO
              (decide ((s.undo.pushed M (snapshotOf s.SK s.activeGroup)).cnt > 0)),
           Call.EnableMenuById MenuId.MNU_REDO false] } := by
  simp [UndoRemember, push_eq, UndoClearStack, UndoClearStack.onStack, UndoEnableMenus,
    SolveSpaceUI.setStack, SolveSpaceUI.stack, UndoStack.empty]

theorem undo_eq (M : Nat) (s : SolveSpaceUI) (h : 0 < s.undo.cnt) :
    UndoUndo M s = some
      { SK := (s.undo.slot (WRAP (s.undo.write - 1) M)).sketch,
        activeGroup := (s.undo.slot (WRAP (s.undo.write - 1) M)).activeGroup,
        undo := s.undo.popped M,
        redo := s.redo.pushed M (snapshotOf s.SK s.activeGroup),
        unsaved := s.unsaved, showTW := true,
        calls := s.calls ++ restoreCalls ++
          [Call.EnableMenuById MenuId.MNU_UNDO (decide ((s.undo.popped M).cnt > 0)),
           Call.EnableMenuById MenuId.MNU_REDO
              (decide ((s.redo.pushed M (snapshotOf s.SK s.activeGroup)).cnt > 0))] } := by
  have h2 : ¬ s.undo.cnt ≤ 0 := by omega
  have h3 : 0 < ((PushFromCurrentOnto M s StackSel.redo).stack StackSel.undo).cnt := by
    simpa [push_eq, SolveSpaceUI.stack, SolveSpaceUI.setStack] using h
  simp only [UndoUndo, h2, if_false, pop_eq M _ StackSel.undo h3]
  simp [push_eq, UndoEnableMenus, SolveSpaceUI.setStack, SolveSpaceUI.stack]

theorem redo_eq (M : Nat) (s : SolveSpaceUI) (h : 0 < s.redo.cnt) :
    UndoRedo M s = some
      { SK := (s.redo.slot (WRAP (s.redo.write - 1) M)).sketch,
        activeGroup := (s.redo.slot (WRAP (s.redo.write - 1) M)).activeGroup,
        undo := s.undo.pushed M (snapshotOf s.SK s.activeGroup),
        redo := s.redo.popped M,
        unsaved := s.unsaved, showTW := true,
        calls := s.calls ++ restoreCalls ++
          [Call.EnableMenuById MenuId.MNU_UNDO
              (decide ((s.undo.pushed M (snapshotOf s.SK s.activeGroup)).cnt > 0)),
           Call.EnableMenuById MenuId.MNU_REDO (decide ((s.redo.popped M).cnt > 0))] } := by
  have h2 : ¬ s.redo.cnt ≤ 0 := by omega
  have h3 : 0 < ((PushFromCurrentOnto M s StackSel.undo).stack StackSel.redo).cnt := by
    simpa [push_eq, SolveSpaceUI.stack, SolveSpaceUI.setStack] using h
  simp only [UndoRedo, h2, if_false, pop_eq M _ StackSel.redo h3]
  simp [push_eq, UndoEnableMenus, SolveSpaceUI.setStack, SolveSpaceUI.stack]

theorem undo_of_empty (M : Nat) (s : SolveSpaceUI) (h : s.undo.cnt ≤ 0) :
    UndoUndo M s = some s := by
  simp [UndoUndo, h]

theorem redo_of_empty (M : Nat) (s : SolveSpaceUI) (h : s.redo.cnt ≤ 0) :
    UndoRedo M s = some s := by
  simp [UndoRedo, h]

theorem sketch_snapshotOf (D : Sketch) (a : Nat) : (snapshotOf D a).sketch = stripSketch D := rfl

/-! ## Round trips -/

/-- C1. Undo round trip: in a state whose undo buffer satisfies the buffer
invariant, `UndoRemember`, then any replacement of the live document and
active group, then `UndoUndo` returns normally and leaves the five
collections of the original document in their order, with the regenerable
group fields and `dogd` emptied and every remap as it was, and the original
active group. -/
theorem undo_round_trip (M : Nat) (s : SolveSpaceUI) (D2 : Sketch) (a2 : Nat)
    (hu : s.undo.WF M) :
    ∃ s1, UndoUndo M (mutate (UndoRemember M s) D2 a2) = some s1 ∧
      s1.SK.group = s.SK.group.map stripGroup ∧
      s1.SK.request = s.SK.request ∧
      s1.SK.constraint = s.SK.constraint.map stripConstraint ∧
      s1.SK.param = s.SK.param ∧
      s1.SK.style = s.SK.style ∧
      s1.SK.group.map Group.remap = s.SK.group.map Group.remap ∧
      s1.activeGroup = s.activeGroup := by
  have hM : 0 < M := by
    obtain ⟨_, _, _, hw0, hw1⟩ := hu
    omega
  have hpos : 0 < (mutate (UndoRemember M s) D2 a2).undo.cnt := by
    simp only [mutate, remember_eq]
    exact pushed_cnt_pos M _ _ hM hu.2.1
  refine ⟨_, undo_eq M _ hpos, ?_⟩
  simp only [mutate, remember_eq, slot_pushed_back M _ _ hu, sketch_snapshotOf]
  simp [stripSketch, snapshotOf, stripGroup, Function.comp]

/-- Witness of C1 on the sample state with capacity 2. -/
theorem undo_round_trip_witness :
    sampleState.undo.WF 2 ∧
    ∃ s1, UndoUndo 2 (mutate (UndoRemember 2 sampleState) sketchC 3) = some s1 ∧
      s1.SK.group = sampleState.SK.group.map stripGroup ∧
      s1.SK.request = sampleState.SK.request ∧
      s1.SK.constraint = sampleState.SK.constraint.map stripConstraint ∧
      s1.SK.param = sampleState.SK.param ∧
      s1.SK.style = sampleState.SK.style ∧
      s1.SK.group.map Group.remap = sampleState.SK.group.map Group.remap ∧
      s1.activeGroup = sampleState.activeGroup :=
  ⟨by decide, undo_round_trip 2 sampleState sketchC 3 (by decide)⟩

/-- C2. Redo round trip: after `UndoRemember` (capturing the live document),
a replacement of the live document by `D2` with active group `a2`, and
`UndoUndo`, a subsequent `UndoRedo` returns normally and leaves the five
collections of `D2` in their order, regenerable fields and `dogd` emptied,
and the active group `a2`. -/
theorem redo_round_trip (M : Nat) (s : SolveSpaceUI) (D2 : Sketch) (a2 : Nat)
    (hu : s.undo.WF M) :
    ∃ s1 s2, UndoUndo M (mutate (UndoRemember M s) D2 a2) = some s1 ∧
      UndoRedo M s1 = some s2 ∧
      s2.SK.group = D2.group.map stripGroup ∧
      s2.SK.request = D2.request ∧
      s2.SK.constraint = D2.constraint.map stripConstraint ∧
      s2.SK.param = D2.param ∧
      s2.SK.style = D2.style ∧
      s2.SK.group.map Group.remap = D2.group.map Group.remap ∧
      s2.activeGroup = a2 := by
  have hM : 0 < M := by
    obtain ⟨_, _, _, hw0, hw1⟩ := hu
    omega
  have hpos : 0 < (mutate (UndoRemember M s) D2 a2).undo.cnt := by
    simp only [mutate, remember_eq]
    exact pushed_cnt_pos M _ _ hM hu.2.1
  have hE : (UndoStack.empty M).WF M := WF_empty M hM
  refine ⟨_, _, undo_eq M _ hpos, redo_eq M _ ?_, ?_⟩
  · simp only [mutate, remember_eq]
    exact pushed_cnt_pos M _ _ hM (by simp [UndoStack.empty])
  · simp only [mutate, remember_eq, slot_pushed_back M _ _ hE, sketch_snapshotOf]
    simp [stripSketch, snapshotOf, stripGroup, Function.comp]

/-- Witness of C2 on the sample state with capacity 2. -/
theorem redo_round_trip_witness :
    sampleState.undo.WF 2 ∧
    ∃ s1 s2, UndoUndo 2 (mutate (UndoRemember 2 sampleState) sketchC 3) = some s1 ∧
      UndoRedo 2 s1 = some s2 ∧
      s2.SK.group = sketchC.group.map stripGroup ∧
      s2.SK.request = sketchC.request ∧
      s2.SK.constraint = sketchC.constraint.map stripConstraint ∧
      s2.SK.param = sketchC.param ∧
      s2.SK.style = sketchC.style ∧
      s2.SK.group.map Group.remap = sketchC.group.map Group.remap ∧
      s2.activeGroup = 3 :=
  ⟨by decide, redo_round_trip 2 sampleState sketchC 3 (by decide)⟩

/-! ## Sessions -/

theorem WF_remember (M : Nat) (s : SolveSpaceUI) (hu : s.undo.WF M) :
    (UndoRemember M s).undo.WF M ∧ (UndoRemember M s).redo.WF M := by
  have hM : 0 < M := by
    obtain ⟨_, _, _, hw0, hw1⟩ := hu
    omega
  rw [remember_eq]
  exact ⟨WF_pushed M _ _ hu, WF_empty M hM⟩

theorem WF_undo (M : Nat) (s : SolveSpaceUI) (hu : s.undo.WF M) (hr : s.redo.WF M) :
    ∃ s1, UndoUndo M s = some s1 ∧ s1.undo.WF M ∧ s1.redo.WF M := by
  by_cases h : 0 < s.undo.cnt
  · exact ⟨_, undo_eq M s h, WF_popped M _ hu h, WF_pushed M _ _ hr⟩
  · exact ⟨s, undo_of_empty M s (by omega), hu, hr⟩

theorem WF_redo (M : Nat) (s : SolveSpaceUI) (hu : s.undo.WF M) (hr : s.redo.WF M) :
    ∃ s1, UndoRedo M s = some s1 ∧ s1.undo.WF M ∧ s1.redo.WF M := by
  by_cases h : 0 < s.redo.cnt
  · exact ⟨_, redo_eq M s h, WF_pushed M _ _ hu, WF_popped M _ hr h⟩
  · exact ⟨s, redo_of_empty M s (by omega), hu, hr⟩

theorem WF_step (M : Nat) (s : SolveSpaceUI) (v : Verb) (hu : s.undo.WF M) (hr : s.redo.WF M) :
    ∃ s1, v.step M s = some s1 ∧ s1.undo.WF M ∧ s1.redo.WF M := by
  have hM : 0 < M := by
    obtain ⟨_, _, _, hw0, hw1⟩ := hu
    omega
  cases v with
  | Remember => exact ⟨_, rfl, WF_remember M s hu⟩
  | Undo => exact WF_undo M s hu hr
  | Redo => exact WF_redo M s hu hr
  | ClearStack sel =>
    refine ⟨_, rfl, ?_⟩
    cases sel
    · exact ⟨WF_empty M hM, hr⟩
    · exact ⟨hu, WF_empty M hM⟩
  | Mutate D a => exact ⟨_, rfl, hu, hr⟩

theorem WF_run (M : Nat) (vs : List Verb) (s : SolveSpaceUI) (hu : s.undo.WF M)
    (hr : s.redo.WF M) :
    ∃ s1, run M s vs = some s1 ∧ s1.undo.WF M ∧ s1.redo.WF M := by
  induction vs generalizing s with
  | nil => exact ⟨s, rfl, hu, hr⟩
  | cons v vs ih =>
    obtain ⟨s1, h1, hu1, hr1⟩ := WF_step M s v hu hr
    obtain ⟨s2, h2, hu2, hr2⟩ := ih s1 hu1 hr1
    exact ⟨s2, by simp [run, h1, h2], hu2, hr2⟩

/-- C3. Bounded history: with capacity at least 1, from any state whose two
buffers are empty (`cnt = 0`, `write = 0`), every finite sequence of
`UndoRemember`, `UndoUndo`, `UndoRedo`, `UndoClearStack` calls and document
replacements returns normally, and afterwards both buffers have
`0 ≤ cnt ≤ MAX_UNDO` and `0 ≤ write < MAX_UNDO`; this covers any number of
consecutive `UndoRemember` calls. -/
theorem bounded_history (M : Nat) (s : SolveSpaceUI) (vs : List Verb) (hM : 1 ≤ M)
    (hu : s.undo = UndoStack.empty M) (hr : s.redo = UndoStack.empty M) :
    ∃ s1, run M s vs = some s1 ∧
      (0 ≤ s1.undo.cnt ∧ s1.undo.cnt ≤ (M : Int) ∧ 0 ≤ s1.undo.write ∧ s1.undo.write < (M : Int)) ∧
      (0 ≤ s1.redo.cnt ∧ s1.redo.cnt ≤ (M : Int) ∧ 0 ≤ s1.redo.write ∧ s1.redo.write < (M : Int)) := by
  have hE : (UndoStack.empty M).WF M := WF_empty M (by omega)
  obtain ⟨s1, h1, hu1, hr1⟩ := WF_run M vs s (hu ▸ hE) (hr ▸ hE)
  exact ⟨s1, h1, hu1.2, hr1.2⟩

/-- Witness of C3: capacity 2, three captures in a row followed by other steps. -/
theorem bounded_history_witness :
    1 ≤ 2 ∧ (initialState 2 sketchA 1).undo = UndoStack.empty 2 ∧
    (initialState 2 sketchA 1).redo = UndoStack.empty 2 ∧
    ∃ s1, run 2 (initialState 2 sketchA 1)
        [Verb.Remember, Verb.Mutate sketchB 2, Verb.Remember, Verb.Remember, Verb.Undo,
         Verb.Redo, Verb.ClearStack StackSel.undo] = some s1 ∧
      (0 ≤ s1.undo.cnt ∧ s1.undo.cnt ≤ ((2 : Nat) : Int) ∧ 0 ≤ s1.undo.write ∧
        s1.undo.write < ((2 : Nat) : Int)) ∧
      (0 ≤ s1.redo.cnt ∧ s1.redo.cnt ≤ ((2 : Nat) : Int) ∧ 0 ≤ s1.redo.write ∧
        s1.redo.write < ((2 : Nat) : Int)) :=
  ⟨by decide, rfl, rfl,
    bounded_history 2 (initialState 2 sketchA 1) _ (by decide) rfl rfl⟩

/-! ## Eviction -/

theorem take_append_take (M : Nat) (A B : List UndoState) :
    (A ++ B.take M).take M = (A ++ B).take M := by
  rw [List.take_append_eq_append_take, List.take_append_eq_append_take, List.take_take]
  congr 2
  omega

theorem rememberEach_spec (M : Nat) (ds : List (Sketch × Nat)) (s : SolveSpaceUI)
    (hu : s.undo.WF M) :
    (rememberEach M s ds).undo.WF M ∧
    (rememberEach M s ds).undo.liveSlots M
      = ((ds.reverse.map (fun Da => snapshotOf Da.1 Da.2)) ++ s.undo.liveSlots M).take M := by
  induction ds generalizing s with
  | nil =>
    refine ⟨hu, ?_⟩
    simp only [rememberEach, List.reverse_nil, List.map_nil, List.nil_append]
    rw [List.take_of_length_le]
    rw [liveSlots_length]
    have := hu.2.2.1
    omega
  | cons Da rest ih =>
    have hu1 : (mutate s Da.1 Da.2).undo.WF M := hu
    obtain ⟨h1, h2⟩ := ih (UndoRemember M (mutate s Da.1 Da.2)) (WF_remember M _ hu1).1
    refine ⟨h1, ?_⟩
    simp only [rememberEach]
    rw [h2, remember_eq]
    simp only [mutate]
    rw [liveSlots_pushed M _ _ hu, take_append_take]
    simp

theorem rememberEach_redo (M : Nat) (ds : List (Sketch × Nat)) (s : SolveSpaceUI)
    (hne : ds ≠ []) : (rememberEach M s ds).redo = UndoStack.empty M := by
  induction ds generalizing s with
  | nil => exact absurd rfl hne
  | cons Da rest ih =>
    cases rest with
    | nil => simp [rememberEach, remember_eq]
    | cons Db rest2 =>
      have := ih (UndoRemember M (mutate s Da.1 Da.2)) (by simp)
      simpa [rememberEach] using this

theorem undoTimes_of_empty (M : Nat) (k : Nat) (s : SolveSpaceUI) (h : s.undo.cnt ≤ 0) :
    undoTimes M s k = some s := by
  induction k with
  | zero => rfl
  | succ k ih => simp [undoTimes, undo_of_empty M s h, ih]

theorem undoTimes_add (M : Nat) (a b : Nat) (s s1 : SolveSpaceUI)
    (h : undoTimes M s a = some s1) : undoTimes M s (a + b) = undoTimes M s1 b := by
  induction a generalizing s with
  | zero =>
    simp only [undoTimes, Option.some.injEq] at h
    simp [h]
  | succ a ih =>
    rw [Nat.add_right_comm]
    simp only [undoTimes] at h ⊢
    cases hU : UndoUndo M s with
    | none => simp [hU] at h
    | some s2 =>
      simp only [hU] at h ⊢
      exact ih s2 h

theorem undo_step (M : Nat) (s : SolveSpaceUI) (h : 0 < s.undo.cnt) :
    ∃ s1, UndoUndo M s = some s1 ∧ s1.undo = s.undo.popped M ∧
      s1.redo = s.redo.pushed M (snapshotOf s.SK s.activeGroup) ∧
      s1.SK = (s.undo.slot (WRAP (s.undo.write - 1) M)).sketch ∧
      s1.activeGroup = (s.undo.slot (WRAP (s.undo.write - 1) M)).activeGroup :=
  ⟨_, undo_eq M s h, rfl, rfl, rfl, rfl⟩

theorem undoTimes_spec (M : Nat) (k : Nat) (s : SolveSpaceUI) (hu : s.undo.WF M)
    (hr : s.redo.WF M) (hk : k ≤ (s.undo.liveSlots M).length) :
    ∃ s1, undoTimes M s k = some s1 ∧ s1.undo.WF M ∧ s1.redo.WF M ∧
      s1.undo.liveSlots M = (s.undo.liveSlots M).drop k ∧
      ∀ j, k = j + 1 → ∃ x, (s.undo.liveSlots M)[j]? = some x ∧
        s1.SK = x.sketch ∧ s1.activeGroup = x.activeGroup := by
  induction k generalizing s with
  | zero => exact ⟨s, rfl, hu, hr, by simp, by intro j hj; omega⟩
  | succ k ih =>
    have hpos : 0 < s.undo.cnt := by
      rw [liveSlots_length] at hk
      omega
    have hL := liveSlots_popped M s.undo hu hpos
    obtain ⟨sU, hU, hUu, hUr, hUSK, hUag⟩ := undo_step M s hpos
    have hk2 : k ≤ (sU.undo.liveSlots M).length := by
      rw [hL] at hk
      rw [hUu]
      simpa using hk
    obtain ⟨s1, e1, hu1, hr1, hl1, hdoc⟩ :=
      ih sU (hUu ▸ WF_popped M _ hu hpos) (hUr ▸ WF_pushed M _ _ hr) hk2
    rw [hUu] at hl1 hdoc
    refine ⟨s1, ?_, hu1, hr1, ?_, ?_⟩
    · simp only [undoTimes, hU]
      exact e1
    · rw [hl1, hL]
      simp
    · intro j hj
      cases k with
      | zero =>
        have hj0 : j = 0 := by omega
        subst hj0
        simp only [undoTimes, Option.some.injEq] at e1
        refine ⟨s.undo.slot (WRAP (s.undo.write - 1) M), ?_, ?_, ?_⟩
        · rw [hL]
          simp
        · rw [← e1, hUSK]
        · rw [← e1, hUag]
      | succ k2 =>
        obtain ⟨x, hx, hSK, hag⟩ := hdoc k2 rfl
        have hj2 : j = k2 + 1 := by omega
        subst hj2
        refine ⟨x, ?_, hSK, hag⟩
        rw [hL]
        simpa using hx

theorem rememberEach_newest (M : Nat) (ds : List (Sketch × Nat)) (s : SolveSpaceUI)
    (hu : s.undo.WF M) (hN : M ≤ ds.length) :
    (rememberEach M s ds).undo.liveSlots M
      = (ds.reverse.take M).map (fun Da => snapshotOf Da.1 Da.2) := by
  rw [(rememberEach_spec M ds s hu).2, List.take_append_of_le_length (by simpa using hN),
    List.map_take]

theorem newest_getElem (M k : Nat) (ds : List (Sketch × Nat)) (x : UndoState)
    (hk1 : 1 ≤ k) (hkM : k ≤ M) (hN : M ≤ ds.length)
    (hx : ((ds.reverse.take M).map (fun Da => snapshotOf Da.1 Da.2))[k - 1]? = some x) :
    ∃ Da, ds[ds.length - k]? = some Da ∧ x = snapshotOf Da.1 Da.2 := by
  rw [List.getElem?_map, List.getElem?_take_of_lt (by omega),
    List.getElem?_reverse (by omega)] at hx
  have e : ds.length - 1 - (k - 1) = ds.length - k := by omega
  rw [e] at hx
  cases hD : ds[ds.length - k]? with
  | none => simp [hD] at hx
  | some Da =>
    refine ⟨Da, rfl, ?_⟩
    simpa [hD] using hx.symm

/-- C4. Eviction keeps exactly the newest `MAX_UNDO` states: after more than
`MAX_UNDO` captures of documents `D1..DN` (each made live, then remembered)
the undo buffer read as a stack is the newest `MAX_UNDO` snapshots, newest
first; after any further edit, for `1 ≤ k ≤ MAX_UNDO` the `k`-th `UndoUndo`
in a row restores the persistent content and active group of `D(N-k+1)`;
after `MAX_UNDO` undos `undo.cnt = 0`, one more `UndoUndo` changes nothing,
and any longer run of undos ends in that same state, so no older document
comes back. -/
theorem eviction_keeps_newest (M : Nat) (s : SolveSpaceUI) (ds : List (Sketch × Nat))
    (D9 : Sketch) (a9 : Nat) (hu : s.undo.WF M) (hN : M < ds.length) :
    (rememberEach M s ds).undo.liveSlots M
        = (ds.reverse.take M).map (fun Da => snapshotOf Da.1 Da.2) ∧
    (∀ k, 1 ≤ k → k ≤ M →
      ∃ s1 Da, undoTimes M (mutate (rememberEach M s ds) D9 a9) k = some s1 ∧
        ds[ds.length - k]? = some Da ∧
        s1.SK = stripSketch Da.1 ∧ s1.activeGroup = Da.2) ∧
    (∃ sM, undoTimes M (mutate (rememberEach M s ds) D9 a9) M = some sM ∧
        sM.undo.cnt = 0 ∧ UndoUndo M sM = some sM ∧
        ∀ k, M ≤ k → undoTimes M (mutate (rememberEach M s ds) D9 a9) k = some sM) := by
  have hM : 0 < M := by
    obtain ⟨_, _, _, hw0, hw1⟩ := hu
    omega
  have hne : ds ≠ [] := by
    intro h
    simp [h] at hN
  have hL := rememberEach_newest M ds s hu (by omega)
  have hu0 : (mutate (rememberEach M s ds) D9 a9).undo.WF M := (rememberEach_spec M ds s hu).1
  have hr0 : (mutate (rememberEach M s ds) D9 a9).redo.WF M := by
    show (rememberEach M s ds).redo.WF M
    rw [rememberEach_redo M ds s hne]
    exact WF_empty M hM
  have hL0 : (mutate (rememberEach M s ds) D9 a9).undo.liveSlots M
      = (ds.reverse.take M).map (fun Da => snapshotOf Da.1 Da.2) := hL
  have hlen : ((mutate (rememberEach M s ds) D9 a9).undo.liveSlots M).length = M := by
    rw [hL0]
    simp
    omega
  refine ⟨hL, ?_, ?_⟩
  · intro k hk1 hkM
    obtain ⟨s1, e1, _, _, _, hdoc⟩ := undoTimes_spec M k _ hu0 hr0 (by omega)
    obtain ⟨x, hx, hSK, hag⟩ := hdoc (k - 1) (by omega)
    rw [hL0] at hx
    obtain ⟨Da, hDa, hxe⟩ := newest_getElem M k ds x hk1 hkM (by omega) hx
    refine ⟨s1, Da, e1, hDa, ?_, ?_⟩
    · rw [hSK, hxe, sketch_snapshotOf]
    · rw [hag, hxe]
      rfl
  · obtain ⟨sM, eM, huM, _, hlM, _⟩ := undoTimes_spec M M _ hu0 hr0 (by omega)
    have hc : sM.undo.cnt = 0 := by
      have h1 : (sM.undo.liveSlots M).length = 0 := by
        rw [hlM, List.length_drop, hlen]
        omega
      rw [liveSlots_length] at h1
      have := huM.2.1
      omega
    refine ⟨sM, eM, hc, undo_of_empty M sM (by omega), ?_⟩
    intro k hk
    have e : k = M + (k - M) := by omega
    rw [e, undoTimes_add M M (k - M) _ sM eM]
    exact undoTimes_of_empty M _ sM (by omega)

/-- Witness of C4: capacity 2 and three captures (documents A, B, C) leave
only the last two recoverable. -/
theorem eviction_keeps_newest_witness :
    (initialState 2 sketchA 1).undo.WF 2 ∧
    2 < [(sketchA, 1), (sketchB, 2), (sketchC, 3)].length ∧
    ((rememberEach 2 (initialState 2 sketchA 1)
        [(sketchA, 1), (sketchB, 2), (sketchC, 3)]).undo.liveSlots 2
        = [snapshotOf sketchC 3, snapshotOf sketchB 2]) ∧
    (∃ sM, undoTimes 2 (mutate (rememberEach 2 (initialState 2 sketchA 1)
          [(sketchA, 1), (sketchB, 2), (sketchC, 3)]) sketchA 1) 2 = some sM ∧
        sM.undo.cnt = 0 ∧ UndoUndo 2 sM = some sM) :=
  ⟨by decide, by decide,
    (eviction_keeps_newest 2 (initialState 2 sketchA 1)
      [(sketchA, 1), (sketchB, 2), (sketchC, 3)] sketchA 1 (by decide) (by decide)).1,
    (eviction_keeps_newest 2 (initialState 2 sketchA 1)
      [(sketchA, 1), (sketchB, 2), (sketchC, 3)] sketchA 1 (by decide) (by decide)).2.2.imp
      (fun _ h => ⟨h.1, h.2.1, h.2.2.1⟩)⟩

/-! ## Branch abandonment -/

theorem undo_total (M : Nat) (s : SolveSpaceUI) : ∃ s1, UndoUndo M s = some s1 := by
  by_cases h : 0 < s.undo.cnt
  · exact ⟨_, undo_eq M s h⟩
  · exact ⟨s, undo_of_empty M s (by omega)⟩

theorem redo_total (M : Nat) (s : SolveSpaceUI) : ∃ s1, UndoRedo M s = some s1 := by
  by_cases h : 0 < s.redo.cnt
  · exact ⟨_, redo_eq M s h⟩
  · exact ⟨s, redo_of_empty M s (by omega)⟩

theorem remember_redo (M : Nat) (s : SolveSpaceUI) :
    (UndoRemember M s).redo = UndoStack.empty M := by
  rw [remember_eq]

theorem remember_last_call (M : Nat) (s : SolveSpaceUI) :
    (UndoRemember M s).calls.getLast? = some (Call.EnableMenuById MenuId.MNU_REDO false) := by
  rw [remember_eq]
  simp

/-- C5. Branch abandonment: for every state, after `UndoRemember` the redo
buffer has `cnt = 0`, `write = 0` and `MAX_UNDO` slots that are all empty,
whatever it held before; and after `UndoUndo`, any edit and `UndoRemember`,
the last call made reports redo as unavailable and a subsequent `UndoRedo`
returns the state unchanged (document, active group and both buffers). -/
theorem branch_abandonment (M : Nat) (s : SolveSpaceUI) (D : Sketch) (a : Nat) :
    ((UndoRemember M s).redo.cnt = 0 ∧ (UndoRemember M s).redo.write = 0 ∧
      (UndoRemember M s).redo.d.length = M ∧
      ∀ ut ∈ (UndoRemember M s).redo.d, ut = UndoState.empty) ∧
    ∃ s1, UndoUndo M s = some s1 ∧
      (UndoRemember M (mutate s1 D a)).redo.cnt = 0 ∧
      (UndoRemember M (mutate s1 D a)).redo.liveSlots M = [] ∧
      (UndoRemember M (mutate s1 D a)).calls.getLast?
        = some (Call.EnableMenuById MenuId.MNU_REDO false) ∧
      UndoRedo M (UndoRemember M (mutate s1 D a)) = some (UndoRemember M (mutate s1 D a)) := by
  refine ⟨?_, ?_⟩
  · rw [remember_redo]
    refine ⟨rfl, rfl, by simp [UndoStack.empty], ?_⟩
    intro ut hut
    exact List.eq_of_mem_replicate hut
  · obtain ⟨s1, h1⟩ := undo_total M s
    refine ⟨s1, h1, ?_, ?_, remember_last_call M _, ?_⟩
    · rw [remember_redo]
      rfl
    · rw [remember_redo]
      exact liveSlots_empty M
    · apply redo_of_empty
      rw [remember_redo]
      exact le_refl _

/-! ## Refinement of a bounded stack -/

theorem liveSlots_oldest (M : Nat) (uk : UndoStack) (h : uk.WF M) (hc : uk.cnt = (M : Int)) :
    (uk.liveSlots M).getLast? = some (uk.slot uk.write) := by
  obtain ⟨hl, hc0, hc1, hw0, hw1⟩ := h
  obtain ⟨m, rfl⟩ : ∃ m, M = m + 1 := ⟨M - 1, by omega⟩
  have hn : uk.cnt.toNat = m + 1 := by omega
  unfold UndoStack.liveSlots
  rw [hn, List.range_succ, List.map_append, List.map_singleton, List.getLast?_concat]
  have e : uk.write - 1 - (m : Int) = uk.write - ((m + 1 : Nat) : Int) := by
    push_cast
    ring
  rw [e, WRAP_back uk.write ((m + 1 : Nat) : Int) (m + 1) hw0 hw1 (by omega) (le_refl _)]
  have hlt : ¬ ((m + 1 : Nat) : Int) ≤ uk.write := by omega
  simp only [hlt, if_false]
  congr 2
  omega

theorem take_cons_full (M : Nat) (x : UndoState) (L : List UndoState) (hM : 0 < M)
    (hL : L.length = M) : (x :: L).take M = x :: L.dropLast := by
  obtain ⟨m, rfl⟩ : ∃ m, M = m + 1 := ⟨M - 1, by omega⟩
  rw [List.take_succ_cons, List.dropLast_eq_take, hL]
  rfl

theorem pop_step (M : Nat) (s : SolveSpaceUI) (sel : StackSel) (h : 0 < (s.stack sel).cnt) :
    ∃ s1, PopOntoCurrentFrom M s sel = some s1 ∧
      s1.stack sel = (s.stack sel).popped M ∧
      s1.SK = ((s.stack sel).slot (WRAP ((s.stack sel).write - 1) M)).sketch ∧
      s1.activeGroup = ((s.stack sel).slot (WRAP ((s.stack sel).write - 1) M)).activeGroup ∧
      (∀ sel2, sel2 ≠ sel → s1.stack sel2 = s.stack sel2) ∧
      s1.calls = s.calls ++ restoreCalls ∧ s1.unsaved = s.unsaved := by
  refine ⟨_, pop_eq M s sel h, ?_, rfl, rfl, ?_, rfl, ?_⟩
  · cases sel <;> rfl
  · intro sel2 hne
    cases sel <;> cases sel2 <;> first | rfl | exact absurd rfl hne
  · cases sel <;> rfl

/-- C6. The ring buffer refines a bounded stack. Reading a buffer that
satisfies the invariant as the list of its `cnt` slots going backward
cyclically from index `write - 1`: the list has length `cnt`;
`PushFromCurrentOnto` prepends the new snapshot and keeps the first
`MAX_UNDO` entries; when `cnt = MAX_UNDO` the entry dropped is the last of the
list, which is the slot at index `write`; `PopOntoCurrentFrom` with `cnt > 0`
returns normally, installs the head of the list and leaves its tail;
`UndoClearStack` leaves the empty list; and `cnt` is again the length of the
list after each operation. -/
theorem ring_refines_stack (M : Nat) (s : SolveSpaceUI) (sel : StackSel)
    (h : (s.stack sel).WF M) :
    (((s.stack sel).liveSlots M).length : Int) = (s.stack sel).cnt ∧
    (((PushFromCurrentOnto M s sel).stack sel).liveSlots M
        = (snapshotOf s.SK s.activeGroup :: (s.stack sel).liveSlots M).take M ∧
      ((((PushFromCurrentOnto M s sel).stack sel).liveSlots M).length : Int)
        = ((PushFromCurrentOnto M s sel).stack sel).cnt) ∧
    ((s.stack sel).cnt = (M : Int) →
      ((s.stack sel).liveSlots M).getLast? = some ((s.stack sel).slot (s.stack sel).write) ∧
      ((PushFromCurrentOnto M s sel).stack sel).liveSlots M
        = snapshotOf s.SK s.activeGroup :: ((s.stack sel).liveSlots M).dropLast) ∧
    (0 < (s.stack sel).cnt →
      ∃ s1 x, PopOntoCurrentFrom M s sel = some s1 ∧
        (s.stack sel).liveSlots M = x :: (s1.stack sel).liveSlots M ∧
        s1.SK = x.sketch ∧ s1.activeGroup = x.activeGroup ∧
        (((s1.stack sel).liveSlots M).length : Int) = (s1.stack sel).cnt) ∧
    (((UndoClearStack M s sel).stack sel).liveSlots M = [] ∧
      ((UndoClearStack M s sel).stack sel).cnt = 0) := by
  have hM : 0 < M := by
    obtain ⟨_, _, _, hw0, hw1⟩ := h
    omega
  have hlen : ∀ uk : UndoStack, uk.WF M → ((uk.liveSlots M).length : Int) = uk.cnt := by
    intro uk huk
    rw [liveSlots_length]
    have := huk.2.1
    omega
  have hpush : ((PushFromCurrentOnto M s sel).stack sel).liveSlots M
      = (snapshotOf s.SK s.activeGroup :: (s.stack sel).liveSlots M).take M := by
    rw [push_eq, stack_setStack]
    exact liveSlots_pushed M _ _ h
  refine ⟨hlen _ h, ⟨hpush, ?_⟩, ?_, ?_, ?_, ?_⟩
  · apply hlen
    rw [push_eq, stack_setStack]
    exact WF_pushed M _ _ h
  · intro hc
    refine ⟨liveSlots_oldest M _ h hc, ?_⟩
    rw [hpush]
    apply take_cons_full M _ _ hM
    rw [liveSlots_length]
    omega
  · intro hc
    obtain ⟨s1, e1, hst, hSK, hag, _⟩ := pop_step M s sel hc
    refine ⟨s1, (s.stack sel).slot (WRAP ((s.stack sel).write - 1) M), e1, ?_, hSK, hag, ?_⟩
    · rw [hst]
      exact liveSlots_popped M _ h hc
    · rw [hst]
      exact hlen _ (WF_popped M _ h hc)
  · simp only [UndoClearStack, stack_setStack, UndoClearStack.onStack]
    exact liveSlots_empty M
  · simp only [UndoClearStack, stack_setStack, UndoClearStack.onStack]
    rfl

/-- Witness of C6 on the full undo buffer of the sample state, capacity 2. -/
theorem ring_refines_stack_witness :
    (sampleState.stack StackSel.undo).WF 2 ∧
    ((PushFromCurrentOnto 2 sampleState StackSel.undo).stack StackSel.undo).liveSlots 2
        = (snapshotOf sampleState.SK sampleState.activeGroup
            :: (sampleState.stack StackSel.undo).liveSlots 2).take 2 :=
  ⟨by decide, (ring_refines_stack 2 sampleState StackSel.undo (by decide)).2.1.1⟩

/-! ## Capture -/

theorem derivedEmpty_stripGroup (g : Group) : (stripGroup g).derivedEmpty := by
  simp [Group.derivedEmpty, stripGroup]

theorem push_slot (M : Nat) (s : SolveSpaceUI) (sel : StackSel) (h : (s.stack sel).WF M) :
    ((PushFromCurrentOnto M s sel).stack sel).slot (s.stack sel).write
      = snapshotOf s.SK s.activeGroup := by
  obtain ⟨hl, hc0, hc1, hw0, hw1⟩ := h
  rw [push_eq, stack_setStack]
  simp only [UndoStack.pushed, UndoStack.slot]
  exact getD_set_same _ _ _ (by omega)

/-- C7. Derived-field stripping: when the target buffer satisfies the
invariant, the slot at the old write index after `PushFromCurrentOnto` is the
snapshot the function filled, and in it every group entry has `clean = false`
and empty `solved`, `polyLoops`, `bezierLoops`, `bezierOpens`, `polyError`,
`thisMesh`, `runningMesh`, `thisShell`, `runningShell`, `displayMesh`,
`displayEdges`, `impMesh`, `impShell`, `impEntity`, and every constraint entry
has an empty `dogd`, whatever the live document held. -/
theorem derived_fields_stripped (M : Nat) (s : SolveSpaceUI) (sel : StackSel)
    (h : (s.stack sel).WF M) :
    ((PushFromCurrentOnto M s sel).stack sel).slot (s.stack sel).write
        = PushFromCurrentOnto.fill s ∧
    (∀ g ∈ (((PushFromCurrentOnto M s sel).stack sel).slot (s.stack sel).write).group,
      g.clean = false ∧ g.solved = [] ∧ g.polyLoops = [] ∧ g.bezierLoops = [] ∧
      g.bezierOpens = [] ∧ g.polyError = [] ∧ g.thisMesh = [] ∧ g.runningMesh = [] ∧
      g.thisShell = [] ∧ g.runningShell = [] ∧ g.displayMesh = [] ∧
      g.displayEdges = [] ∧ g.impMesh = [] ∧ g.impShell = [] ∧ g.impEntity = []) ∧
    (∀ c ∈ (((PushFromCurrentOnto M s sel).stack sel).slot (s.stack sel).write).constraint,
      c.dogd = []) := by
  rw [push_slot M s sel h]
  refine ⟨(fill_eq s).symm, ?_, ?_⟩
  · intro g hg
    simp only [snapshotOf, List.mem_map] at hg
    obtain ⟨g0, _, rfl⟩ := hg
    exact derivedEmpty_stripGroup g0
  · intro c hc
    simp only [snapshotOf, List.mem_map] at hc
    obtain ⟨c0, _, rfl⟩ := hc
    rfl

/-- Witness of C7: capture of the sample state, whose groups have every
regenerable field filled, onto its redo buffer. -/
theorem derived_fields_stripped_witness :
    (sampleState.stack StackSel.redo).WF 2 ∧
    (∀ g ∈ (((PushFromCurrentOnto 2 sampleState StackSel.redo).stack StackSel.redo).slot
        (sampleState.stack StackSel.redo).write).group,
      g.clean = false ∧ g.solved = [] ∧ g.polyLoops = [] ∧ g.bezierLoops = [] ∧
      g.bezierOpens = [] ∧ g.polyError = [] ∧ g.thisMesh = [] ∧ g.runningMesh = [] ∧
      g.thisShell = [] ∧ g.runningShell = [] ∧ g.displayMesh = [] ∧
      g.displayEdges = [] ∧ g.impMesh = [] ∧ g.impShell = [] ∧ g.impEntity = []) :=
  ⟨by decide, (derived_fields_stripped 2 sampleState StackSel.redo (by decide)).2.1⟩

/-- C8. Capture is read-only on the document: for every state,
`PushFromCurrentOnto` leaves the live sketch (all five collections, with every
group field, remap and derived fields included) and the active group exactly
as they were, leaves the other buffer untouched, and in the target buffer
keeps the number of slots and every slot other than the one at the old write
index, whether or not the buffer was full. -/
theorem capture_read_only (M : Nat) (s : SolveSpaceUI) (sel : StackSel) :
    (PushFromCurrentOnto M s sel).SK = s.SK ∧
    (PushFromCurrentOnto M s sel).activeGroup = s.activeGroup ∧
    (∀ sel2, sel2 ≠ sel → (PushFromCurrentOnto M s sel).stack sel2 = s.stack sel2) ∧
    ((PushFromCurrentOnto M s sel).stack sel).d.length = (s.stack sel).d.length ∧
    (∀ i : Nat, i ≠ (s.stack sel).write.toNat →
      ((PushFromCurrentOnto M s sel).stack sel).d[i]? = (s.stack sel).d[i]?) ∧
    (PushFromCurrentOnto M s sel).unsaved = s.unsaved ∧
    (PushFromCurrentOnto M s sel).showTW = s.showTW ∧
    (PushFromCurrentOnto M s sel).calls = s.calls := by
  rw [push_eq]
  refine ⟨by simp, by simp, ?_, ?_, ?_, by simp, by simp, by simp⟩
  · intro sel2 hne
    exact stack_setStack_ne s sel sel2 _ hne
  · simp [UndoStack.pushed]
  · intro i hi
    rw [stack_setStack]
    simp only [UndoStack.pushed]
    exact List.getElem?_set_ne (Ne.symm hi)

/-- C9. Capture content: when the target buffer satisfies the invariant, the
snapshot stored at the old write index has one entry per live group, request,
constraint, param and style in the order of the live collections; each group
entry agrees with the live group on the persistent fields and on the content
of `remap`; each constraint entry agrees with the live constraint on the
persistent fields; requests, params and styles equal the live records; and
its `activeGroup` is the live one. -/
theorem capture_content (M : Nat) (s : SolveSpaceUI) (sel : StackSel)
    (h : (s.stack sel).WF M) :
    ∃ ut, ((PushFromCurrentOnto M s sel).stack sel).slot (s.stack sel).write = ut ∧
      ut.group.length = s.SK.group.length ∧
      ut.group.map Group.persistent = s.SK.group.map Group.persistent ∧
      ut.group.map Group.remap = s.SK.group.map Group.remap ∧
      ut.group = s.SK.group.map stripGroup ∧
      ut.request = s.SK.request ∧
      ut.constraint.length = s.SK.constraint.length ∧
      ut.constraint.map Constraint.persistent = s.SK.constraint.map Constraint.persistent ∧
      ut.constraint = s.SK.constraint.map stripConstraint ∧
      ut.param = s.SK.param ∧
      ut.style = s.SK.style ∧
      ut.activeGroup = s.activeGroup := by
  refine ⟨_, push_slot M s sel h, ?_⟩
  simp [snapshotOf, Function.comp, stripGroup, stripConstraint, Group.persistent,
    Constraint.persistent]

/-- Witness of C9: capture of the sample state onto its undo buffer. -/
theorem capture_content_witness :
    (sampleState.stack StackSel.undo).WF 2 ∧
    ((PushFromCurrentOnto 2 sampleState StackSel.undo).stack StackSel.undo).slot
        (sampleState.stack StackSel.undo).write = snapshotOf sketchB 2 :=
  ⟨by decide,
    (capture_content 2 sampleState StackSel.undo (by decide)).elim
      (fun ut hut => hut.1.trans (by
        have h5 := hut.2.2.2.2.1
        have h6 := hut.2.2.2.2.2.1
        have h9 := hut.2.2.2.2.2.2.2.2.1
        have h10 := hut.2.2.2.2.2.2.2.2.2.1
        have h11 := hut.2.2.2.2.2.2.2.2.2.2.1
        have h12 := hut.2.2.2.2.2.2.2.2.2.2.2
        cases ut
        simp only at h5 h6 h9 h10 h11 h12
        subst h5 h6 h9 h10 h11 h12
        rfl))⟩

/-! ## Restore -/

/-- C10. Restore transfers the snapshot: for a buffer of `MAX_UNDO` slots with
`cnt > 0` and `0 ≤ write < MAX_UNDO`, `PopOntoCurrentFrom` returns normally,
decrements `cnt` by one, sets `write` to `(write - 1) mod MAX_UNDO` (that is
`write - 1`, or `MAX_UNDO - 1` when `write = 0`), makes the live sketch and
active group exactly the five collections and `activeGroup` of the snapshot
that was at the new write index, leaves that slot empty and leaves every
other slot, and the other buffer, unchanged. -/
theorem restore_transfers (M : Nat) (s : SolveSpaceUI) (sel : StackSel)
    (hc : 0 < (s.stack sel).cnt) (hw0 : 0 ≤ (s.stack sel).write)
    (hw1 : (s.stack sel).write < (M : Int)) (hl : (s.stack sel).d.length = M) :
    ∃ s1, PopOntoCurrentFrom M s sel = some s1 ∧
      (s1.stack sel).cnt = (s.stack sel).cnt - 1 ∧
      (s1.stack sel).write = ((s.stack sel).write - 1) % (M : Int) ∧
      (s1.stack sel).write
        = (if (s.stack sel).write = 0 then (M : Int) - 1 else (s.stack sel).write - 1) ∧
      s1.SK.group = ((s.stack sel).slot (s1.stack sel).write).group ∧
      s1.SK.request = ((s.stack sel).slot (s1.stack sel).write).request ∧
      s1.SK.constraint = ((s.stack sel).slot (s1.stack sel).write).constraint ∧
      s1.SK.param = ((s.stack sel).slot (s1.stack sel).write).param ∧
      s1.SK.style = ((s.stack sel).slot (s1.stack sel).write).style ∧
      s1.activeGroup = ((s.stack sel).slot (s1.stack sel).write).activeGroup ∧
      (s1.stack sel).slot (s1.stack sel).write = UndoState.empty ∧
      (s1.stack sel).d.length = (s.stack sel).d.length ∧
      (∀ i : Nat, i ≠ (s1.stack sel).write.toNat →
        (s1.stack sel).d[i]? = (s.stack sel).d[i]?) ∧
      (∀ sel2, sel2 ≠ sel → s1.stack sel2 = s.stack sel2) := by
  have hM : 0 < M := by omega
  obtain ⟨s1, e1, hst, hSK, hag, hoth, _, _⟩ := pop_step M s sel hc
  have hwr : (s1.stack sel).write = WRAP ((s.stack sel).write - 1) M := by
    rw [hst]
    rfl
  have hp0 := WRAP_nonneg ((s.stack sel).write - 1) M hM
  have hp1 := WRAP_lt ((s.stack sel).write - 1) M hM
  refine ⟨s1, e1, ?_, hwr, ?_, ?_, ?_, ?_, ?_, ?_, ?_, ?_, ?_, ?_, hoth⟩
  · rw [hst]
    rfl
  · rw [hwr, WRAP_back _ 1 M hw0 hw1 (by omega) (by omega)]
    by_cases h0 : (s.stack sel).write = 0
    · simp [h0]
      omega
    · have : (1 : Int) ≤ (s.stack sel).write := by omega
      simp [h0, this]
  · rw [hSK, hwr]
    rfl
  · rw [hSK, hwr]
    rfl
  · rw [hSK, hwr]
    rfl
  · rw [hSK, hwr]
    rfl
  · rw [hSK, hwr]
    rfl
  · rw [hag, hwr]
  · rw [hst]
    simp only [UndoStack.popped, UndoStack.slot]
    exact getD_set_same _ _ _ (by omega)
  · rw [hst]
    simp [UndoStack.popped]
  · intro i hi
    rw [hst] at hi ⊢
    simp only [UndoStack.popped] at hi ⊢
    exact List.getElem?_set_ne (Ne.symm hi)

/-- Witness of C10: restore from the redo buffer of the sample state, whose
cursor is at slot 1. -/
theorem restore_transfers_witness :
    0 < (sampleState.stack StackSel.redo).cnt ∧ 0 ≤ (sampleState.stack StackSel.redo).write ∧
    (sampleState.stack StackSel.redo).write < ((2 : Nat) : Int) ∧
    (sampleState.stack StackSel.redo).d.length = 2 ∧
    ∃ s1, PopOntoCurrentFrom 2 sampleState StackSel.redo = some s1 ∧
      (s1.stack StackSel.redo).cnt = (sampleState.stack StackSel.redo).cnt - 1 :=
  ⟨by decide, by decide, by decide, by decide,
    (restore_transfers 2 sampleState StackSel.redo (by decide) (by decide) (by decide)
      (by decide)).imp (fun _ h => ⟨h.1, h.2.1⟩)⟩

/-! ## Stack clear -/

theorem clear_loop_exits (M : Nat) (fuel : Nat) (uk : UndoStack) (h : uk.cnt.toNat ≤ fuel) :
    (UndoClearStack.loop M fuel uk).cnt ≤ 0 := by
  induction fuel generalizing uk with
  | zero =>
    simp only [UndoClearStack.loop]
    omega
  | succ fuel ih =>
    simp only [UndoClearStack.loop]
    split
    · apply ih
      simp only [UndoStack.setSlot]
      omega
    · omega

theorem clear_loop_stable (M : Nat) (fuel k : Nat) (uk : UndoStack) (h : uk.cnt.toNat ≤ fuel) :
    UndoClearStack.loop M (fuel + k) uk = UndoClearStack.loop M fuel uk := by
  induction fuel generalizing uk with
  | zero =>
    have hc : ¬ uk.cnt > 0 := by omega
    cases k with
    | zero => rfl
    | succ k => simp [UndoClearStack.loop, hc]
  | succ fuel ih =>
    rw [Nat.add_right_comm]
    simp only [UndoClearStack.loop]
    split
    · apply ih
      simp only [UndoStack.setSlot]
      omega
    · rfl

theorem eq_empty_of_slots (M : Nat) (uk : UndoStack) (hl : uk.d.length = M) (hc : uk.cnt = 0)
    (hw : uk.write = 0) (hd : ∀ ut ∈ uk.d, ut = UndoState.empty) : uk = UndoStack.empty M := by
  cases uk with
  | mk d cnt write =>
    simp only at hl hc hw hd
    simp only [UndoStack.empty, UndoStack.mk.injEq]
    exact ⟨List.eq_replicate_iff.mpr ⟨hl, hd⟩, hc, hw⟩

/-- C11, as the code has it. Idempotent clear: for every buffer that satisfies
the invariant, the loop of `UndoClearStack` stops with its condition false
after `cnt` iterations (more fuel changes nothing), and the call yields
`cnt = 0`, `write = 0` and `MAX_UNDO` slots that are all empty; a second call
yields exactly the same buffer; on a buffer with `cnt = 0` the call leaves
`cnt` and the (empty) list of live slots as they were, resets `write` to 0
and empties every slot, so it changes nothing exactly when `write = 0` and
every slot is empty already. -/
theorem clear_idempotent (M : Nat) (uk : UndoStack) (h : uk.WF M) :
    ((UndoClearStack.loop M uk.cnt.toNat uk).cnt ≤ 0 ∧
      ∀ k, UndoClearStack.loop M (uk.cnt.toNat + k) uk
        = UndoClearStack.loop M uk.cnt.toNat uk) ∧
    ((UndoClearStack.onStack M uk).cnt = 0 ∧ (UndoClearStack.onStack M uk).write = 0 ∧
      (UndoClearStack.onStack M uk).d.length = M ∧
      ∀ ut ∈ (UndoClearStack.onStack M uk).d, ut = UndoState.empty) ∧
    UndoClearStack.onStack M (UndoClearStack.onStack M uk) = UndoClearStack.onStack M uk ∧
    (∀ (s : SolveSpaceUI) (sel : StackSel),
      UndoClearStack M (UndoClearStack M s sel) sel = UndoClearStack M s sel) ∧
    (uk.cnt = 0 → uk.write = 0 → (∀ ut ∈ uk.d, ut = UndoState.empty) →
      UndoClearStack.onStack M uk = uk) ∧
    (uk.cnt = 0 → (UndoClearStack.onStack M uk).cnt = uk.cnt ∧
      (UndoClearStack.onStack M uk).liveSlots M = uk.liveSlots M) ∧
    (uk.cnt = 0 →
      (UndoClearStack.onStack M uk = uk ↔
        uk.write = 0 ∧ ∀ ut ∈ uk.d, ut = UndoState.empty)) := by
  refine ⟨⟨clear_loop_exits M _ uk (le_refl _), fun k => clear_loop_stable M _ k uk (le_refl _)⟩,
    ⟨rfl, rfl, by simp [UndoClearStack.onStack, UndoStack.empty], ?_⟩, rfl, ?_, ?_, ?_, ?_⟩
  · intro ut hut
    exact List.eq_of_mem_replicate hut
  · intro s sel
    cases sel <;> rfl
  · intro hc hw hd
    rw [eq_empty_of_slots M uk h.1 hc hw hd]
    rfl
  · intro hc
    refine ⟨hc.symm ▸ rfl, ?_⟩
    simp [UndoClearStack.onStack, UndoStack.liveSlots, UndoStack.empty, hc]
  · intro hc
    constructor
    · intro he
      have he2 : uk = UndoStack.empty M := he.symm
      rw [he2]
      refine ⟨rfl, ?_⟩
      intro ut hut
      exact List.eq_of_mem_replicate hut
    · intro hwd
      rw [eq_empty_of_slots M uk h.1 hc hwd.1 hwd.2]
      rfl

/-- Counterexample to C11 as stated: with capacity 2, three captures and two
undos from empty buffers leave an undo buffer that is empty (`cnt = 0`, no
live slot, both slots empty) with its cursor at slot 1; `UndoClearStack`
moves the cursor to 0, so the call does change that already-empty buffer. -/
theorem clear_idempotent_counterexample :
    (run 2 emptyHistoryState
        [Verb.Remember, Verb.Remember, Verb.Remember, Verb.Undo, Verb.Undo]).map
      SolveSpaceUI.undo = some staleCursorBuffer ∧
    staleCursorBuffer.WF 2 ∧ staleCursorBuffer.cnt = 0 ∧
    staleCursorBuffer.liveSlots 2 = [] ∧
    (∀ ut ∈ staleCursorBuffer.d, ut = UndoState.empty) ∧
    staleCursorBuffer.write = 1 ∧
    (UndoClearStack.onStack 2 staleCursorBuffer).write = 0 ∧
    UndoClearStack.onStack 2 staleCursorBuffer ≠ staleCursorBuffer :=
  ⟨rfl, by decide, rfl, rfl, by decide, rfl, rfl, by decide⟩

/-- Witness of C11 on the full undo buffer of the sample state, capacity 2. -/
theorem clear_idempotent_witness :
    sampleState.undo.WF 2 ∧
    (UndoClearStack.loop 2 sampleState.undo.cnt.toNat sampleState.undo).cnt ≤ 0 ∧
    UndoClearStack.onStack 2 (UndoClearStack.onStack 2 sampleState.undo)
      = UndoClearStack.onStack 2 sampleState.undo :=
  ⟨by decide, (clear_idempotent 2 sampleState.undo (by decide)).1.1,
    (clear_idempotent 2 sampleState.undo (by decide)).2.2.1⟩

/-! ## Guards of the verbs -/

theorem emitted_self (s : SolveSpaceUI) : emitted s s = [] := by
  simp [emitted]

/-- C12. Undo and Redo are no-ops on an empty buffer: for every state with
`undo.cnt = 0`, `UndoUndo` returns the state it was given, so the document,
the active group and both buffers are unchanged and no call (restore
notification or other) is made; likewise `UndoRedo` when `redo.cnt = 0`. -/
theorem noop_on_empty (M : Nat) (s : SolveSpaceUI) :
    (s.undo.cnt = 0 →
      ∃ s1, UndoUndo M s = some s1 ∧ s1.SK = s.SK ∧ s1.activeGroup = s.activeGroup ∧
        s1.undo = s.undo ∧ s1.redo = s.redo ∧ emitted s s1 = [] ∧ s1 = s) ∧
    (s.redo.cnt = 0 →
      ∃ s1, UndoRedo M s = some s1 ∧ s1.SK = s.SK ∧ s1.activeGroup = s.activeGroup ∧
        s1.undo = s.undo ∧ s1.redo = s.redo ∧ emitted s s1 = [] ∧ s1 = s) := by
  constructor
  · intro h
    exact ⟨s, undo_of_empty M s (by omega), rfl, rfl, rfl, rfl, emitted_self s, rfl⟩
  · intro h
    exact ⟨s, redo_of_empty M s (by omega), rfl, rfl, rfl, rfl, emitted_self s, rfl⟩

/-- Witness of C12: a state with two empty buffers. -/
theorem noop_on_empty_witness :
    emptyHistoryState.undo.cnt = 0 ∧ emptyHistoryState.redo.cnt = 0 ∧
    UndoUndo 2 emptyHistoryState = some emptyHistoryState ∧
    UndoRedo 2 emptyHistoryState = some emptyHistoryState :=
  ⟨rfl, rfl,
    ((noop_on_empty 2 emptyHistoryState).1 rfl).elim (fun _ h => h.2.2.2.2.2.2 ▸ h.1),
    ((noop_on_empty 2 emptyHistoryState).2 rfl).elim (fun _ h => h.2.2.2.2.2.2 ▸ h.1)⟩

theorem pop_exec_toOption (M : Nat) (s : SolveSpaceUI) (sel : StackSel) :
    PopOntoCurrentFrom M s sel = (PopOntoCurrentFrom.exec M s sel).toOption := by
  unfold PopOntoCurrentFrom PopOntoCurrentFrom.exec
  by_cases h : (s.stack sel).cnt ≤ 0
  · simp [h, Except.toOption]
  · simp [h, Except.toOption]

theorem pop_none_iff (M : Nat) (s : SolveSpaceUI) (sel : StackSel) :
    PopOntoCurrentFrom M s sel = none ↔ (s.stack sel).cnt ≤ 0 := by
  unfold PopOntoCurrentFrom
  by_cases h : (s.stack sel).cnt ≤ 0
  · simp [h]
  · simp [h]

/-- C13. Restoring from an empty buffer is a fatal error:
`PopOntoCurrentFrom` ends in `oops()` if and only if the buffer has
`cnt ≤ 0`, and the state in which it aborts is the state it was called in:
`cnt`, `write`, every slot and the live document are untouched. -/
theorem restore_empty_fatal (M : Nat) (s : SolveSpaceUI) (sel : StackSel) :
    (PopOntoCurrentFrom M s sel = none ↔ (s.stack sel).cnt ≤ 0) ∧
    ((∃ e, PopOntoCurrentFrom.exec M s sel = Except.error e) ↔ (s.stack sel).cnt ≤ 0) ∧
    (∀ e, PopOntoCurrentFrom.exec M s sel = Except.error e → e = s) ∧
    PopOntoCurrentFrom M s sel = (PopOntoCurrentFrom.exec M s sel).toOption := by
  refine ⟨pop_none_iff M s sel, ?_, ?_, pop_exec_toOption M s sel⟩
  · unfold PopOntoCurrentFrom.exec
    by_cases h : (s.stack sel).cnt ≤ 0
    · simp [h]
    · simp [h]
  · intro e
    unfold PopOntoCurrentFrom.exec
    by_cases h : (s.stack sel).cnt ≤ 0
    · simp only [h, if_true, Except.error.injEq]
      exact fun he => he.symm
    · simp [h]

theorem run_total (M : Nat) (vs : List Verb) (s : SolveSpaceUI) :
    ∃ s1, run M s vs = some s1 := by
  induction vs generalizing s with
  | nil => exact ⟨s, rfl⟩
  | cons v vs ih =>
    have hstep : ∃ s1, v.step M s = some s1 := by
      cases v with
      | Remember => exact ⟨_, rfl⟩
      | Undo => exact undo_total M s
      | Redo => exact redo_total M s
      | ClearStack sel => exact ⟨_, rfl⟩
      | Mutate D a => exact ⟨_, rfl⟩
    obtain ⟨s1, h1⟩ := hstep
    obtain ⟨s2, h2⟩ := ih s1
    exact ⟨s2, by simp [run, h1, h2]⟩

/-- C14. The fatal precondition never fires through the verbs: for every
state, when `UndoUndo` passes its guard the buffer it hands to
`PopOntoCurrentFrom` (the undo buffer after the capture onto redo) has
`cnt > 0` and the restore does not abort, symmetrically for `UndoRedo`, and
every finite sequence of `UndoRemember`, `UndoUndo`, `UndoRedo` calls (stack
clears and edits allowed in between) returns normally. -/
theorem oops_unreachable (M : Nat) (s : SolveSpaceUI) (vs : List Verb) :
    (¬ s.undo.cnt ≤ 0 →
      0 < ((PushFromCurrentOnto M s StackSel.redo).stack StackSel.undo).cnt ∧
      ∃ s1, PopOntoCurrentFrom.exec M (PushFromCurrentOnto M s StackSel.redo) StackSel.undo
        = Except.ok s1) ∧
    (¬ s.redo.cnt ≤ 0 →
      0 < ((PushFromCurrentOnto M s StackSel.undo).stack StackSel.redo).cnt ∧
      ∃ s1, PopOntoCurrentFrom.exec M (PushFromCurrentOnto M s StackSel.undo) StackSel.redo
        = Except.ok s1) ∧
    (∃ s1, UndoUndo M s = some s1) ∧ (∃ s1, UndoRedo M s = some s1) ∧
    ∃ s1, run M s vs = some s1 := by
  refine ⟨?_, ?_, undo_total M s, redo_total M s, run_total M vs s⟩
  · intro h
    have hpos : 0 < ((PushFromCurrentOnto M s StackSel.redo).stack StackSel.undo).cnt := by
      rw [push_eq]
      simp only [SolveSpaceUI.stack, undo_setStack_redo]
      omega
    refine ⟨hpos, ?_⟩
    have hn : ¬ ((PushFromCurrentOnto M s StackSel.redo).stack StackSel.undo).cnt ≤ 0 := by
      omega
    unfold PopOntoCurrentFrom.exec
    simp [hn]
  · intro h
    have hpos : 0 < ((PushFromCurrentOnto M s StackSel.undo).stack StackSel.redo).cnt := by
      rw [push_eq]
      simp only [SolveSpaceUI.stack, redo_setStack_undo]
      omega
    refine ⟨hpos, ?_⟩
    have hn : ¬ ((PushFromCurrentOnto M s StackSel.undo).stack StackSel.redo).cnt ≤ 0 := by
      omega
    unfold PopOntoCurrentFrom.exec
    simp [hn]

/-! ## Availability signal -/

theorem endsWithSignal_remember (M : Nat) (s : SolveSpaceUI) :
    endsWithSignal s (UndoRemember M s) := by
  refine ⟨[], ?_⟩
  rw [remember_eq]
  simp [availabilitySignal, UndoStack.empty]

theorem endsWithSignal_undo (M : Nat) (s : SolveSpaceUI) (h : 0 < s.undo.cnt) :
    ∃ s1, UndoUndo M s = some s1 ∧ endsWithSignal s s1 := by
  refine ⟨_, undo_eq M s h, restoreCalls, ?_⟩
  simp [availabilitySignal]

theorem endsWithSignal_redo (M : Nat) (s : SolveSpaceUI) (h : 0 < s.redo.cnt) :
    ∃ s1, UndoRedo M s = some s1 ∧ endsWithSignal s s1 := by
  refine ⟨_, redo_eq M s h, restoreCalls, ?_⟩
  simp [availabilitySignal]

theorem not_endsWithSignal_self (s : SolveSpaceUI) : ¬ endsWithSignal s s := by
  rintro ⟨mid, h⟩
  have hl := congrArg List.length h
  simp [availabilitySignal] at hl

/-- C15, as the code has it. Availability signal after every effective verb:
every `UndoRemember`, every `UndoUndo` with `undo.cnt > 0` and every
`UndoRedo` with `redo.cnt > 0` returns normally and ends by emitting the
availability signal with undo-available `= (undo.cnt > 0)` and redo-available
`= (redo.cnt > 0)` computed on the resulting state; `UndoUndo` with
`undo.cnt ≤ 0` and `UndoRedo` with `redo.cnt ≤ 0` return at their guard and
emit nothing. -/
theorem availability_signal_effective (M : Nat) (s : SolveSpaceUI) :
    endsWithSignal s (UndoRemember M s) ∧
    (0 < s.undo.cnt → ∃ s1, UndoUndo M s = some s1 ∧ endsWithSignal s s1) ∧
    (0 < s.redo.cnt → ∃ s1, UndoRedo M s = some s1 ∧ endsWithSignal s s1) ∧
    (s.undo.cnt ≤ 0 → ∃ s1, UndoUndo M s = some s1 ∧ emitted s s1 = []) ∧
    (s.redo.cnt ≤ 0 → ∃ s1, UndoRedo M s = some s1 ∧ emitted s s1 = []) :=
  ⟨endsWithSignal_remember M s, endsWithSignal_undo M s, endsWithSignal_redo M s,
    fun h => ⟨s, undo_of_empty M s h, emitted_self s⟩,
    fun h => ⟨s, redo_of_empty M s h, emitted_self s⟩⟩

/-- Counterexample to C15 as stated: with capacity 2 and two empty buffers,
`UndoUndo` and `UndoRedo` return the state unchanged, having emitted no call
at all, so the invocation does not end with the availability signal. -/
theorem availability_signal_counterexample :
    (UndoUndo 2 emptyHistoryState = some emptyHistoryState ∧
      emitted emptyHistoryState emptyHistoryState = [] ∧
      ¬ endsWithSignal emptyHistoryState emptyHistoryState) ∧
    (UndoRedo 2 emptyHistoryState = some emptyHistoryState ∧
      ¬ endsWithSignal emptyHistoryState emptyHistoryState) :=
  ⟨⟨rfl, rfl, not_endsWithSignal_self _⟩, ⟨rfl, not_endsWithSignal_self _⟩⟩

/-! ## Symmetry of Undo and Redo -/

theorem swapBuffers_swapBuffers (s : SolveSpaceUI) : swapBuffers (swapBuffers s) = s := rfl

theorem emitted_append (s : SolveSpaceUI) (l : List Call) (s1 : SolveSpaceUI)
    (h : s1.calls = s.calls ++ l) : emitted s s1 = l := by
  simp [emitted, h]

/-- C16. Redo is Undo with the buffers swapped: for every state `s`,
`UndoRedo s` is the swap of `UndoUndo (swap s)`, where the swap exchanges the
undo and redo buffers, leaves the document, the active group and the rest of
the state alone, and on the result exchanges the two components of the
availability pair the invocation emitted. -/
theorem redo_is_swapped_undo (M : Nat) (s : SolveSpaceUI) :
    UndoRedo M s = (UndoUndo M (swapBuffers s)).map (swapResult (swapBuffers s)) ∧
    ∃ r u, UndoRedo M s = some r ∧ UndoUndo M (swapBuffers s) = some u ∧
      r.SK = u.SK ∧ r.activeGroup = u.activeGroup ∧ r.undo = u.redo ∧ r.redo = u.undo ∧
      r.unsaved = u.unsaved ∧ r.showTW = u.showTW ∧
      emitted s r = swapAvailability (emitted (swapBuffers s) u) := by
  by_cases h : 0 < s.redo.cnt
  · have h2 : 0 < (swapBuffers s).undo.cnt := h
    have hr := redo_eq M s h
    have hu := undo_eq M (swapBuffers s) h2
    have hcalls : ∀ (a b : Bool),
        swapAvailability (restoreCalls ++
          [Call.EnableMenuById MenuId.MNU_UNDO a, Call.EnableMenuById MenuId.MNU_REDO b])
        = restoreCalls ++
          [Call.EnableMenuById MenuId.MNU_UNDO b, Call.EnableMenuById MenuId.MNU_REDO a] := by
      intro a b
      simp [restoreCalls, swapAvailability]
    constructor
    · rw [hr, hu]
      simp only [Option.map_some', Option.some.injEq, swapResult]
      rw [emitted_append (swapBuffers s) _ _ (List.append_assoc _ _ _), hcalls]
      simp [swapBuffers]
    · refine ⟨_, _, hr, hu, rfl, rfl, rfl, rfl, rfl, rfl, ?_⟩
      rw [emitted_append (swapBuffers s) _ _ (List.append_assoc _ _ _), hcalls,
        emitted_append s _ _ (List.append_assoc _ _ _)]
      rfl
  · have hr := redo_of_empty M s (by omega)
    have hu := undo_of_empty M (swapBuffers s) (show (swapBuffers s).undo.cnt ≤ 0 by
      show s.redo.cnt ≤ 0
      omega)
    constructor
    · rw [hr, hu]
      simp [swapResult, swapBuffers, emitted, swapAvailability]
    · refine ⟨s, swapBuffers s, hr, hu, rfl, rfl, rfl, rfl, rfl, rfl, ?_⟩
      simp [emitted, swapAvailability]

/-! ## States reached from empty buffers -/

theorem stripGroup_stripGroup (g : Group) : stripGroup (stripGroup g) = stripGroup g := rfl

theorem stripConstraint_stripConstraint (c : Constraint) :
    stripConstraint (stripConstraint c) = stripConstraint c := rfl

theorem stripped_snapshotOf (D : Sketch) (a : Nat) : (snapshotOf D a).stripped := by
  simp [UndoState.stripped, snapshotOf, UndoState.sketch, Function.comp,
    stripGroup_stripGroup, stripConstraint_stripConstraint]

theorem stripped_empty : UndoState.empty.stripped := rfl

theorem WRAP_shift_push (w : Int) (j : Nat) (M : Nat) :
    WRAP (WRAP (w + 1) M - 1 - (j : Int)) M = WRAP (w - (j : Int)) M := by
  rw [sub_sub, WRAP_sub]
  congr 1
  ring

theorem WRAP_shift_pop (w : Int) (j : Nat) (M : Nat) :
    WRAP (WRAP (w - 1) M - 1 - (j : Int)) M = WRAP (w - 1 - ((j + 1 : Nat) : Int)) M := by
  rw [sub_sub, WRAP_sub]
  congr 1
  push_cast
  ring

theorem deadEmpty_pushed (M : Nat) (uk : UndoStack) (x : UndoState) (h : uk.WF M)
    (hd : uk.deadEmpty M) : (uk.pushed M x).deadEmpty M := by
  obtain ⟨hl, hc0, hc1, hw0, hw1⟩ := h
  intro i hi H
  have hcnt : (uk.pushed M x).cnt.toNat = if uk.cnt = (M : Int) then M else uk.cnt.toNat + 1 := by
    simp only [UndoStack.pushed]
    split <;> omega
  have hwr : (uk.pushed M x).write = WRAP (uk.write + 1) M := rfl
  rw [hcnt, hwr] at H
  have H0 : uk.write.toNat ≠ i := by
    have := H 0 (by split <;> omega)
    rw [WRAP_shift_push] at this
    simpa [WRAP_of_range uk.write M hw0 hw1] using this
  show (uk.d.set uk.write.toNat x).getD i UndoState.empty = UndoState.empty
  rw [getD_set_ne _ _ _ _ H0]
  apply hd i hi
  intro j hj
  by_cases hjM : j + 1 < (if uk.cnt = (M : Int) then M else uk.cnt.toNat + 1)
  · have := H (j + 1) hjM
    rw [WRAP_shift_push] at this
    have e : uk.write - 1 - (j : Int) = uk.write - ((j + 1 : Nat) : Int) := by
      push_cast
      ring
    rw [e]
    exact this
  · have hfull : uk.cnt = (M : Int) := by
      by_contra hne
      simp only [hne, if_false] at hjM
      omega
    simp only [hfull, if_true] at hjM
    have hj2 : (j : Int) + 1 = (M : Int) := by omega
    have e : uk.write - 1 - (j : Int) = uk.write - (M : Int) := by omega
    rw [e, WRAP_back uk.write (M : Int) M hw0 hw1 (by omega) (le_refl _)]
    have hlt : ¬ (M : Int) ≤ uk.write := by omega
    simp only [hlt, if_false]
    have e2 : uk.write - (M : Int) + (M : Int) = uk.write := by ring
    rw [e2]
    exact H0

theorem deadEmpty_popped (M : Nat) (uk : UndoStack) (h : uk.WF M) (hc : 0 < uk.cnt)
    (hd : uk.deadEmpty M) : (uk.popped M).deadEmpty M := by
  obtain ⟨hl, hc0, hc1, hw0, hw1⟩ := h
  have hM : 0 < M := by omega
  intro i hi H
  have hcnt : (uk.popped M).cnt.toNat = uk.cnt.toNat - 1 := by
    simp only [UndoStack.popped]
    omega
  have hwr : (uk.popped M).write = WRAP (uk.write - 1) M := rfl
  rw [hcnt, hwr] at H
  show (uk.d.set (WRAP (uk.write - 1) M).toNat UndoState.empty).getD i UndoState.empty
    = UndoState.empty
  by_cases hiw : (WRAP (uk.write - 1) M).toNat = i
  · rw [hiw]
    exact getD_set_same _ _ _ (by omega)
  · rw [getD_set_ne _ _ _ _ hiw]
    apply hd i hi
    intro j hj
    cases j with
    | zero => simpa using hiw
    | succ j =>
      have := H j (by omega)
      rw [WRAP_shift_pop] at this
      exact this

theorem deadEmpty_empty (M : Nat) : (UndoStack.empty M).deadEmpty M := by
  intro i hi _
  simp [UndoStack.empty, List.getElem?_replicate, hi]

theorem Good_empty (M : Nat) (hM : 0 < M) : (UndoStack.empty M).Good M := by
  refine ⟨WF_empty M hM, deadEmpty_empty M, ?_⟩
  intro ut hut
  rw [List.eq_of_mem_replicate hut]
  exact stripped_empty

theorem Good_pushed (M : Nat) (uk : UndoStack) (x : UndoState) (h : uk.Good M)
    (hx : x.stripped) : (uk.pushed M x).Good M := by
  obtain ⟨hwf, hd, hs⟩ := h
  refine ⟨WF_pushed M uk x hwf, deadEmpty_pushed M uk x hwf hd, ?_⟩
  intro ut hut
  rcases List.mem_or_eq_of_mem_set hut with h1 | h1
  · exact hs ut h1
  · rw [h1]
    exact hx

theorem Good_popped (M : Nat) (uk : UndoStack) (h : uk.Good M) (hc : 0 < uk.cnt) :
    (uk.popped M).Good M := by
  obtain ⟨hwf, hd, hs⟩ := h
  refine ⟨WF_popped M uk hwf hc, deadEmpty_popped M uk hwf hc hd, ?_⟩
  intro ut hut
  rcases List.mem_or_eq_of_mem_set hut with h1 | h1
  · exact hs ut h1
  · rw [h1]
    exact stripped_empty

theorem pushed_cnt_le (M : Nat) (uk : UndoStack) (x : UndoState) :
    (uk.pushed M x).cnt ≤ uk.cnt + 1 := by
  simp only [UndoStack.pushed]
  split <;> omega

theorem Reach_step (M : Nat) (s : SolveSpaceUI) (v : Verb) (h : Reach M s) :
    ∃ s1, v.step M s = some s1 ∧ Reach M s1 := by
  obtain ⟨hu, hr, hsum⟩ := h
  have hM : 0 < M := by
    obtain ⟨⟨_, _, _, hw0, hw1⟩, _⟩ := hu
    omega
  cases v with
  | Remember =>
    refine ⟨_, rfl, ?_⟩
    rw [remember_eq]
    refine ⟨Good_pushed M _ _ hu (stripped_snapshotOf _ _), Good_empty M hM, ?_⟩
    have := (WF_pushed M s.undo (snapshotOf s.SK s.activeGroup) hu.1).2.2.1
    simpa [UndoStack.empty] using this
  | Undo =>
    by_cases hc : 0 < s.undo.cnt
    · refine ⟨_, undo_eq M s hc, Good_popped M _ hu hc,
        Good_pushed M _ _ hr (stripped_snapshotOf _ _), ?_⟩
      have := pushed_cnt_le M s.redo (snapshotOf s.SK s.activeGroup)
      show (s.undo.popped M).cnt + (s.redo.pushed M (snapshotOf s.SK s.activeGroup)).cnt
        ≤ (M : Int)
      have e : (s.undo.popped M).cnt = s.undo.cnt - 1 := rfl
      omega
    · exact ⟨s, undo_of_empty M s (by omega), hu, hr, hsum⟩
  | Redo =>
    by_cases hc : 0 < s.redo.cnt
    · refine ⟨_, redo_eq M s hc, Good_pushed M _ _ hu (stripped_snapshotOf _ _),
        Good_popped M _ hr hc, ?_⟩
      have := pushed_cnt_le M s.undo (snapshotOf s.SK s.activeGroup)
      show (s.undo.pushed M (snapshotOf s.SK s.activeGroup)).cnt + (s.redo.popped M).cnt
        ≤ (M : Int)
      have e : (s.redo.popped M).cnt = s.redo.cnt - 1 := rfl
      omega
    · exact ⟨s, redo_of_empty M s (by omega), hu, hr, hsum⟩
  | ClearStack sel =>
    refine ⟨_, rfl, ?_⟩
    cases sel
    · refine ⟨Good_empty M hM, hr, ?_⟩
      show (UndoStack.empty M).cnt + s.redo.cnt ≤ (M : Int)
      have := hr.1.2.2.1
      simpa [UndoStack.empty] using this
    · refine ⟨hu, Good_empty M hM, ?_⟩
      show s.undo.cnt + (UndoStack.empty M).cnt ≤ (M : Int)
      have := hu.1.2.2.1
      simpa [UndoStack.empty] using this
  | Mutate D a => exact ⟨_, rfl, hu, hr, hsum⟩

theorem Reach_run (M : Nat) (vs : List Verb) (s : SolveSpaceUI) (h : Reach M s) :
    ∃ s1, run M s vs = some s1 ∧ Reach M s1 := by
  induction vs generalizing s with
  | nil => exact ⟨s, rfl, h⟩
  | cons v vs ih =>
    obtain ⟨s1, h1, hR1⟩ := Reach_step M s v h
    obtain ⟨s2, h2, hR2⟩ := ih s1 hR1
    exact ⟨s2, by simp [run, h1, h2], hR2⟩

theorem Reach_of_empty (M : Nat) (hM : 1 ≤ M) (s : SolveSpaceUI)
    (hu : s.undo = UndoStack.empty M) (hr : s.redo = UndoStack.empty M) : Reach M s := by
  refine ⟨hu ▸ Good_empty M (by omega), hr ▸ Good_empty M (by omega), ?_⟩
  rw [hu, hr]
  simp [UndoStack.empty]

/-! ## Undo and Redo never evict -/

theorem set_getD_self (d : List UndoState) (n : Nat) (e : UndoState) :
    d.set n (d.getD n e) = d := by
  induction d generalizing n with
  | nil => rfl
  | cons a d ih =>
    cases n with
    | zero => simp
    | succ n =>
      have := ih n
      simp only [List.getD_eq_getElem?_getD] at this
      simp [this]

theorem getD_mem_of_lt (d : List UndoState) (n : Nat) (e : UndoState) (h : n < d.length) :
    d.getD n e ∈ d := by
  rw [List.getD_eq_getElem d e h]
  exact List.getElem_mem h

theorem pushed_not_full (M : Nat) (uk : UndoStack) (x : UndoState) (h : uk.cnt ≠ (M : Int)) :
    (uk.pushed M x).cnt = uk.cnt + 1 := by
  simp [UndoStack.pushed, h]

theorem liveSlots_pushed_not_full (M : Nat) (uk : UndoStack) (x : UndoState) (h : uk.WF M)
    (hc : uk.cnt < (M : Int)) : (uk.pushed M x).liveSlots M = x :: uk.liveSlots M := by
  rw [liveSlots_pushed M uk x h, List.take_of_length_le]
  simp only [List.length_cons, liveSlots_length]
  have := h.2.1
  omega

theorem undo_effective (M : Nat) (s : SolveSpaceUI) (h : Reach M s) (hc : 0 < s.undo.cnt) :
    ∃ s1 x, UndoUndo M s = some s1 ∧ s1.undo.cnt = s.undo.cnt - 1 ∧
      s1.redo.cnt = s.redo.cnt + 1 ∧
      s.undo.liveSlots M = x :: s1.undo.liveSlots M ∧
      s1.SK = x.sketch ∧ s1.activeGroup = x.activeGroup ∧
      s1.redo.liveSlots M = snapshotOf s.SK s.activeGroup :: s.redo.liveSlots M := by
  obtain ⟨hu, hr, hsum⟩ := h
  have hne : s.redo.cnt ≠ (M : Int) := by omega
  have hlt : s.redo.cnt < (M : Int) := by
    have := hr.1.2.2.1
    omega
  exact ⟨_, s.undo.slot (WRAP (s.undo.write - 1) M), undo_eq M s hc, rfl,
    pushed_not_full M _ _ hne, liveSlots_popped M _ hu.1 hc, rfl, rfl,
    liveSlots_pushed_not_full M _ _ hr.1 hlt⟩

theorem redo_effective (M : Nat) (s : SolveSpaceUI) (h : Reach M s) (hc : 0 < s.redo.cnt) :
    ∃ s1 x, UndoRedo M s = some s1 ∧ s1.redo.cnt = s.redo.cnt - 1 ∧
      s1.undo.cnt = s.undo.cnt + 1 ∧
      s.redo.liveSlots M = x :: s1.redo.liveSlots M ∧
      s1.SK = x.sketch ∧ s1.activeGroup = x.activeGroup ∧
      s1.undo.liveSlots M = snapshotOf s.SK s.activeGroup :: s.undo.liveSlots M := by
  obtain ⟨hu, hr, hsum⟩ := h
  have hne : s.undo.cnt ≠ (M : Int) := by omega
  have hlt : s.undo.cnt < (M : Int) := by
    have := hu.1.2.2.1
    omega
  exact ⟨_, s.redo.slot (WRAP (s.redo.write - 1) M), redo_eq M s hc, rfl,
    pushed_not_full M _ _ hne, liveSlots_popped M _ hr.1 hc, rfl, rfl,
    liveSlots_pushed_not_full M _ _ hu.1 hlt⟩

/-- C18. Undo and Redo never evict: with capacity at least 1, every state
reached from two empty buffers by `UndoRemember`, `UndoUndo`, `UndoRedo`
(edits and stack clears allowed in between) has
`undo.cnt + redo.cnt ≤ MAX_UNDO`; there an `UndoUndo` with `undo.cnt > 0`
returns normally, lowers `undo.cnt` by exactly one and raises `redo.cnt` by
exactly one, the undo buffer read as a stack loses only its head, which is
installed as the live document, and the redo buffer read as a stack keeps
every entry and gains the captured snapshot; symmetrically for `UndoRedo`. -/
theorem undo_redo_never_evict (M : Nat) (s0 : SolveSpaceUI) (vs : List Verb) (hM : 1 ≤ M)
    (hu : s0.undo = UndoStack.empty M) (hr : s0.redo = UndoStack.empty M) :
    ∃ s, run M s0 vs = some s ∧ s.undo.cnt + s.redo.cnt ≤ (M : Int) ∧
      (0 < s.undo.cnt →
        ∃ s1 x, UndoUndo M s = some s1 ∧ s1.undo.cnt = s.undo.cnt - 1 ∧
          s1.redo.cnt = s.redo.cnt + 1 ∧
          s.undo.liveSlots M = x :: s1.undo.liveSlots M ∧
          s1.SK = x.sketch ∧ s1.activeGroup = x.activeGroup ∧
          s1.redo.liveSlots M = snapshotOf s.SK s.activeGroup :: s.redo.liveSlots M) ∧
      (0 < s.redo.cnt →
        ∃ s1 x, UndoRedo M s = some s1 ∧ s1.redo.cnt = s.redo.cnt - 1 ∧
          s1.undo.cnt = s.undo.cnt + 1 ∧
          s.redo.liveSlots M = x :: s1.redo.liveSlots M ∧
          s1.SK = x.sketch ∧ s1.activeGroup = x.activeGroup ∧
          s1.undo.liveSlots M = snapshotOf s.SK s.activeGroup :: s.undo.liveSlots M) := by
  obtain ⟨s, hrun, hR⟩ := Reach_run M vs s0 (Reach_of_empty M hM s0 hu hr)
  exact ⟨s, hrun, hR.2.2, undo_effective M s hR, redo_effective M s hR⟩

/-- Witness of C18: capacity 2, two captures and one undo from empty buffers. -/
theorem undo_redo_never_evict_witness :
    1 ≤ 2 ∧ emptyHistoryState.undo = UndoStack.empty 2 ∧
    emptyHistoryState.redo = UndoStack.empty 2 ∧
    ∃ s, run 2 emptyHistoryState
        [Verb.Remember, Verb.Mutate sketchB 2, Verb.Remember, Verb.Undo] = some s ∧
      s.undo.cnt + s.redo.cnt ≤ ((2 : Nat) : Int) :=
  ⟨by decide, rfl, rfl,
    (undo_redo_never_evict 2 emptyHistoryState
      [Verb.Remember, Verb.Mutate sketchB 2, Verb.Remember, Verb.Undo]
      (by decide) rfl rfl).imp (fun _ h => ⟨h.1, h.2.1⟩)⟩

/-! ## Undo followed by Redo -/

theorem popped_pushed (M : Nat) (uk : UndoStack) (y : UndoState) (h : uk.WF M)
    (hc : uk.cnt < (M : Int)) (he : uk.slot uk.write = UndoState.empty) :
    (uk.pushed M y).popped M = uk := by
  obtain ⟨hl, hc0, hc1, hw0, hw1⟩ := h
  have hne : uk.cnt ≠ (M : Int) := by omega
  cases uk with
  | mk d cnt write =>
    simp only [UndoStack.slot] at he
    simp only at hl hc0 hc1 hw0 hw1 hne
    simp only [UndoStack.pushed, UndoStack.popped, hne, if_false, UndoStack.mk.injEq,
      WRAP_succ_pred write M hw0 hw1, List.set_set]
    refine ⟨?_, by omega, trivial⟩
    have := set_getD_self d write.toNat UndoState.empty
    rw [he] at this
    exact this

theorem pushed_popped (M : Nat) (uk : UndoStack) (h : uk.WF M) (hc : 0 < uk.cnt) :
    (uk.popped M).pushed M (uk.slot (WRAP (uk.write - 1) M)) = uk := by
  obtain ⟨hl, hc0, hc1, hw0, hw1⟩ := h
  have hne : uk.cnt - 1 ≠ (M : Int) := by omega
  cases uk with
  | mk d cnt write =>
    simp only at hl hc0 hc1 hw0 hw1 hne hc
    simp only [UndoStack.pushed, UndoStack.popped, UndoStack.slot, hne, if_false,
      UndoStack.mk.injEq, WRAP_pred_succ write M hw0 hw1, List.set_set]
    exact ⟨set_getD_self d _ UndoState.empty, by omega, trivial⟩

theorem slot_write_empty (M : Nat) (uk : UndoStack) (h : uk.Good M) (hc : uk.cnt < (M : Int)) :
    uk.slot uk.write = UndoState.empty := by
  obtain ⟨⟨hl, hc0, hc1, hw0, hw1⟩, hd, _⟩ := h
  apply hd uk.write.toNat (by omega)
  intro j hj
  have e : uk.write - 1 - (j : Int) = uk.write - ((j : Int) + 1) := by ring
  rw [e]
  have hne := WRAP_back_ne uk.write ((j : Int) + 1) M hw0 hw1 (by omega) (by omega)
  have hnn := WRAP_nonneg (uk.write - ((j : Int) + 1)) M (by omega)
  exact toNat_ne _ _ hnn hw0 hne

theorem slot_stripped (M : Nat) (uk : UndoStack) (h : uk.Good M) (i : Int)
    (hi1 : i < (M : Int)) : snapshotOf (uk.slot i).sketch (uk.slot i).activeGroup = uk.slot i := by
  obtain ⟨⟨hl, _⟩, _, hs⟩ := h
  exact hs _ (getD_mem_of_lt uk.d i.toNat UndoState.empty (by omega))

theorem undo_then_redo (M : Nat) (s : SolveSpaceUI) (h : Reach M s) (hc : 0 < s.undo.cnt) :
    ∃ s1 s2, UndoUndo M s = some s1 ∧ UndoRedo M s1 = some s2 ∧
      s1.redo.slot s.redo.write = snapshotOf s.SK s.activeGroup ∧
      s2.redo = s.redo ∧ s2.undo = s.undo ∧
      s2.SK = stripSketch s.SK ∧ s2.activeGroup = s.activeGroup := by
  obtain ⟨hu, hr, hsum⟩ := h
  have hM : 0 < M := by
    obtain ⟨⟨_, _, _, hw0, hw1⟩, _⟩ := hu
    omega
  have hlt : s.redo.cnt < (M : Int) := by omega
  obtain ⟨s1, e1, hu1, hr1, hSK1, hag1⟩ := undo_step M s hc
  have hc1 : 0 < s1.redo.cnt := by
    rw [hr1, pushed_not_full M _ _ (by omega)]
    have := hr.1.2.1
    omega
  have e2 := redo_eq M s1 hc1
  refine ⟨s1, _, e1, e2, ?_, ?_, ?_, ?_, ?_⟩
  · rw [hr1]
    simp only [UndoStack.pushed, UndoStack.slot]
    exact getD_set_same _ _ _ (by
      have := hr.1
      obtain ⟨hl, _, _, hw0, hw1⟩ := this
      omega)
  · show s1.redo.popped M = s.redo
    rw [hr1]
    exact popped_pushed M _ _ hr.1 hlt (slot_write_empty M _ hr hlt)
  · show s1.undo.pushed M (snapshotOf s1.SK s1.activeGroup) = s.undo
    rw [hu1, hSK1, hag1,
      slot_stripped M _ hu _ (WRAP_lt _ M hM)]
    exact pushed_popped M _ hu.1 hc
  · show (s1.redo.slot (WRAP (s1.redo.write - 1) M)).sketch = stripSketch s.SK
    rw [hr1, slot_pushed_back M _ _ hr.1, sketch_snapshotOf]
  · show (s1.redo.slot (WRAP (s1.redo.write - 1) M)).activeGroup = s.activeGroup
    rw [hr1, slot_pushed_back M _ _ hr.1]
    rfl

/-- C19. Undo followed by Redo restores the history: with capacity at least
1, in every state reached from two empty buffers by the verbs (edits and
stack clears allowed in between) that has `undo.cnt > 0`, `UndoUndo` and then
`UndoRedo` both return normally; in between the redo slot at the old redo
cursor holds the captured snapshot, and afterwards the redo buffer is exactly
as it was (`cnt`, `write` and every slot), the undo buffer is exactly as it
was (`cnt`, `write` and every slot), and the live document is the original
one with its regenerable fields and `dogd` emptied, under the original
active group; the calls made after each restore are recorded and leave the
collections alone. -/
theorem undo_then_redo_restores (M : Nat) (s0 : SolveSpaceUI) (vs : List Verb) (hM : 1 ≤ M)
    (hu : s0.undo = UndoStack.empty M) (hr : s0.redo = UndoStack.empty M) :
    ∃ s, run M s0 vs = some s ∧
      (0 < s.undo.cnt →
        ∃ s1 s2, UndoUndo M s = some s1 ∧ UndoRedo M s1 = some s2 ∧
          s1.redo.slot s.redo.write = snapshotOf s.SK s.activeGroup ∧
          s2.redo.slot s.redo.write = UndoState.empty ∧
          (s2.redo.cnt = s.redo.cnt ∧ s2.redo.write = s.redo.write ∧ s2.redo.d = s.redo.d) ∧
          (s2.undo.cnt = s.undo.cnt ∧ s2.undo.write = s.undo.write ∧ s2.undo.d = s.undo.d) ∧
          s2.SK = stripSketch s.SK ∧ s2.activeGroup = s.activeGroup) := by
  obtain ⟨s, hrun, hR⟩ := Reach_run M vs s0 (Reach_of_empty M hM s0 hu hr)
  refine ⟨s, hrun, ?_⟩
  intro hc
  obtain ⟨s1, s2, e1, e2, hmid, hredo, hundo, hSK, hag⟩ := undo_then_redo M s hR hc
  have hlt : s.redo.cnt < (M : Int) := by
    have := hR.2.2
    omega
  refine ⟨s1, s2, e1, e2, hmid, ?_, ?_, ?_, hSK, hag⟩
  · rw [hredo]
    exact slot_write_empty M _ hR.2.1 hlt
  · rw [hredo]
    exact ⟨rfl, rfl, rfl⟩
  · rw [hundo]
    exact ⟨rfl, rfl, rfl⟩

/-- Witness of C19: capacity 2, two captures from empty buffers, then undo
and redo. -/
theorem undo_then_redo_restores_witness :
    1 ≤ 2 ∧ emptyHistoryState.undo = UndoStack.empty 2 ∧
    emptyHistoryState.redo = UndoStack.empty 2 ∧
    ∃ s, run 2 emptyHistoryState [Verb.Remember, Verb.Mutate sketchB 2, Verb.Remember] = some s ∧
      (0 < s.undo.cnt →
        ∃ s1 s2, UndoUndo 2 s = some s1 ∧ UndoRedo 2 s1 = some s2 ∧
          s2.SK = stripSketch s.SK ∧ s2.activeGroup = s.activeGroup) :=
  ⟨by decide, rfl, rfl,
    (undo_then_redo_restores 2 emptyHistoryState
      [Verb.Remember, Verb.Mutate sketchB 2, Verb.Remember] (by decide) rfl rfl).imp
      (fun _ h => ⟨h.1, fun hc =>
        (h.2 hc).imp (fun _ h1 => h1.imp (fun _ h2 => ⟨h2.1, h2.2.1, h2.2.2.2.2.2.2⟩))⟩)⟩

/-! ## Independence of snapshot and live document -/

theorem two_captures_liveSlots (M : Nat) (uk : UndoStack) (xA xB : UndoState) (hM : 2 ≤ M)
    (h : uk.WF M) :
    ∃ rest, ((uk.pushed M xA).pushed M xB).liveSlots M = xB :: xA :: rest := by
  obtain ⟨m, rfl⟩ : ∃ m, M = m + 2 := ⟨M - 2, by omega⟩
  rw [liveSlots_pushed _ _ _ (WF_pushed _ uk xA h), liveSlots_pushed _ uk xA h]
  exact ⟨((uk.liveSlots (m + 2)).take (m + 1)).take m, by simp [List.take_succ_cons]⟩

theorem two_captures_two_undos (M : Nat) (s s1 : SolveSpaceUI) (hM : 2 ≤ M)
    (hu : s.undo.WF M) (h1 : s1.undo = (UndoRemember M s).undo) :
    ∃ t1 t2, UndoUndo M (UndoRemember M s1) = some t1 ∧ UndoUndo M t1 = some t2 ∧
      t2.SK = stripSketch s.SK ∧ t2.activeGroup = s.activeGroup ∧ t2.redo.cnt = 2 := by
  have hU : (UndoRemember M s1).undo
      = (s.undo.pushed M (snapshotOf s.SK s.activeGroup)).pushed M
          (snapshotOf s1.SK s1.activeGroup) := by
    rw [remember_eq]
    simp only [h1]
    rw [remember_eq]
  have hR : (UndoRemember M s1).redo = UndoStack.empty M := remember_redo M _
  obtain ⟨rest, hL⟩ := two_captures_liveSlots M s.undo (snapshotOf s.SK s.activeGroup)
    (snapshotOf s1.SK s1.activeGroup) hM hu
  have hWF2 : ((s.undo.pushed M (snapshotOf s.SK s.activeGroup)).pushed M
      (snapshotOf s1.SK s1.activeGroup)).WF M := WF_pushed M _ _ (WF_pushed M _ _ hu)
  have hcnt2 : 2 ≤ ((s.undo.pushed M (snapshotOf s.SK s.activeGroup)).pushed M
      (snapshotOf s1.SK s1.activeGroup)).cnt := by
    have hlen := congrArg List.length hL
    rw [liveSlots_length] at hlen
    simp only [List.length_cons] at hlen
    omega
  have hpos1 : 0 < (UndoRemember M s1).undo.cnt := by
    rw [hU]
    omega
  obtain ⟨t1, e1, hu1, hr1, _, _⟩ := undo_step M _ hpos1
  rw [hU] at hu1
  rw [hR] at hr1
  have hpos2 : 0 < t1.undo.cnt := by
    rw [hu1]
    show 0 < _ - 1
    omega
  obtain ⟨t2, e2, hu2, hr2, hSK2, hag2⟩ := undo_step M t1 hpos2
  have hL1 := liveSlots_popped M _ hWF2 (by omega)
  rw [hL] at hL1
  have hL1t := (List.cons.inj hL1).2
  have hpos2b : 0 < (((s.undo.pushed M (snapshotOf s.SK s.activeGroup)).pushed M
      (snapshotOf s1.SK s1.activeGroup)).popped M).cnt := by
    rw [← hu1]
    exact hpos2
  have hL2 := liveSlots_popped M _ (WF_popped M _ hWF2 (by omega)) hpos2b
  rw [← hL1t] at hL2
  have hx := (List.cons.inj hL2).1
  rw [← hu1] at hx
  refine ⟨t1, t2, e1, e2, ?_, ?_, ?_⟩
  · rw [hSK2, ← hx, sketch_snapshotOf]
  · rw [hag2, ← hx]
    rfl
  · rw [hr2, hr1]
    simp only [UndoStack.pushed, UndoStack.empty]
    have h0 : ¬ (0 : Int) = (M : Int) := by omega
    simp only [h0, if_false]
    have h1 : ¬ (0 : Int) + 1 = (M : Int) := by omega
    simp only [h1, if_false]
    rfl

/-! ## The heap of remap blocks -/

theorem Heap.read_append (H : Heap) (extra : List (Option (List (Nat × Nat)))) (r : RemapRef)
    (h : ∀ a, r = some a → a < H.cells.length) :
    Heap.read { cells := H.cells ++ extra } r = H.read r := by
  cases r with
  | none => rfl
  | some a =>
    have ha := h a rfl
    simp [Heap.read, List.getElem?_append_left ha]

theorem Heap.read_congr (H H2 : Heap) (r : RemapRef)
    (h : ∀ a, r = some a → H2.cells.getD a none = H.cells.getD a none) :
    H2.read r = H.read r := by
  cases r with
  | none => rfl
  | some a =>
    simp only [Heap.read]
    rw [h a rfl]

theorem mem_blocksOf (gs : List GroupRef) (a : Nat) :
    a ∈ blocksOf gs ↔ ∃ g ∈ gs, g.remap = some a := by
  simp [blocksOf, List.mem_filterMap]

theorem read_groups_agree (H H2 : Heap) (gs : List GroupRef) (h : H.agree H2 (blocksOf gs)) :
    gs.map (GroupRef.read H2) = gs.map (GroupRef.read H) := by
  apply List.map_congr_left
  intro g hg
  have e : H2.read g.remap = H.read g.remap :=
    Heap.read_congr H H2 g.remap (fun a ha => h a ((mem_blocksOf gs a).mpr ⟨g, hg, ha⟩))
  simp [GroupRef.read, e]

theorem read_slot_agree (H H2 : Heap) (ut : UndoStateRef) (h : H.agree H2 (blocksOf ut.group)) :
    ut.read H2 = ut.read H := by
  simp [UndoStateRef.read, read_groups_agree H H2 ut.group h]

theorem freeAll_frame (gs : List GroupRef) (H : Heap) :
    (gs.foldl (fun (H : Heap) (g : GroupRef) => H.free g.remap) H).cells.length
        = H.cells.length ∧
    ∀ a, a ∉ blocksOf gs →
      (gs.foldl (fun (H : Heap) (g : GroupRef) => H.free g.remap) H).cells.getD a none
        = H.cells.getD a none := by
  induction gs generalizing H with
  | nil => exact ⟨rfl, fun _ _ => rfl⟩
  | cons g gs ih =>
    obtain ⟨hl, hf⟩ := ih (H.free g.remap)
    simp only [List.foldl_cons]
    constructor
    · rw [hl]
      cases hr : g.remap with
      | none => rfl
      | some b => simp [Heap.free]
    · intro a ha
      have ha2 : a ∉ blocksOf gs := by
        intro hm
        apply ha
        rw [mem_blocksOf] at hm ⊢
        obtain ⟨g2, hg2, e2⟩ := hm
        exact ⟨g2, List.mem_cons_of_mem g hg2, e2⟩
      rw [hf a ha2]
      cases hr : g.remap with
      | none => rfl
      | some b =>
        have hne : b ≠ a := by
          intro e
          apply ha
          rw [mem_blocksOf]
          exact ⟨g, List.mem_cons_self g gs, e ▸ hr⟩
        simp [Heap.free, List.getElem?_set_ne hne]

theorem clearState_frame (H : Heap) (ut : UndoStateRef) :
    (UndoClearStateRef H ut).2 = UndoStateRef.empty ∧
    (UndoClearStateRef H ut).1.cells.length = H.cells.length ∧
    ∀ a, a ∉ blocksOf ut.group →
      (UndoClearStateRef H ut).1.cells.getD a none = H.cells.getD a none :=
  ⟨rfl, (freeAll_frame ut.group H).1, (freeAll_frame ut.group H).2⟩

theorem foldl_groupStepRef (gs : List GroupRef) (H : Heap) (ut : UndoStateRef)
    (h : ∀ a ∈ blocksOf gs, a < H.cells.length) :
    gs.foldl PushFromCurrentOntoRef.groupStep (H, ut)
      = ({ cells := H.cells ++ gs.map (fun g => some (H.read g.remap)) },
         { ut with group := ut.group ++ capturedAt H.cells.length gs }) := by
  induction gs generalizing H ut with
  | nil => simp [capturedAt]
  | cons g gs ih =>
    have hstep : PushFromCurrentOntoRef.groupStep (H, ut) g
        = ({ cells := H.cells ++ [some (H.read g.remap)] },
           { ut with group := ut.group ++ [stripGroupRef g (some H.cells.length)] }) := by
      simp [PushFromCurrentOntoRef.groupStep, DeepCopyIntoRef, Add, stripGroupRef]
    have hgs : ∀ a ∈ blocksOf gs, a < (H.cells ++ [some (H.read g.remap)]).length := by
      intro a ha
      have : a ∈ blocksOf (g :: gs) := by
        rw [mem_blocksOf] at ha ⊢
        obtain ⟨g2, hg2, e2⟩ := ha
        exact ⟨g2, List.mem_cons_of_mem g hg2, e2⟩
      have := h a this
      simp only [List.length_append, List.length_singleton]
      omega
    rw [List.foldl_cons, hstep, ih _ _ hgs]
    have hmap : gs.map (fun g2 => some (Heap.read
          { cells := H.cells ++ [some (H.read g.remap)] } g2.remap))
        = gs.map (fun g2 => some (H.read g2.remap)) := by
      apply List.map_congr_left
      intro g2 hg2
      rw [Heap.read_append H _ g2.remap]
      intro a ha
      apply h a
      rw [mem_blocksOf]
      exact ⟨g2, List.mem_cons_of_mem g hg2, ha⟩
    simp [hmap, capturedAt]

theorem mem_blocksOf_capturedAt (gs : List GroupRef) (n a : Nat) :
    a ∈ blocksOf (capturedAt n gs) ↔ n ≤ a ∧ a < n + gs.length := by
  induction gs generalizing n with
  | nil => simp [capturedAt, blocksOf]
  | cons g gs ih =>
    have := ih (n + 1)
    simp only [blocksOf] at this
    simp only [capturedAt, blocksOf, List.filterMap_cons, stripGroupRef, List.mem_cons,
      List.length_cons, this]
    omega

theorem getD_append_length (pre rest : List (Option (List (Nat × Nat))))
    (x : Option (List (Nat × Nat))) : (pre ++ x :: rest).getD pre.length none = x := by
  induction pre with
  | nil => rfl
  | cons y pre ih => simpa using ih

theorem read_capturedAt (gs : List GroupRef) (pre : List (Option (List (Nat × Nat))))
    (k : GroupRef → List (Nat × Nat)) :
    (capturedAt pre.length gs).map
        (GroupRef.read { cells := pre ++ gs.map (fun g => some (k g)) })
      = gs.map (fun g => GroupRef.read { cells := [some (k g)] } (stripGroupRef g (some 0))) := by
  induction gs generalizing pre with
  | nil => simp [capturedAt]
  | cons g gs ih =>
    have e := ih (pre ++ [some (k g)])
    simp only [List.length_append, List.length_singleton, List.append_assoc,
      List.singleton_append] at e
    simp only [capturedAt, List.map_cons, e, List.cons.injEq, and_true]
    simp only [GroupRef.read, stripGroupRef, Heap.read, getD_append_length]
    rfl

theorem foldl_requestAddRef (l : List Request) (ut : UndoStateRef) :
    l.foldl (fun (ut : UndoStateRef) r => { ut with request := Add ut.request r }) ut
      = { ut with request := ut.request ++ l } := by
  induction l generalizing ut with
  | nil => simp
  | cons c l ih =>
    rw [List.foldl_cons, ih]
    simp [Add]

theorem foldl_constraintStepRef (l : List Constraint) (ut : UndoStateRef) :
    l.foldl PushFromCurrentOntoRef.constraintStep ut
      = { ut with constraint := ut.constraint ++ l.map stripConstraint } := by
  induction l generalizing ut with
  | nil => simp
  | cons c l ih =>
    simp [List.foldl_cons, ih, PushFromCurrentOntoRef.constraintStep, Add, stripConstraint]

theorem foldl_paramAddRef (l : List Param) (ut : UndoStateRef) :
    l.foldl (fun (ut : UndoStateRef) r => { ut with param := Add ut.param r }) ut
      = { ut with param := ut.param ++ l } := by
  induction l generalizing ut with
  | nil => simp
  | cons c l ih =>
    rw [List.foldl_cons, ih]
    simp [Add]

theorem foldl_styleAddRef (l : List Style) (ut : UndoStateRef) :
    l.foldl (fun (ut : UndoStateRef) r => { ut with style := Add ut.style r }) ut
      = { ut with style := ut.style ++ l } := by
  induction l generalizing ut with
  | nil => simp
  | cons c l ih =>
    rw [List.foldl_cons, ih]
    simp [Add]

theorem fill_ref_eq (H : Heap) (SK : SketchRef) (ag : Nat)
    (h : ∀ a ∈ blocksOf SK.group, a < H.cells.length) :
    PushFromCurrentOntoRef.fill H SK ag
      = ({ cells := H.cells ++ SK.group.map (fun g => some (H.read g.remap)) },
         { group := capturedAt H.cells.length SK.group, request := SK.request,
           constraint := SK.constraint.map stripConstraint, param := SK.param,
           style := SK.style, activeGroup := ag }) := by
  unfold PushFromCurrentOntoRef.fill
  rw [foldl_groupStepRef SK.group H UndoStateRef.empty h]
  simp [foldl_requestAddRef, foldl_constraintStepRef, foldl_paramAddRef, foldl_styleAddRef,
    UndoStateRef.empty]

theorem fill_ref_read (H : Heap) (SK : SketchRef) (ag : Nat)
    (h : ∀ a ∈ blocksOf SK.group, a < H.cells.length) :
    (PushFromCurrentOntoRef.fill H SK ag).2.read (PushFromCurrentOntoRef.fill H SK ag).1
      = snapshotOf (SK.read H) ag := by
  rw [fill_ref_eq H SK ag h]
  simp only [UndoStateRef.read, snapshotOf, SketchRef.read, UndoState.mk.injEq, and_true,
    true_and]
  rw [read_capturedAt SK.group H.cells (fun g => H.read g.remap), List.map_map]
  apply List.map_congr_left
  intro g _
  simp [GroupRef.read, stripGroupRef, stripGroup, Heap.read]

theorem fill_ref_frame (H : Heap) (SK : SketchRef) (ag : Nat)
    (h : ∀ a ∈ blocksOf SK.group, a < H.cells.length) :
    (PushFromCurrentOntoRef.fill H SK ag).1.cells.length = H.cells.length + SK.group.length ∧
    (∀ a, a < H.cells.length →
      (PushFromCurrentOntoRef.fill H SK ag).1.cells.getD a none = H.cells.getD a none) ∧
    (∀ a, a ∈ blocksOf (PushFromCurrentOntoRef.fill H SK ag).2.group ↔
      H.cells.length ≤ a ∧ a < H.cells.length + SK.group.length) := by
  rw [fill_ref_eq H SK ag h]
  refine ⟨by simp, ?_, ?_⟩
  · intro a ha
    simp [List.getElem?_append_left ha]
  · intro a
    exact mem_blocksOf_capturedAt SK.group H.cells.length a

theorem heapAtFill_frame (M : Nat) (p : SolveSpaceUIRef) (sel : StackSel) :
    (p.heapAtFill M sel).cells.length = p.heap.cells.length ∧
    ∀ a, a ∉ p.slotBlocks sel (p.stack sel).write.toNat →
      (p.heapAtFill M sel).cells.getD a none = p.heap.cells.getD a none := by
  unfold SolveSpaceUIRef.heapAtFill
  split
  · exact ⟨(clearState_frame _ _).2.1, fun a ha => (clearState_frame _ _).2.2 a ha⟩
  · exact ⟨rfl, fun _ _ => rfl⟩

theorem push_ref_eq (M : Nat) (p : SolveSpaceUIRef) (sel : StackSel) :
    PushFromCurrentOntoRef M p sel
      = { p.setStack sel ((p.stack sel).pushed M
            (PushFromCurrentOntoRef.fill (p.heapAtFill M sel) p.SK p.activeGroup).2) with
          heap := (PushFromCurrentOntoRef.fill (p.heapAtFill M sel) p.SK p.activeGroup).1 } := by
  unfold PushFromCurrentOntoRef SolveSpaceUIRef.heapAtFill
  by_cases h : (p.stack sel).cnt = (M : Int)
  · simp [h, UndoStackRef.pushed, UndoStackRef.setSlot, List.set_set]
  · simp [h, UndoStackRef.pushed, UndoStackRef.setSlot]

/-! ## The states the references stand for -/

theorem state_ext (s t : SolveSpaceUI) (h1 : s.SK = t.SK) (h2 : s.activeGroup = t.activeGroup)
    (h3 : s.undo = t.undo) (h4 : s.redo = t.redo) (h5 : s.unsaved = t.unsaved)
    (h6 : s.showTW = t.showTW) (h7 : s.calls = t.calls) : s = t := by
  cases s
  cases t
  simp only at h1 h2 h3 h4 h5 h6 h7
  simp [h1, h2, h3, h4, h5, h6, h7]

@[simp] theorem ref_stack_setStack (p : SolveSpaceUIRef) (sel : StackSel) (uk : UndoStackRef) :
    (p.setStack sel uk).stack sel = uk := by
  cases sel <;> rfl

theorem ref_stack_setStack_ne (p : SolveSpaceUIRef) (sel sel2 : StackSel) (uk : UndoStackRef)
    (h : sel2 ≠ sel) : (p.setStack sel uk).stack sel2 = p.stack sel2 := by
  cases sel <;> cases sel2 <;> first | rfl | exact absurd rfl h

theorem read_stack (p : SolveSpaceUIRef) (sel : StackSel) :
    p.read.stack sel = (p.stack sel).read p.heap := by
  cases sel <;> rfl

theorem read_slot_empty (H : Heap) : UndoStateRef.empty.read H = UndoState.empty := rfl

theorem read_slot (H : Heap) (uk : UndoStackRef) (i : Int) :
    (uk.read H).slot i = (uk.slot i).read H := by
  simp only [UndoStack.slot, UndoStackRef.slot, UndoStackRef.read,
    List.getD_eq_getElem?_getD, List.getElem?_map]
  cases uk.d[i.toNat]? with
  | none => rfl
  | some ut => rfl

theorem getD_of_getElem? (d : List UndoStateRef) (i : Nat) (ut : UndoStateRef)
    (h : d[i]? = some ut) : d.getD i UndoStateRef.empty = ut := by
  simp [h]

theorem read_stack_agree (H H2 : Heap) (uk : UndoStackRef)
    (h : ∀ i, H.agree H2 (blocksOf (uk.d.getD i UndoStateRef.empty).group)) :
    uk.read H2 = uk.read H := by
  simp only [UndoStackRef.read, UndoStack.mk.injEq, and_true]
  apply List.map_congr_left
  intro ut hut
  obtain ⟨i, hi⟩ := List.mem_iff_getElem?.mp hut
  have := h i
  rw [getD_of_getElem? _ _ _ hi] at this
  exact read_slot_agree H H2 ut this

theorem read_stack_set (H H2 : Heap) (d : List UndoStateRef) (w : Nat) (x : UndoStateRef)
    (h : ∀ i, i ≠ w → H.agree H2 (blocksOf (d.getD i UndoStateRef.empty).group)) :
    (d.set w x).map (UndoStateRef.read H2)
      = (d.map (UndoStateRef.read H)).set w (x.read H2) := by
  apply List.ext_getElem?
  intro i
  rw [List.getElem?_map, List.getElem?_set, List.getElem?_set, List.getElem?_map,
    List.length_map]
  by_cases hi : w = i
  · simp only [hi, if_true]
    split <;> rfl
  · simp only [hi, if_false]
    cases hd : d[i]? with
    | none => rfl
    | some ut =>
      have := h i (fun e => hi e.symm)
      rw [getD_of_getElem? _ _ _ hd] at this
      simp [read_slot_agree H H2 ut this]

theorem read_sketch_agree (H H2 : Heap) (SK : SketchRef) (h : H.agree H2 (blocksOf SK.group)) :
    SK.read H2 = SK.read H := by
  simp [SketchRef.read, read_groups_agree H H2 SK.group h]

theorem slotBlocks_setStack_same (p : SolveSpaceUIRef) (sel : StackSel) (uk : UndoStackRef)
    (i : Nat) :
    (p.setStack sel uk).slotBlocks sel i = blocksOf (uk.d.getD i UndoStateRef.empty).group := by
  simp [SolveSpaceUIRef.slotBlocks]

theorem slotBlocks_setStack_ne (p : SolveSpaceUIRef) (sel sel2 : StackSel) (uk : UndoStackRef)
    (i : Nat) (h : sel2 ≠ sel) : (p.setStack sel uk).slotBlocks sel2 i = p.slotBlocks sel2 i := by
  simp [SolveSpaceUIRef.slotBlocks, ref_stack_setStack_ne p sel sel2 uk h]

theorem push_heap_agree (M : Nat) (p : SolveSpaceUIRef) (sel : StackSel) (h : NoAliasing p) :
    (PushFromCurrentOntoRef M p sel).heap.cells.length
        = p.heap.cells.length + p.SK.group.length ∧
    (∀ a, a < p.heap.cells.length → a ∉ p.slotBlocks sel (p.stack sel).write.toNat →
      (PushFromCurrentOntoRef M p sel).heap.cells.getD a none = p.heap.cells.getD a none) ∧
    (∀ a, a ∈ blocksOf
        (PushFromCurrentOntoRef.fill (p.heapAtFill M sel) p.SK p.activeGroup).2.group ↔
      p.heap.cells.length ≤ a ∧ a < p.heap.cells.length + p.SK.group.length) ∧
    (PushFromCurrentOntoRef.fill (p.heapAtFill M sel) p.SK p.activeGroup).2.read
        (PushFromCurrentOntoRef M p sel).heap
      = snapshotOf (p.SK.read p.heap) p.activeGroup := by
  obtain ⟨h1, h2, h3, h4⟩ := h
  obtain ⟨hl, hf⟩ := heapAtFill_frame M p sel
  have hlive : ∀ a ∈ blocksOf p.SK.group, a < (p.heapAtFill M sel).cells.length := by
    intro a ha
    rw [hl]
    exact h1 a ha
  obtain ⟨g1, g2, g3⟩ := fill_ref_frame (p.heapAtFill M sel) p.SK p.activeGroup hlive
  have hheap : (PushFromCurrentOntoRef M p sel).heap
      = (PushFromCurrentOntoRef.fill (p.heapAtFill M sel) p.SK p.activeGroup).1 := by
    rw [push_ref_eq]
  rw [hheap]
  refine ⟨by rw [g1, hl], ?_, ?_, ?_⟩
  · intro a ha hna
    rw [g2 a (by rw [hl]; exact ha), hf a hna]
  · intro a
    rw [g3 a, hl]
  · rw [fill_ref_read _ _ _ hlive]
    congr 1
    apply read_sketch_agree
    intro a ha
    exact hf a (fun hm => h3 sel _ a hm ha)

/-- Capture with remaps held by reference stands for capture on values, as
long as no snapshot shares a block with the live document or another
snapshot. -/
theorem read_push (M : Nat) (p : SolveSpaceUIRef) (sel : StackSel) (h : NoAliasing p) :
    (PushFromCurrentOntoRef M p sel).read = PushFromCurrentOnto M p.read sel := by
  obtain ⟨_, hag, _, hsnap⟩ := push_heap_agree M p sel h
  obtain ⟨h1, h2, h3, h4⟩ := h
  have hSK : p.SK.read (PushFromCurrentOntoRef M p sel).heap = p.SK.read p.heap := by
    apply read_sketch_agree
    intro a ha
    exact hag a (h1 a ha) (fun hm => h3 sel _ a hm ha)
  have hother : ∀ sel2, sel2 ≠ sel →
      (p.stack sel2).read (PushFromCurrentOntoRef M p sel).heap = (p.stack sel2).read p.heap := by
    intro sel2 hne
    apply read_stack_agree
    intro i a ha
    exact hag a (h2 sel2 i a ha)
      (fun hm => h4 sel2 i sel _ (fun e => hne (Prod.mk.inj e).1) a ha hm)
  have hsame : ((p.stack sel).pushed M
        (PushFromCurrentOntoRef.fill (p.heapAtFill M sel) p.SK p.activeGroup).2).read
        (PushFromCurrentOntoRef M p sel).heap
      = ((p.stack sel).read p.heap).pushed M (snapshotOf (p.SK.read p.heap) p.activeGroup) := by
    simp only [UndoStackRef.read, UndoStackRef.pushed, UndoStack.pushed, UndoStack.mk.injEq,
      and_true]
    rw [read_stack_set p.heap _ _ _ _ ?_, hsnap]
    intro i hi a ha
    exact hag a (h2 sel i a ha)
      (fun hm => h4 sel i sel _ (fun e => hi (Prod.mk.inj e).2) a ha hm)
  rw [push_eq, read_stack]
  have hp := push_ref_eq M p sel
  cases sel with
  | undo =>
    apply state_ext
    · rw [hp] at hSK ⊢
      exact hSK
    · rw [hp]
      rfl
    · rw [hp] at hsame ⊢
      exact hsame
    · have := hother StackSel.redo (by decide)
      rw [hp] at this ⊢
      exact this
    · rw [hp]
      rfl
    · rw [hp]
      rfl
    · rw [hp]
      rfl
  | redo =>
    apply state_ext
    · rw [hp] at hSK ⊢
      exact hSK
    · rw [hp]
      rfl
    · have := hother StackSel.undo (by decide)
      rw [hp] at this ⊢
      exact this
    · rw [hp] at hsame ⊢
      exact hsame
    · rw [hp]
      rfl
    · rw [hp]
      rfl
    · rw [hp]
      rfl

/-! ## No aliasing is kept by the operations -/

theorem mem_slot_set (d : List UndoStateRef) (w i a : Nat) (x : UndoStateRef)
    (h : a ∈ blocksOf ((d.set w x).getD i UndoStateRef.empty).group) :
    (i ≠ w ∧ a ∈ blocksOf (d.getD i UndoStateRef.empty).group) ∨
    (i = w ∧ a ∈ blocksOf x.group) := by
  by_cases hi : i = w
  · subst hi
    right
    refine ⟨rfl, ?_⟩
    by_cases hl : i < d.length
    · simpa [List.getElem?_set, hl] using h
    · exfalso
      have hd : (d.set i x).getD i UndoStateRef.empty = UndoStateRef.empty := by
        apply List.getD_eq_default
        simp only [List.length_set]
        omega
      rw [hd] at h
      simp [blocksOf, UndoStateRef.empty] at h
  · left
    refine ⟨hi, ?_⟩
    have hne : w ≠ i := fun e => hi e.symm
    simpa [List.getElem?_set_ne hne] using h

theorem push_slotBlocks (M : Nat) (p : SolveSpaceUIRef) (sel sel2 : StackSel) (i a : Nat)
    (h : NoAliasing p) (ha : a ∈ (PushFromCurrentOntoRef M p sel).slotBlocks sel2 i) :
    ((sel2, i) ≠ (sel, (p.stack sel).write.toNat) ∧ a ∈ p.slotBlocks sel2 i) ∨
    ((sel2, i) = (sel, (p.stack sel).write.toNat) ∧ p.heap.cells.length ≤ a ∧
      a < p.heap.cells.length + p.SK.group.length) := by
  obtain ⟨_, _, hnew, _⟩ := push_heap_agree M p sel h
  rw [push_ref_eq] at ha
  by_cases hs : sel2 = sel
  · subst hs
    have ha2 : a ∈ blocksOf ((((p.stack sel2).d.set (p.stack sel2).write.toNat
        (PushFromCurrentOntoRef.fill (p.heapAtFill M sel2) p.SK p.activeGroup).2)).getD i
          UndoStateRef.empty).group := by
      cases sel2 <;> exact ha
    rcases mem_slot_set _ _ _ _ _ ha2 with ⟨hne, hm⟩ | ⟨he, hm⟩
    · left
      exact ⟨fun e => hne (Prod.mk.inj e).2, hm⟩
    · right
      exact ⟨by rw [he], (hnew a).mp hm⟩
  · left
    refine ⟨fun e => hs (Prod.mk.inj e).1, ?_⟩
    cases sel <;> cases sel2 <;> first | exact absurd rfl hs | exact ha

/-- Capture keeps the buffers and the live document free of shared blocks:
the blocks of the new snapshot are new. -/
theorem NoAliasing_push (M : Nat) (p : SolveSpaceUIRef) (sel : StackSel) (h : NoAliasing p) :
    NoAliasing (PushFromCurrentOntoRef M p sel) := by
  obtain ⟨hlen, _, _, _⟩ := push_heap_agree M p sel h
  have hchar := fun sel2 i a => push_slotBlocks M p sel sel2 i a h
  have hSK : (PushFromCurrentOntoRef M p sel).SK = p.SK := by
    rw [push_ref_eq]
    cases sel <;> rfl
  obtain ⟨h1, h2, h3, h4⟩ := h
  refine ⟨?_, ?_, ?_, ?_⟩
  · intro a ha
    rw [hSK] at ha
    rw [hlen]
    have := h1 a ha
    omega
  · intro sel2 i a ha
    rw [hlen]
    rcases hchar sel2 i a ha with ⟨_, hm⟩ | ⟨_, _, hm⟩
    · have := h2 sel2 i a hm
      omega
    · exact hm
  · intro sel2 i a ha hlive
    rw [hSK] at hlive
    rcases hchar sel2 i a ha with ⟨_, hm⟩ | ⟨_, hm, _⟩
    · exact h3 sel2 i a hm hlive
    · have := h1 a hlive
      omega
  · intro sel2 i sel3 j hne a ha hb
    rcases hchar sel2 i a ha with ⟨_, hm⟩ | ⟨e1, hm, _⟩
    · rcases hchar sel3 j a hb with ⟨_, hm2⟩ | ⟨_, hm2, _⟩
      · exact h4 sel2 i sel3 j hne a hm hm2
      · have := h2 sel2 i a hm
        omega
    · rcases hchar sel3 j a hb with ⟨_, hm2⟩ | ⟨e2, _, _⟩
      · have := h2 sel3 j a hm2
        omega
      · exact hne (e1.trans e2.symm)

theorem liveFree_frame (H : Heap) (SK : SketchRef) :
    (PopOntoCurrentFromRef.free H SK).1.cells.length = H.cells.length ∧
    ∀ a, a ∉ blocksOf SK.group →
      (PopOntoCurrentFromRef.free H SK).1.cells.getD a none = H.cells.getD a none :=
  ⟨(freeAll_frame SK.group H).1, (freeAll_frame SK.group H).2⟩

theorem pop_ref_eq (M : Nat) (p : SolveSpaceUIRef) (sel : StackSel)
    (h : 0 < (p.stack sel).cnt) :
    PopOntoCurrentFromRef M p sel
      = some { (p.setStack sel ((p.stack sel).popped M)) with
          heap := (PopOntoCurrentFromRef.free p.heap p.SK).1,
          SK := ((p.stack sel).slot (WRAP ((p.stack sel).write - 1) M)).sketch,
          activeGroup := ((p.stack sel).slot (WRAP ((p.stack sel).write - 1) M)).activeGroup,
          calls := p.calls ++ restoreCalls,
          showTW := true } := by
  unfold PopOntoCurrentFromRef
  have h2 : ¬ (p.stack sel).cnt ≤ 0 := by omega
  cases sel <;>
    simp [SolveSpaceUIRef.stack] at h2 ⊢ <;>
    simp [h2, PopOntoCurrentFromRef.reset, PopOntoCurrentFromRef.move, MoveSelfInto,
      UndoStackRef.popped, UndoStackRef.setSlot, UndoStackRef.slot,
      SolveSpaceUIRef.setStack, SolveSpaceUIRef.stack, UndoStateRef.sketch, restoreCalls,
      PopOntoCurrentFromRef.free, Clear]

theorem pop_ref_none (M : Nat) (p : SolveSpaceUIRef) (sel : StackSel)
    (h : (p.stack sel).cnt ≤ 0) : PopOntoCurrentFromRef M p sel = none := by
  unfold PopOntoCurrentFromRef
  simp [h]

theorem pop_ref_step (M : Nat) (p : SolveSpaceUIRef) (sel : StackSel)
    (h : 0 < (p.stack sel).cnt) :
    ∃ q, PopOntoCurrentFromRef M p sel = some q ∧
      q.heap = (PopOntoCurrentFromRef.free p.heap p.SK).1 ∧
      q.SK = ((p.stack sel).slot (WRAP ((p.stack sel).write - 1) M)).sketch ∧
      q.activeGroup = ((p.stack sel).slot (WRAP ((p.stack sel).write - 1) M)).activeGroup ∧
      q.stack sel = (p.stack sel).popped M ∧
      (∀ sel2, sel2 ≠ sel → q.stack sel2 = p.stack sel2) ∧
      q.unsaved = p.unsaved ∧ q.showTW = true ∧ q.calls = p.calls ++ restoreCalls := by
  refine ⟨_, pop_ref_eq M p sel h, rfl, rfl, rfl, ?_, ?_, ?_, rfl, rfl⟩
  · cases sel <;> rfl
  · intro sel2 hne
    cases sel <;> cases sel2 <;> first | rfl | exact absurd rfl hne
  · cases sel <;> rfl

/-- Restore with remaps held by reference stands for restore on values, as
long as no slot shares a block with the live document, whose blocks the
restore frees. -/
theorem read_pop (M : Nat) (p : SolveSpaceUIRef) (sel : StackSel) (h : NoAliasing p) :
    (PopOntoCurrentFromRef M p sel).map SolveSpaceUIRef.read
      = PopOntoCurrentFrom M p.read sel := by
  by_cases hc : 0 < (p.stack sel).cnt
  · obtain ⟨q, e, qh, qSK, qag, qst, qoth, qun, qtw, qcalls⟩ := pop_ref_step M p sel hc
    have hc2 : 0 < (p.read.stack sel).cnt := by
      rw [read_stack]
      exact hc
    obtain ⟨_, h2, h3, h4⟩ := h
    obtain ⟨_, hfr⟩ := liveFree_frame p.heap p.SK
    have hslots : ∀ sel2 i, p.heap.agree q.heap
        (blocksOf ((p.stack sel2).d.getD i UndoStateRef.empty).group) := by
      intro sel2 i a ha
      rw [qh]
      exact hfr a (fun hm => h3 sel2 i a ha hm)
    have hut : ((p.stack sel).slot (WRAP ((p.stack sel).write - 1) M)).read q.heap
        = (p.read.stack sel).slot (WRAP ((p.read.stack sel).write - 1) M) := by
      rw [read_stack, read_slot]
      exact read_slot_agree _ _ _ (hslots sel _)
    have hpopd : ((p.stack sel).popped M).read q.heap = (p.read.stack sel).popped M := by
      rw [read_stack]
      simp only [UndoStackRef.read, UndoStackRef.popped, UndoStack.popped, UndoStack.mk.injEq,
        and_true]
      rw [read_stack_set p.heap q.heap _ _ _ (fun i _ => hslots sel i)]
      rfl
    rw [e, pop_eq M p.read sel hc2, Option.map_some', Option.some.injEq]
    apply state_ext
    · show q.SK.read q.heap = _
      rw [qSK]
      show (UndoStateRef.read q.heap _).sketch = _
      rw [hut]
    · show q.activeGroup = _
      rw [qag]
      show (UndoStateRef.read q.heap _).activeGroup = _
      rw [hut]
    · cases sel with
      | undo => exact hpopd ▸ congrArg (UndoStackRef.read q.heap) qst
      | redo =>
        have := qoth StackSel.undo (by decide)
        show q.undo.read q.heap = p.undo.read p.heap
        have e2 : q.undo = p.undo := this
        rw [e2]
        exact read_stack_agree _ _ _ (hslots StackSel.undo)
    · cases sel with
      | undo =>
        have := qoth StackSel.redo (by decide)
        show q.redo.read q.heap = p.redo.read p.heap
        have e2 : q.redo = p.redo := this
        rw [e2]
        exact read_stack_agree _ _ _ (hslots StackSel.redo)
      | redo => exact hpopd ▸ congrArg (UndoStackRef.read q.heap) qst
    · show q.unsaved = _
      rw [qun]
      cases sel <;> rfl
    · show q.showTW = _
      rw [qtw]
    · show q.calls = _
      rw [qcalls]
      cases sel <;> rfl
  · have hc1 : (p.stack sel).cnt ≤ 0 := by omega
    rw [pop_ref_none M p sel hc1]
    symm
    apply (pop_none_iff M p.read sel).mpr
    rw [read_stack]
    exact hc1

/-- Restore keeps the buffers and the live document free of shared blocks:
the blocks of the restored snapshot pass to the live document. -/
theorem NoAliasing_pop (M : Nat) (p q : SolveSpaceUIRef) (sel : StackSel) (h : NoAliasing p)
    (e : PopOntoCurrentFromRef M p sel = some q) : NoAliasing q := by
  have hc : 0 < (p.stack sel).cnt := by
    by_contra hn
    rw [pop_ref_none M p sel (by omega)] at e
    exact Option.noConfusion e
  obtain ⟨q2, e2, qh, qSK, _, qst, qoth, _⟩ := pop_ref_step M p sel hc
  rw [e] at e2
  cases Option.some.inj e2
  obtain ⟨h1, h2, h3, h4⟩ := h
  have hlen : q.heap.cells.length = p.heap.cells.length := by
    rw [qh]
    exact (liveFree_frame p.heap p.SK).1
  have hlive : ∀ a, a ∈ blocksOf q.SK.group →
      a ∈ p.slotBlocks sel (WRAP ((p.stack sel).write - 1) M).toNat := by
    intro a ha
    rw [qSK] at ha
    exact ha
  have hchar : ∀ sel2 i a, a ∈ q.slotBlocks sel2 i →
      (sel2, i) ≠ (sel, (WRAP ((p.stack sel).write - 1) M).toNat) ∧ a ∈ p.slotBlocks sel2 i := by
    intro sel2 i a ha
    by_cases hs : sel2 = sel
    · subst hs
      have ha2 : a ∈ blocksOf (((p.stack sel2).d.set (WRAP ((p.stack sel2).write - 1) M).toNat
          UndoStateRef.empty).getD i UndoStateRef.empty).group := by
        simp only [SolveSpaceUIRef.slotBlocks, qst, UndoStackRef.popped] at ha
        exact ha
      rcases mem_slot_set _ _ _ _ _ ha2 with ⟨hne, hm⟩ | ⟨_, hm⟩
      · exact ⟨fun e => hne (Prod.mk.inj e).2, hm⟩
      · simp [blocksOf, UndoStateRef.empty] at hm
    · refine ⟨fun e => hs (Prod.mk.inj e).1, ?_⟩
      simp only [SolveSpaceUIRef.slotBlocks, qoth sel2 hs] at ha
      exact ha
  refine ⟨?_, ?_, ?_, ?_⟩
  · intro a ha
    rw [hlen]
    exact h2 sel _ a (hlive a ha)
  · intro sel2 i a ha
    rw [hlen]
    exact h2 sel2 i a (hchar sel2 i a ha).2
  · intro sel2 i a ha hl
    obtain ⟨hne, hm⟩ := hchar sel2 i a ha
    exact h4 sel2 i sel _ hne a hm (hlive a hl)
  · intro sel2 i sel3 j hne a ha hb
    exact h4 sel2 i sel3 j hne a (hchar sel2 i a ha).2 (hchar sel3 j a hb).2

theorem clear_ref_pass_frame (M : Nat) (acc : Heap × UndoStackRef) :
    (UndoClearStackRef.pass M acc).1.cells.length = acc.1.cells.length ∧
    ∀ a, (∀ i, a ∉ blocksOf (acc.2.d.getD i UndoStateRef.empty).group) →
      (UndoClearStackRef.pass M acc).1.cells.getD a none = acc.1.cells.getD a none ∧
      ∀ i, a ∉ blocksOf ((UndoClearStackRef.pass M acc).2.d.getD i UndoStateRef.empty).group := by
  constructor
  · exact (clearState_frame _ _).2.1
  · intro a ha
    constructor
    · exact (clearState_frame _ _).2.2 a (ha _)
    · intro j hm
      have hm2 : a ∈ blocksOf ((acc.2.d.set (WRAP (acc.2.write - 1) M).toNat
          UndoStateRef.empty).getD j UndoStateRef.empty).group := hm
      rcases mem_slot_set _ _ _ _ _ hm2 with ⟨_, hm3⟩ | ⟨_, hm3⟩
      · exact ha j hm3
      · simp [blocksOf, UndoStateRef.empty] at hm3

theorem clear_ref_loop_frame (M : Nat) (fuel : Nat) (acc : Heap × UndoStackRef) :
    (UndoClearStackRef.loop M fuel acc).1.cells.length = acc.1.cells.length ∧
    ∀ a, (∀ i, a ∉ blocksOf (acc.2.d.getD i UndoStateRef.empty).group) →
      (UndoClearStackRef.loop M fuel acc).1.cells.getD a none = acc.1.cells.getD a none := by
  induction fuel generalizing acc with
  | zero => exact ⟨rfl, fun _ _ => rfl⟩
  | succ fuel ih =>
    simp only [UndoClearStackRef.loop]
    split
    · obtain ⟨hl, hf⟩ := ih (UndoClearStackRef.pass M acc)
      obtain ⟨pl, pf⟩ := clear_ref_pass_frame M acc
      refine ⟨hl.trans pl, ?_⟩
      intro a ha
      rw [hf a (pf a ha).2, (pf a ha).1]
    · exact ⟨rfl, fun _ _ => rfl⟩

theorem clear_ref_frame (M : Nat) (p : SolveSpaceUIRef) (sel : StackSel) :
    (UndoClearStackRef M p sel).heap.cells.length = p.heap.cells.length ∧
    (∀ a, (∀ i, a ∉ p.slotBlocks sel i) →
      (UndoClearStackRef M p sel).heap.cells.getD a none = p.heap.cells.getD a none) ∧
    (UndoClearStackRef M p sel).SK = p.SK ∧
    (UndoClearStackRef M p sel).activeGroup = p.activeGroup ∧
    (UndoClearStackRef M p sel).stack sel = UndoStackRef.empty M ∧
    (∀ sel2, sel2 ≠ sel → (UndoClearStackRef M p sel).stack sel2 = p.stack sel2) ∧
    (UndoClearStackRef M p sel).unsaved = p.unsaved ∧
    (UndoClearStackRef M p sel).showTW = p.showTW ∧
    (UndoClearStackRef M p sel).calls = p.calls := by
  obtain ⟨hl, hf⟩ := clear_ref_loop_frame M (p.stack sel).cnt.toNat (p.heap, p.stack sel)
  refine ⟨hl, hf, ?_, ?_, ?_, ?_, ?_, ?_, ?_⟩
  · cases sel <;> rfl
  · cases sel <;> rfl
  · cases sel <;> rfl
  · intro sel2 hne
    cases sel <;> cases sel2 <;> first | rfl | exact absurd rfl hne
  · cases sel <;> rfl
  · cases sel <;> rfl
  · cases sel <;> rfl

theorem read_empty_stack (M : Nat) (H : Heap) :
    (UndoStackRef.empty M).read H = UndoStack.empty M := by
  simp [UndoStackRef.read, UndoStackRef.empty, UndoStack.empty, read_slot_empty]

theorem slotBlocks_empty (M : Nat) (p : SolveSpaceUIRef) (sel : StackSel) (i a : Nat)
    (h : p.stack sel = UndoStackRef.empty M) : a ∉ p.slotBlocks sel i := by
  simp only [SolveSpaceUIRef.slotBlocks, h, UndoStackRef.empty]
  by_cases hi : i < M
  · simp [List.getElem?_replicate, hi, blocksOf, UndoStateRef.empty]
  · simp [List.getElem?_replicate, hi, blocksOf, UndoStateRef.empty]

/-- Stack clear with remaps held by reference stands for stack clear on
values, as long as the slots it frees share no block with anything else. -/
theorem read_clear (M : Nat) (p : SolveSpaceUIRef) (sel : StackSel) (h : NoAliasing p) :
    (UndoClearStackRef M p sel).read = UndoClearStack M p.read sel := by
  obtain ⟨_, hf, hSK, hag, hst, hoth, hun, htw, hcalls⟩ := clear_ref_frame M p sel
  obtain ⟨_, _, h3, h4⟩ := h
  have hother : ∀ sel2, sel2 ≠ sel →
      ((UndoClearStackRef M p sel).stack sel2).read (UndoClearStackRef M p sel).heap
        = (p.stack sel2).read p.heap := by
    intro sel2 hne
    rw [hoth sel2 hne]
    apply read_stack_agree
    intro i a ha
    exact hf a (fun j hm => h4 sel2 i sel j (fun e => hne (Prod.mk.inj e).1) a ha hm)
  have hsame : ((UndoClearStackRef M p sel).stack sel).read (UndoClearStackRef M p sel).heap
      = UndoStack.empty M := by
    rw [hst]
    exact read_empty_stack M _
  have hval : UndoClearStack M p.read sel = p.read.setStack sel (UndoStack.empty M) := rfl
  rw [hval]
  apply state_ext
  · show (UndoClearStackRef M p sel).SK.read (UndoClearStackRef M p sel).heap = _
    rw [hSK, SK_setStack]
    apply read_sketch_agree
    intro a ha
    exact hf a (fun j hm => h3 sel j a hm ha)
  · show (UndoClearStackRef M p sel).activeGroup = _
    rw [hag, activeGroup_setStack]
    rfl
  · cases sel with
    | undo => exact hsame
    | redo => exact hother StackSel.undo (by decide)
  · cases sel with
    | undo => exact hother StackSel.redo (by decide)
    | redo => exact hsame
  · show (UndoClearStackRef M p sel).unsaved = _
    rw [hun, unsaved_setStack]
    rfl
  · show (UndoClearStackRef M p sel).showTW = _
    rw [htw, showTW_setStack]
    rfl
  · show (UndoClearStackRef M p sel).calls = _
    rw [hcalls, calls_setStack]
    rfl

/-- Stack clear keeps the buffers and the live document free of shared
blocks. -/
theorem NoAliasing_clear (M : Nat) (p : SolveSpaceUIRef) (sel : StackSel) (h : NoAliasing p) :
    NoAliasing (UndoClearStackRef M p sel) := by
  obtain ⟨hl, _, hSK, _, hst, hoth, _⟩ := clear_ref_frame M p sel
  obtain ⟨h1, h2, h3, h4⟩ := h
  have hchar : ∀ sel2 i a, a ∈ (UndoClearStackRef M p sel).slotBlocks sel2 i →
      a ∈ p.slotBlocks sel2 i := by
    intro sel2 i a ha
    by_cases hs : sel2 = sel
    · subst hs
      exact absurd ha (slotBlocks_empty M _ sel2 i a hst)
    · simp only [SolveSpaceUIRef.slotBlocks, hoth sel2 hs] at ha
      exact ha
  refine ⟨?_, ?_, ?_, ?_⟩
  · intro a ha
    rw [hSK] at ha
    rw [hl]
    exact h1 a ha
  · intro sel2 i a ha
    rw [hl]
    exact h2 sel2 i a (hchar sel2 i a ha)
  · intro sel2 i a ha hlive
    rw [hSK] at hlive
    exact h3 sel2 i a (hchar sel2 i a ha) hlive
  · intro sel2 i sel3 j hne a ha hb
    exact h4 sel2 i sel3 j hne a (hchar sel2 i a ha) (hchar sel3 j a hb)

theorem NoAliasing_congr (p q : SolveSpaceUIRef) (hh : q.heap = p.heap) (hSK : q.SK = p.SK)
    (hu : q.undo = p.undo) (hr : q.redo = p.redo) (h : NoAliasing p) : NoAliasing q := by
  have hst : ∀ sel, q.stack sel = p.stack sel := by
    intro sel
    cases sel
    · exact hu
    · exact hr
  unfold NoAliasing SolveSpaceUIRef.slotBlocks at *
  simp only [hh, hSK, hst]
  exact h

theorem read_enable (p : SolveSpaceUIRef) :
    (UndoEnableMenusRef p).read = UndoEnableMenus p.read := rfl

theorem NoAliasing_enable (p : SolveSpaceUIRef) (h : NoAliasing p) :
    NoAliasing (UndoEnableMenusRef p) :=
  NoAliasing_congr p _ rfl rfl rfl rfl h

/-- `UndoRemember` with remaps held by reference stands for `UndoRemember` on
values and leaves no block shared. -/
theorem read_remember (M : Nat) (p : SolveSpaceUIRef) (h : NoAliasing p) :
    (UndoRememberRef M p).read = UndoRemember M p.read ∧ NoAliasing (UndoRememberRef M p) := by
  have h0 : NoAliasing { p with unsaved := true } := NoAliasing_congr p _ rfl rfl rfl rfl h
  have h1 := NoAliasing_push M _ StackSel.undo h0
  have h2 := NoAliasing_clear M _ StackSel.redo h1
  refine ⟨?_, NoAliasing_enable _ h2⟩
  unfold UndoRememberRef UndoRemember
  rw [read_enable, read_clear M _ StackSel.redo h1, read_push M _ StackSel.undo h0]
  rfl

/-- `UndoUndo` with remaps held by reference stands for `UndoUndo` on values
and leaves no block shared. -/
theorem read_undo (M : Nat) (p : SolveSpaceUIRef) (h : NoAliasing p) :
    (UndoUndoRef M p).map SolveSpaceUIRef.read = UndoUndo M p.read ∧
    ∀ q, UndoUndoRef M p = some q → NoAliasing q := by
  by_cases hc : p.undo.cnt ≤ 0
  · have hv : UndoUndo M p.read = some p.read := undo_of_empty M p.read hc
    have hr : UndoUndoRef M p = some p := by simp [UndoUndoRef, hc]
    rw [hr, hv]
    refine ⟨rfl, ?_⟩
    intro q hq
    cases Option.some.inj hq
    exact h
  · have h1 := NoAliasing_push M p StackSel.redo h
    have hpop := read_pop M _ StackSel.undo h1
    rw [read_push M p StackSel.redo h] at hpop
    have hc2 : ¬ p.read.undo.cnt ≤ 0 := hc
    have hv : UndoUndo M p.read
        = match PopOntoCurrentFrom M (PushFromCurrentOnto M p.read StackSel.redo)
            StackSel.undo with
          | none => none
          | some s => some (UndoEnableMenus s) := by
      simp [UndoUndo, hc2]
    have hr : UndoUndoRef M p
        = match PopOntoCurrentFromRef M (PushFromCurrentOntoRef M p StackSel.redo)
            StackSel.undo with
          | none => none
          | some q => some (UndoEnableMenusRef q) := by
      simp [UndoUndoRef, hc]
    rw [hv, hr, ← hpop]
    cases hq : PopOntoCurrentFromRef M (PushFromCurrentOntoRef M p StackSel.redo)
        StackSel.undo with
    | none =>
      refine ⟨rfl, ?_⟩
      intro q e
      exact Option.noConfusion e
    | some q0 =>
      refine ⟨rfl, ?_⟩
      intro q e
      cases Option.some.inj e
      exact NoAliasing_enable _ (NoAliasing_pop M _ q0 StackSel.undo h1 hq)

/-- An edit of the live document leaves no block shared and leaves every
snapshot of both buffers, remap entries included, as it was. -/
theorem LiveEdit_frame (p q : SolveSpaceUIRef) (h : NoAliasing p) (he : LiveEdit p q) :
    NoAliasing q ∧ q.undo.read q.heap = p.undo.read p.heap ∧
    q.redo.read q.heap = p.redo.read p.heap := by
  obtain ⟨eu, er, hlen, hcell, hnew⟩ := he
  obtain ⟨h1, h2, h3, h4⟩ := h
  have hst : ∀ sel, q.stack sel = p.stack sel := by
    intro sel
    cases sel
    · exact eu
    · exact er
  have hsb : ∀ sel i, q.slotBlocks sel i = p.slotBlocks sel i := by
    intro sel i
    simp only [SolveSpaceUIRef.slotBlocks, hst]
  have hagree : ∀ sel i, p.heap.agree q.heap
      (blocksOf ((p.stack sel).d.getD i UndoStateRef.empty).group) := by
    intro sel i a ha
    exact hcell a (h2 sel i a ha) (h3 sel i a ha)
  refine ⟨⟨?_, ?_, ?_, ?_⟩, ?_, ?_⟩
  · intro a ha
    exact (hnew a ha).1
  · intro sel i a ha
    rw [hsb] at ha
    have := h2 sel i a ha
    omega
  · intro sel i a ha hl
    rw [hsb] at ha
    rcases (hnew a hl).2 with hold | hfresh
    · exact h3 sel i a ha hold
    · have := h2 sel i a ha
      omega
  · intro sel i sel2 j hne a ha hb
    rw [hsb] at ha hb
    exact h4 sel i sel2 j hne a ha hb
  · rw [eu]
    exact read_stack_agree _ _ _ (hagree StackSel.undo)
  · rw [er]
    exact read_stack_agree _ _ _ (hagree StackSel.redo)

theorem NoAliasing_of_empty (M : Nat) (p : SolveSpaceUIRef) (hu : p.undo = UndoStackRef.empty M)
    (hr : p.redo = UndoStackRef.empty M) (hl : ∀ a ∈ blocksOf p.SK.group, a < p.heap.cells.length) :
    NoAliasing p := by
  have hno : ∀ sel i a, a ∉ p.slotBlocks sel i := by
    intro sel i a
    cases sel
    · exact slotBlocks_empty M p StackSel.undo i a hu
    · exact slotBlocks_empty M p StackSel.redo i a hr
  exact ⟨hl, fun sel i a ha => absurd ha (hno sel i a), fun sel i a ha => absurd ha (hno sel i a),
    fun sel i _ _ _ a ha => absurd ha (hno sel i a)⟩

theorem refStateA_noAliasing : NoAliasing refStateA := by
  apply NoAliasing_of_empty 2 refStateA rfl rfl
  intro a ha
  simp [refStateA, blocksOf, sampleGroupRef] at ha
  subst ha
  decide

theorem refStateB_edit : LiveEdit (UndoRememberRef 2 refStateA) refStateB := by
  refine ⟨rfl, rfl, by decide, ?_, ?_⟩
  · intro a ha hna
    have hlen : (UndoRememberRef 2 refStateA).heap.cells.length = 2 := by decide
    rw [hlen] at ha
    have hlive : blocksOf (UndoRememberRef 2 refStateA).SK.group = [0] := by decide
    rw [hlive] at hna
    have ha1 : a = 1 := by
      simp only [List.mem_singleton] at hna
      omega
    subst ha1
    decide
  · intro a ha
    have hlive : blocksOf refStateB.SK.group = [0, 2] := by decide
    rw [hlive] at ha
    simp only [List.mem_cons, List.mem_singleton, List.mem_nil_iff, or_false] at ha
    rcases ha with rfl | rfl
    · exact ⟨by decide, Or.inl (by decide)⟩
    · exact ⟨by decide, Or.inr (by decide)⟩

theorem rfind_none_iff (c : Char) (str : List Char) : rfind str c = none ↔ c ∉ str := by
  induction str with
  | nil => simp [rfind]
  | cons x xs ih =>
    simp only [rfind]
    cases h : rfind xs c with
    | some i =>
      have hmem : c ∈ xs := by
        by_contra hn
        rw [ih.mpr hn] at h
        exact Option.noConfusion h
      simp [hmem]
    | none =>
      have hn : c ∉ xs := ih.mp h
      by_cases hx : x = c
      · simp [hx]
      · have hx2 : ¬ c = x := fun e => hx e.symm
        simp [hx, hx2, hn]

theorem rfind_some (c : Char) (str : List Char) (i : Nat) (h : rfind str c = some i) :
    str.drop (i + 1) = finalComponent c str ∧ c ∉ str.drop (i + 1) ∧
      str[i]? = some c := by
  induction str generalizing i with
  | nil => simp [rfind] at h
  | cons x xs ih =>
    simp only [rfind] at h
    cases h2 : rfind xs c with
    | some j =>
      rw [h2] at h
      simp only [Option.some.injEq] at h
      subst h
      have hmem : c ∈ xs := by
        by_contra hn
        rw [(rfind_none_iff c xs).mpr hn] at h2
        exact Option.noConfusion h2
      obtain ⟨h3, h4, h5⟩ := ih j h2
      refine ⟨?_, ?_, ?_⟩
      · simp only [List.drop_succ_cons, finalComponent, hmem, if_true]
        exact h3
      · simpa only [List.drop_succ_cons] using h4
      · simpa using h5
    | none =>
      rw [h2] at h
      have hn : c ∉ xs := (rfind_none_iff c xs).mp h2
      by_cases hx : x = c
      · simp only [hx, if_true, Option.some.injEq] at h
        subst h
        subst hx
        simp [finalComponent, hn]
      · simp [hx] at h

theorem FontFileBaseName_of_sep (sep : Char) (fontFile : List Char) (h : sep ∈ fontFile) :
    TtfFont.FontFileBaseName sep fontFile = finalComponent sep fontFile := by
  cases hr : rfind fontFile sep with
  | none => exact absurd h ((rfind_none_iff sep fontFile).mp hr)
  | some i =>
    simp only [TtfFont.FontFileBaseName, hr, erase, List.take_zero, List.nil_append,
      Nat.zero_add]
    exact (rfind_some sep fontFile i hr).1

theorem FontFileBaseName_no_sep (sep : Char) (fontFile : List Char) (h : sep ∉ fontFile) :
    TtfFont.FontFileBaseName sep fontFile = [] := by
  simp [TtfFont.FontFileBaseName, (rfind_none_iff sep fontFile).mpr h]

theorem finalComponent_no_sep (sep : Char) (fontFile : List Char) (h : sep ∉ fontFile) :
    finalComponent sep fontFile = fontFile := by
  cases fontFile with
  | nil => rfl
  | cons x xs =>
    have h1 : sep ∉ xs := fun hm => h (List.mem_cons_of_mem x hm)
    have h2 : ¬ x = sep := fun e => h (e ▸ List.mem_cons_self x xs)
    simp [finalComponent, h1, h2]

/-- What `FontFileBaseName` does on every file name: with a separator in the
name the result is the final path component; without one it is the empty
string; the result never contains the separator and the name ends with it. -/
theorem FontFileBaseName_spec (sep : Char) (fontFile : List Char) :
    (sep ∈ fontFile → TtfFont.FontFileBaseName sep fontFile = finalComponent sep fontFile) ∧
    (sep ∉ fontFile → TtfFont.FontFileBaseName sep fontFile = []) ∧
    sep ∉ TtfFont.FontFileBaseName sep fontFile ∧
    TtfFont.FontFileBaseName sep fontFile <:+ fontFile := by
  refine ⟨FontFileBaseName_of_sep sep fontFile, FontFileBaseName_no_sep sep fontFile, ?_, ?_⟩
  · cases hr : rfind fontFile sep with
    | none => simp [TtfFont.FontFileBaseName, hr]
    | some i =>
      simp only [TtfFont.FontFileBaseName, hr, erase, List.take_zero, List.nil_append,
        Nat.zero_add]
      exact (rfind_some sep fontFile i hr).2.1
  · cases hr : rfind fontFile sep with
    | none => simp [TtfFont.FontFileBaseName, hr]
    | some i =>
      simp only [TtfFont.FontFileBaseName, hr, erase, List.take_zero, List.nil_append,
        Nat.zero_add]
      exact List.drop_suffix _ _

/-- C20 at the failing input. For the font file name `arial.ttf`, which has
no path separator, `FontFileBaseName` returns the empty string, while the
final path component of that name is the whole name; for
`/usr/fonts/arial.ttf` it returns `arial.ttf`. -/
theorem FontFileBaseName_bare_name :
    TtfFont.FontFileBaseName '/' fontFileBare = [] ∧
    finalComponent '/' fontFileBare = fontFileBare ∧
    TtfFont.FontFileBaseName '/' fontFileBare ≠ finalComponent '/' fontFileBare ∧
    TtfFont.FontFileBaseName '/' fontFileFull = fontFileBare := by
  decide

end SolveSpace
